import Mathlib

/-!
# ViewFrustum (libraries/shared/src/ViewFrustum.cpp)

A shallow embedding of the view-frustum code.  The C++ `float` is read as an
element of a linearly ordered field `K` (exact arithmetic): every definition
that only uses field operations and comparisons is polymorphic in `K`, so it
runs on `ℚ` and is reasoned about on `ℝ`.  Library functions that leave the
field (`sqrt`, `acos`, the constant pi) are passed in a record `FloatOps K`.
-/

namespace Hifi

/-! ## Vectors, quaternions, matrices (glm) -/

/-- The type glm::vec3. -/
structure Vec3 (K : Type) where
  x : K
  y : K
  z : K
deriving DecidableEq

/-- The type glm::vec4. -/
structure Vec4 (K : Type) where
  x : K
  y : K
  z : K
  w : K
deriving DecidableEq

/-- The type glm::quat (components x, y, z and scalar part w). -/
structure Quat (K : Type) where
  x : K
  y : K
  z : K
  w : K
deriving DecidableEq

/-- The type glm::mat4, stored by columns as glm does: `m[i]` is column `i`. -/
structure Mat4 (K : Type) where
  c0 : Vec4 K
  c1 : Vec4 K
  c2 : Vec4 K
  c3 : Vec4 K
deriving DecidableEq

section Field

variable {K : Type} [LinearOrderedField K]

/-- Componentwise sum, glm `operator+`. -/
def Vec3.add (a b : Vec3 K) : Vec3 K := ⟨a.x + b.x, a.y + b.y, a.z + b.z⟩

/-- Componentwise difference, glm `operator-`. -/
def Vec3.sub (a b : Vec3 K) : Vec3 K := ⟨a.x - b.x, a.y - b.y, a.z - b.z⟩

/-- Scalar times vector, glm `operator*`. -/
def Vec3.smul (s : K) (a : Vec3 K) : Vec3 K := ⟨s * a.x, s * a.y, s * a.z⟩

/-- The function glm::dot on vec3. -/
def Vec3.dot (a b : Vec3 K) : K := a.x * b.x + a.y * b.y + a.z * b.z

/-! ## Collaborators that are not part of ViewFrustum.cpp -/

/-- Modelled from the spec: the class Plane (Plane.h / Plane.cpp) is missing.
The spec gives it "a normal and a reference point (or equivalent
plane-equation coefficients)", a signed `distance(point)` with
`distance(point) ≥ 0` on the interior side, `getNormal()`, and an
`invalidate()` that forces "a degenerate state that fails all distance tests".
The plane is kept in coefficient form; `degenerate` records the state reached
by `invalidate()`. -/
structure Plane (K : Type) where
  normal : Vec3 K
  dCoefficient : K
  degenerate : Bool

/-- Modelled from the spec: Plane::getNormal. -/
def Plane.getNormal (p : Plane K) : Vec3 K := p.normal

/-- Modelled from the spec: Plane::distance, the signed distance
`dot(normal, point) + d`.  In the degenerate state the distance is below every
number (`⊥`), so that every test `distance < t` of the callers succeeds and the
plane rejects whatever is tested against it. -/
def Plane.distance (p : Plane K) (point : Vec3 K) : WithBot K :=
  if p.degenerate then ⊥ else ((Vec3.dot p.normal point + p.dCoefficient : K) : WithBot K)

/-- Modelled from the spec: Plane::invalidate, "force every plane into a
degenerate state that fails all distance tests". -/
def Plane.invalidate (p : Plane K) : Plane K := { p with degenerate := true }

/-- Modelled from the spec: the class AACube (AACube.h / AACube.cpp) is
missing.  An axis-aligned cube is its reference corner (`getCorner()`, the
minimum corner) and its edge length (`getScale()`). -/
structure AACube (K : Type) where
  corner : Vec3 K
  scale : K

/-- Modelled from the spec: AACube::getCorner. -/
def AACube.getCorner (c : AACube K) : Vec3 K := c.corner

/-- Modelled from the spec: AACube::getScale. -/
def AACube.getScale (c : AACube K) : K := c.scale

/-- Modelled from the spec: AACube::calcCenter, the reference corner moved by
half the edge on every axis. -/
def AACube.calcCenter (c : AACube K) : Vec3 K :=
  ⟨c.corner.x + c.scale / 2, c.corner.y + c.scale / 2, c.corner.z + c.scale / 2⟩

/-- Modelled from the spec: AACube::getFarthestVertex, "the cube's farthest
vertex along the plane normal": on every axis the face on the side the normal
points to. -/
def AACube.getFarthestVertex (c : AACube K) (normal : Vec3 K) : Vec3 K :=
  ⟨if 0 < normal.x then c.corner.x + c.scale else c.corner.x,
   if 0 < normal.y then c.corner.y + c.scale else c.corner.y,
   if 0 < normal.z then c.corner.z + c.scale else c.corner.z⟩

/-- Modelled from the spec: AACube::getNearestVertex, the vertex opposite to
the farthest one: on every axis the face on the side the normal points away
from. -/
def AACube.getNearestVertex (c : AACube K) (normal : Vec3 K) : Vec3 K :=
  ⟨if normal.x < 0 then c.corner.x + c.scale else c.corner.x,
   if normal.y < 0 then c.corner.y + c.scale else c.corner.y,
   if normal.z < 0 then c.corner.z + c.scale else c.corner.z⟩

/-- The 8 vertices of the cube. -/
def AACube.vertices (c : AACube K) : List (Vec3 K) :=
  [⟨c.corner.x, c.corner.y, c.corner.z⟩,
   ⟨c.corner.x + c.scale, c.corner.y, c.corner.z⟩,
   ⟨c.corner.x, c.corner.y + c.scale, c.corner.z⟩,
   ⟨c.corner.x + c.scale, c.corner.y + c.scale, c.corner.z⟩,
   ⟨c.corner.x, c.corner.y, c.corner.z + c.scale⟩,
   ⟨c.corner.x + c.scale, c.corner.y, c.corner.z + c.scale⟩,
   ⟨c.corner.x, c.corner.y + c.scale, c.corner.z + c.scale⟩,
   ⟨c.corner.x + c.scale, c.corner.y + c.scale, c.corner.z + c.scale⟩]

/-! ## The frustum state -/

/-- The enum ViewFrustum::intersection. -/
inductive intersection where
  | OUTSIDE
  | INTERSECT
  | INSIDE
deriving DecidableEq, Repr

open intersection

/-- Number of corners of the frustum. -/
abbrev NUM_FRUSTUM_CORNERS : Nat := 8

/-- Number of planes of the frustum. -/
abbrev NUM_FRUSTUM_PLANES : Nat := 6

/-- Corner indices, in the order of NDC_VALUES (the BoxVertex enum). -/
abbrev BOTTOM_LEFT_NEAR : Fin NUM_FRUSTUM_CORNERS := 0
/-- Corner index 1. -/
abbrev BOTTOM_RIGHT_NEAR : Fin NUM_FRUSTUM_CORNERS := 1
/-- Corner index 2. -/
abbrev TOP_RIGHT_NEAR : Fin NUM_FRUSTUM_CORNERS := 2
/-- Corner index 3. -/
abbrev TOP_LEFT_NEAR : Fin NUM_FRUSTUM_CORNERS := 3
/-- Corner index 4. -/
abbrev BOTTOM_LEFT_FAR : Fin NUM_FRUSTUM_CORNERS := 4
/-- Corner index 5. -/
abbrev BOTTOM_RIGHT_FAR : Fin NUM_FRUSTUM_CORNERS := 5
/-- Corner index 6. -/
abbrev TOP_RIGHT_FAR : Fin NUM_FRUSTUM_CORNERS := 6
/-- Corner index 7. -/
abbrev TOP_LEFT_FAR : Fin NUM_FRUSTUM_CORNERS := 7

/-- Plane indices: `enum { TOP_PLANE = 0, BOTTOM_PLANE, LEFT_PLANE,
RIGHT_PLANE, NEAR_PLANE, FAR_PLANE }`. -/
abbrev TOP_PLANE : Fin NUM_FRUSTUM_PLANES := 0
/-- Plane index 1. -/
abbrev BOTTOM_PLANE : Fin NUM_FRUSTUM_PLANES := 1
/-- Plane index 2. -/
abbrev LEFT_PLANE : Fin NUM_FRUSTUM_PLANES := 2
/-- Plane index 3. -/
abbrev RIGHT_PLANE : Fin NUM_FRUSTUM_PLANES := 3
/-- Plane index 4. -/
abbrev NEAR_PLANE : Fin NUM_FRUSTUM_PLANES := 4
/-- Plane index 5. -/
abbrev FAR_PLANE : Fin NUM_FRUSTUM_PLANES := 5

/-- The data members of class ViewFrustum. -/
structure ViewFrustum (K : Type) where
  position : Vec3 K
  orientation : Quat K
  right : Vec3 K
  up : Vec3 K
  direction : Vec3 K
  view : Mat4 K
  projection : Mat4 K
  corners : Fin NUM_FRUSTUM_CORNERS → Vec4 K
  cornersWorld : Fin NUM_FRUSTUM_CORNERS → Vec3 K
  planes : Fin NUM_FRUSTUM_PLANES → Plane K
  nearClip : K
  farClip : K
  aspectRatio : K
  fieldOfView : K
  focalLength : K
  centerSphereRadius : K

/-- The index range of `for (int i = 0; i < NUM_FRUSTUM_PLANES; i++)`. -/
def planeIndices : List (Fin NUM_FRUSTUM_PLANES) := [0, 1, 2, 3, 4, 5]

/-- The loop of calculateCubeFrustumIntersection from plane `i` on, `result`
being the value of the local variable when the iteration starts. -/
def cubeFrustumLoop (F : ViewFrustum K) (cube : AACube K) :
    List (Fin NUM_FRUSTUM_PLANES) → intersection → intersection
  | [], result => result
  | i :: rest, result =>
    let normal := (F.planes i).getNormal
    if (F.planes i).distance (cube.getFarthestVertex normal) < ((0 : K) : WithBot K) then
      OUTSIDE
    else if (F.planes i).distance (cube.getNearestVertex normal) < ((0 : K) : WithBot K) then
      cubeFrustumLoop F cube rest INTERSECT
    else
      cubeFrustumLoop F cube rest result

/-- ViewFrustum::calculateCubeFrustumIntersection. -/
def calculateCubeFrustumIntersection (F : ViewFrustum K) (cube : AACube K) : intersection :=
  cubeFrustumLoop F cube planeIndices INSIDE

/-! ## Library functions outside the field operations -/

/-- The functions of the C and glm libraries that are not field operations.
`sqrt` is sqrtf, `acos` is acosf (it is NaN outside `[-1, 1]`, see
`acosIsNaN`), `pi` is the constant of glm::degrees. -/
structure FloatOps (K : Type) where
  sqrt : K → K
  acos : K → K
  pi : K

/-- The function glm::length on vec3: `sqrt(dot(v, v))`. -/
def Vec3.length (m : FloatOps K) (v : Vec3 K) : K := m.sqrt (Vec3.dot v v)

/-- The function glm::distance on vec3: `length(p1 - p0)`. -/
def Vec3.distance (m : FloatOps K) (p0 p1 : Vec3 K) : K := Vec3.length m (Vec3.sub p1 p0)

/-- The function glm::normalize on vec3: `v * inversesqrt(dot(v, v))`. -/
def Vec3.normalize (m : FloatOps K) (v : Vec3 K) : Vec3 K :=
  Vec3.smul (1 / m.sqrt (Vec3.dot v v)) v

/-- The function glm::degrees: radians times 180 / pi. -/
def degrees (m : FloatOps K) (radians : K) : K := radians * (180 / m.pi)

/-- The per-axis gap between a point and the interval `[lo, lo + len]`:
`max(lo - c, 0) + max(c - lo - len, 0)`. -/
def axisGap (lo len c : K) : K := max (lo - c) 0 + max (c - lo - len) 0

/-- Modelled from the spec: AACube::touchesSphere(center, radius), "the volume
touches the central sphere": the point of the cube nearest to the centre is
within the radius.  A sphere of negative radius is touched by nothing
("negative values ... make every keyhole test fail closed"). -/
def AACube.touchesSphere (c : AACube K) (center : Vec3 K) (radius : K) : Bool :=
  let e : Vec3 K := ⟨axisGap c.corner.x c.scale center.x, axisGap c.corner.y c.scale center.y,
    axisGap c.corner.z c.scale center.z⟩
  decide (0 ≤ radius ∧ Vec3.dot e e ≤ radius * radius)

/-- Modelled from the spec: the class AABox (AABox.h / AABox.cpp) is missing.
An axis-aligned box is its minimum corner and its three edge lengths. -/
structure AABox (K : Type) where
  corner : Vec3 K
  scale : Vec3 K

/-- Modelled from the spec: AABox::getFarthestVertex, "the box's farthest
vertex along that plane's normal". -/
def AABox.getFarthestVertex (b : AABox K) (normal : Vec3 K) : Vec3 K :=
  ⟨if 0 < normal.x then b.corner.x + b.scale.x else b.corner.x,
   if 0 < normal.y then b.corner.y + b.scale.y else b.corner.y,
   if 0 < normal.z then b.corner.z + b.scale.z else b.corner.z⟩

/-- Modelled from the spec: AABox::touchesSphere(center, radius), as for the
cube. -/
def AABox.touchesSphere (b : AABox K) (center : Vec3 K) (radius : K) : Bool :=
  let e : Vec3 K := ⟨axisGap b.corner.x b.scale.x center.x, axisGap b.corner.y b.scale.y center.y,
    axisGap b.corner.z b.scale.z center.z⟩
  decide (0 ≤ radius ∧ Vec3.dot e e ≤ radius * radius)

/-! ## Intersection queries -/

/-- The constant `const float HALF_SQRT_THREE = 0.8660254f`. -/
def HALF_SQRT_THREE : K := 8660254 / 10000000

/-- ViewFrustum::calculateCubeKeyholeIntersection.  `EPSILON` is the constant
of NumericalConstants.h, which is not part of the file. -/
def calculateCubeKeyholeIntersection (m : FloatOps K) (EPSILON : K) (F : ViewFrustum K)
    (cube : AACube K) : intersection :=
  let cubeOffset := Vec3.sub cube.calcCenter F.position
  let distance := Vec3.length m cubeOffset
  let frustumResult := calculateCubeFrustumIntersection F cube
  if EPSILON < distance then
    let vertex := Vec3.sub (cube.getFarthestVertex cubeOffset) F.position
    if Vec3.dot vertex cubeOffset < F.centerSphereRadius * distance then
      INSIDE
    else
      let sphereResult :=
        if !cube.touchesSphere F.position F.centerSphereRadius then OUTSIDE else INTERSECT
      if frustumResult = OUTSIDE then sphereResult else frustumResult
  else if HALF_SQRT_THREE * cube.getScale < F.centerSphereRadius then
    INSIDE
  else
    if frustumResult = OUTSIDE then INTERSECT else frustumResult

/-- The loop of pointIntersectsFrustum. -/
def pointFrustumLoop (F : ViewFrustum K) (point : Vec3 K) : List (Fin NUM_FRUSTUM_PLANES) → Bool
  | [] => true
  | i :: rest =>
    if (F.planes i).distance point < ((0 : K) : WithBot K) then false
    else pointFrustumLoop F point rest

/-- ViewFrustum::pointIntersectsFrustum. -/
def pointIntersectsFrustum (F : ViewFrustum K) (point : Vec3 K) : Bool :=
  pointFrustumLoop F point planeIndices

/-- The loop of sphereIntersectsFrustum (and the second loop of
sphereIntersectsKeyhole, which is the same). -/
def sphereFrustumLoop (F : ViewFrustum K) (center : Vec3 K) (radius : K) :
    List (Fin NUM_FRUSTUM_PLANES) → Bool
  | [] => true
  | i :: rest =>
    if (F.planes i).distance center < ((-radius : K) : WithBot K) then false
    else sphereFrustumLoop F center radius rest

/-- ViewFrustum::sphereIntersectsFrustum. -/
def sphereIntersectsFrustum (F : ViewFrustum K) (center : Vec3 K) (radius : K) : Bool :=
  sphereFrustumLoop F center radius planeIndices

/-- The loop of boxIntersectsFrustum (and of boxIntersectsKeyhole). -/
def boxFrustumLoop (F : ViewFrustum K) (box : AABox K) : List (Fin NUM_FRUSTUM_PLANES) → Bool
  | [] => true
  | i :: rest =>
    let normal := (F.planes i).getNormal
    if (F.planes i).distance (box.getFarthestVertex normal) < ((0 : K) : WithBot K) then false
    else boxFrustumLoop F box rest

/-- ViewFrustum::boxIntersectsFrustum. -/
def boxIntersectsFrustum (F : ViewFrustum K) (box : AABox K) : Bool :=
  boxFrustumLoop F box planeIndices

/-- ViewFrustum::sphereIntersectsKeyhole. -/
def sphereIntersectsKeyhole (m : FloatOps K) (F : ViewFrustum K) (center : Vec3 K)
    (radius : K) : Bool :=
  if Vec3.length m (Vec3.sub center F.position) ≤ radius + F.centerSphereRadius then true
  else sphereFrustumLoop F center radius planeIndices

/-- The loop of cubeIntersectsKeyhole. -/
def cubeKeyholeLoop (F : ViewFrustum K) (cube : AACube K) : List (Fin NUM_FRUSTUM_PLANES) → Bool
  | [] => true
  | i :: rest =>
    let normal := (F.planes i).getNormal
    if (F.planes i).distance (cube.getFarthestVertex normal) < ((0 : K) : WithBot K) then false
    else cubeKeyholeLoop F cube rest

/-- ViewFrustum::cubeIntersectsKeyhole. -/
def cubeIntersectsKeyhole (F : ViewFrustum K) (cube : AACube K) : Bool :=
  if cube.touchesSphere F.position F.centerSphereRadius then true
  else cubeKeyholeLoop F cube planeIndices

/-- ViewFrustum::boxIntersectsKeyhole. -/
def boxIntersectsKeyhole (F : ViewFrustum K) (box : AABox K) : Bool :=
  if box.touchesSphere F.position F.centerSphereRadius then true
  else boxFrustumLoop F box planeIndices

/-- ViewFrustum::invalidate: every plane is invalidated and
`_centerSphereRadius = -1.0e6f`. -/
def invalidate (F : ViewFrustum K) : ViewFrustum K :=
  { F with planes := fun i => (F.planes i).invalidate, centerSphereRadius := -1000000 }

/-! ## Quaternions and the similarity comparator -/

/-- The glm quaternion product `p * q`. -/
def Quat.mul (p q : Quat K) : Quat K :=
  { w := p.w * q.w - p.x * q.x - p.y * q.y - p.z * q.z
    x := p.w * q.x + p.x * q.w + p.y * q.z - p.z * q.y
    y := p.w * q.y + p.y * q.w + p.z * q.x - p.x * q.z
    z := p.w * q.z + p.z * q.w + p.x * q.y - p.y * q.x }

/-- The function glm::dot on quaternions. -/
def Quat.dot (p q : Quat K) : K := p.x * q.x + p.y * q.y + p.z * q.z + p.w * q.w

/-- The function glm::conjugate. -/
def Quat.conjugate (q : Quat K) : Quat K := { w := q.w, x := -q.x, y := -q.y, z := -q.z }

/-- The function glm::inverse on quaternions: `conjugate(q) / dot(q, q)`. -/
def Quat.inverse (q : Quat K) : Quat K :=
  let c := Quat.conjugate q
  let d := Quat.dot q q
  { w := c.w / d, x := c.x / d, y := c.y / d, z := c.z / d }

/-- The function glm::angle on quaternions: `acos(q.w) * 2`. -/
def Quat.angle (m : FloatOps K) (q : Quat K) : K := m.acos q.w * 2

/-- The float acosf is NaN exactly when its argument is outside `[-1, 1]`. -/
def acosIsNaN (x : K) : Bool := decide (x < -1 ∨ 1 < x)

/-- The function glm::angleAxis: the rotation by `angle` radians about the axis
`v`, given the sine and cosine of the half angle. -/
def angleAxisOfHalf (cosHalf sinHalf : K) (v : Vec3 K) : Quat K :=
  { w := cosHalf, x := v.x * sinHalf, y := v.y * sinHalf, z := v.z * sinHalf }

/-- The overload `testMatches(float lhs, float rhs, float epsilon)`. -/
def testMatches (lhs rhs epsilon : K) : Bool := decide (|lhs - rhs| ≤ epsilon)

/-- ViewFrustum::isVerySimilar, the returned `result` (the `debug` flag only
adds logging).  `EPSILON` is the default tolerance of testMatches, a constant
of NumericalConstants.h. -/
def isVerySimilar (m : FloatOps K) (EPSILON : K) (self compareTo : ViewFrustum K) : Bool :=
  let POSITION_SIMILAR_ENOUGH : K := 5
  let positionDistance := Vec3.distance m self.position compareTo.position
  let ORIENTATION_SIMILAR_ENOUGH : K := 10
  let dQOrientation := Quat.mul self.orientation (Quat.inverse compareTo.orientation)
  let sameOrientation : Bool := decide (compareTo.orientation = self.orientation)
  let angleOrientation : K :=
    if sameOrientation then 0 else degrees m (Quat.angle m dQOrientation)
  let angleOrientation : K :=
    if !sameOrientation && acosIsNaN dQOrientation.w then 0 else angleOrientation
  testMatches 0 positionDistance POSITION_SIMILAR_ENOUGH &&
    testMatches 0 angleOrientation ORIENTATION_SIMILAR_ENOUGH &&
    testMatches compareTo.fieldOfView self.fieldOfView EPSILON &&
    testMatches compareTo.aspectRatio self.aspectRatio EPSILON &&
    testMatches compareTo.nearClip self.nearClip EPSILON &&
    testMatches compareTo.farClip self.farClip EPSILON &&
    testMatches compareTo.focalLength self.focalLength EPSILON

/-! ## Pick ray -/

/-- The class PickRay: an origin and a direction. -/
structure PickRay (K : Type) where
  origin : Vec3 K
  direction : Vec3 K

/-- ViewFrustum::computePickRay(x, y, origin, direction), the two outputs
returned as a PickRay (as the two-argument overload does). -/
def computePickRay (m : FloatOps K) (F : ViewFrustum K) (x y : K) : PickRay K :=
  let origin := Vec3.add
    (Vec3.add (F.cornersWorld TOP_LEFT_NEAR)
      (Vec3.smul x (Vec3.sub (F.cornersWorld TOP_RIGHT_NEAR) (F.cornersWorld TOP_LEFT_NEAR))))
    (Vec3.smul y (Vec3.sub (F.cornersWorld BOTTOM_LEFT_NEAR) (F.cornersWorld TOP_LEFT_NEAR)))
  { origin := origin, direction := Vec3.normalize m (Vec3.sub origin F.position) }

/-! ## Matrices and the projection setter -/

/-- Componentwise product of vec4, glm `operator*`. -/
def Vec4.mul (a b : Vec4 K) : Vec4 K := ⟨a.x * b.x, a.y * b.y, a.z * b.z, a.w * b.w⟩

/-- Componentwise sum of vec4. -/
def Vec4.add (a b : Vec4 K) : Vec4 K := ⟨a.x + b.x, a.y + b.y, a.z + b.z, a.w + b.w⟩

/-- Componentwise difference of vec4. -/
def Vec4.sub (a b : Vec4 K) : Vec4 K := ⟨a.x - b.x, a.y - b.y, a.z - b.z, a.w - b.w⟩

/-- Vector times scalar, glm `operator*`. -/
def Vec4.smul (a : Vec4 K) (s : K) : Vec4 K := ⟨a.x * s, a.y * s, a.z * s, a.w * s⟩

/-- Vector divided by scalar, glm `operator/=`. -/
def Vec4.divScalar (a : Vec4 K) (s : K) : Vec4 K := ⟨a.x / s, a.y / s, a.z / s, a.w / s⟩

/-- The conversion `glm::vec3(v)` of a vec4: the first three components. -/
def Vec4.toVec3 (a : Vec4 K) : Vec3 K := ⟨a.x, a.y, a.z⟩

/-- Matrix times column vector, glm `operator*`. -/
def Mat4.mulVec (M : Mat4 K) (v : Vec4 K) : Vec4 K :=
  ⟨M.c0.x * v.x + M.c1.x * v.y + M.c2.x * v.z + M.c3.x * v.w,
   M.c0.y * v.x + M.c1.y * v.y + M.c2.y * v.z + M.c3.y * v.w,
   M.c0.z * v.x + M.c1.z * v.y + M.c2.z * v.z + M.c3.z * v.w,
   M.c0.w * v.x + M.c1.w * v.y + M.c2.w * v.z + M.c3.w * v.w⟩

/-- Matrix product, glm `operator*`: column `j` of `A * B` is `A * B[j]`. -/
def Mat4.mul (A B : Mat4 K) : Mat4 K :=
  ⟨A.mulVec B.c0, A.mulVec B.c1, A.mulVec B.c2, A.mulVec B.c3⟩

/-- The identity matrix `mat4()`. -/
def Mat4.identity : Mat4 K := ⟨⟨1, 0, 0, 0⟩, ⟨0, 1, 0, 0⟩, ⟨0, 0, 1, 0⟩, ⟨0, 0, 0, 1⟩⟩

/-- The function glm::inverse on mat4 (cofactor expansion, as glm computes it;
`m[i][j]` is component `j` of column `i`). -/
def Mat4.inverse (m : Mat4 K) : Mat4 K :=
  let Coef00 := m.c2.z * m.c3.w - m.c3.z * m.c2.w
  let Coef02 := m.c1.z * m.c3.w - m.c3.z * m.c1.w
  let Coef03 := m.c1.z * m.c2.w - m.c2.z * m.c1.w
  let Coef04 := m.c2.y * m.c3.w - m.c3.y * m.c2.w
  let Coef06 := m.c1.y * m.c3.w - m.c3.y * m.c1.w
  let Coef07 := m.c1.y * m.c2.w - m.c2.y * m.c1.w
  let Coef08 := m.c2.y * m.c3.z - m.c3.y * m.c2.z
  let Coef10 := m.c1.y * m.c3.z - m.c3.y * m.c1.z
  let Coef11 := m.c1.y * m.c2.z - m.c2.y * m.c1.z
  let Coef12 := m.c2.x * m.c3.w - m.c3.x * m.c2.w
  let Coef14 := m.c1.x * m.c3.w - m.c3.x * m.c1.w
  let Coef15 := m.c1.x * m.c2.w - m.c2.x * m.c1.w
  let Coef16 := m.c2.x * m.c3.z - m.c3.x * m.c2.z
  let Coef18 := m.c1.x * m.c3.z - m.c3.x * m.c1.z
  let Coef19 := m.c1.x * m.c2.z - m.c2.x * m.c1.z
  let Coef20 := m.c2.x * m.c3.y - m.c3.x * m.c2.y
  let Coef22 := m.c1.x * m.c3.y - m.c3.x * m.c1.y
  let Coef23 := m.c1.x * m.c2.y - m.c2.x * m.c1.y
  let Fac0 : Vec4 K := ⟨Coef00, Coef00, Coef02, Coef03⟩
  let Fac1 : Vec4 K := ⟨Coef04, Coef04, Coef06, Coef07⟩
  let Fac2 : Vec4 K := ⟨Coef08, Coef08, Coef10, Coef11⟩
  let Fac3 : Vec4 K := ⟨Coef12, Coef12, Coef14, Coef15⟩
  let Fac4 : Vec4 K := ⟨Coef16, Coef16, Coef18, Coef19⟩
  let Fac5 : Vec4 K := ⟨Coef20, Coef20, Coef22, Coef23⟩
  let V0 : Vec4 K := ⟨m.c1.x, m.c0.x, m.c0.x, m.c0.x⟩
  let V1 : Vec4 K := ⟨m.c1.y, m.c0.y, m.c0.y, m.c0.y⟩
  let V2 : Vec4 K := ⟨m.c1.z, m.c0.z, m.c0.z, m.c0.z⟩
  let V3 : Vec4 K := ⟨m.c1.w, m.c0.w, m.c0.w, m.c0.w⟩
  let Inv0 := Vec4.add (Vec4.sub (Vec4.mul V1 Fac0) (Vec4.mul V2 Fac1)) (Vec4.mul V3 Fac2)
  let Inv1 := Vec4.add (Vec4.sub (Vec4.mul V0 Fac0) (Vec4.mul V2 Fac3)) (Vec4.mul V3 Fac4)
  let Inv2 := Vec4.add (Vec4.sub (Vec4.mul V0 Fac1) (Vec4.mul V1 Fac3)) (Vec4.mul V3 Fac5)
  let Inv3 := Vec4.add (Vec4.sub (Vec4.mul V0 Fac2) (Vec4.mul V1 Fac4)) (Vec4.mul V2 Fac5)
  let SignA : Vec4 K := ⟨1, -1, 1, -1⟩
  let SignB : Vec4 K := ⟨-1, 1, -1, 1⟩
  let I0 := Vec4.mul Inv0 SignA
  let I1 := Vec4.mul Inv1 SignB
  let I2 := Vec4.mul Inv2 SignA
  let I3 := Vec4.mul Inv3 SignB
  let Row0 : Vec4 K := ⟨I0.x, I1.x, I2.x, I3.x⟩
  let Dot0 := Vec4.mul m.c0 Row0
  let Dot1 := (Dot0.x + Dot0.y) + (Dot0.z + Dot0.w)
  let OneOverDeterminant := 1 / Dot1
  ⟨Vec4.smul I0 OneOverDeterminant, Vec4.smul I1 OneOverDeterminant,
   Vec4.smul I2 OneOverDeterminant, Vec4.smul I3 OneOverDeterminant⟩

/-- The table NDC_VALUES, in the order of the corner indices. -/
def NDC_VALUES : Fin NUM_FRUSTUM_CORNERS → Vec4 K
  | 0 => ⟨-1, -1, -1, 1⟩
  | 1 => ⟨1, -1, -1, 1⟩
  | 2 => ⟨1, 1, -1, 1⟩
  | 3 => ⟨-1, 1, -1, 1⟩
  | 4 => ⟨-1, -1, 1, 1⟩
  | 5 => ⟨1, -1, 1, 1⟩
  | 6 => ⟨1, 1, 1, 1⟩
  | 7 => ⟨-1, 1, 1, 1⟩

/-- The function glm::clamp. -/
def clamp (x lo hi : K) : K := min (max x lo) hi

/-- The function glm::angle on two vec3 (gtx/vector_angle):
`acos(clamp(dot(x, y), -1, 1))`. -/
def Vec3.angle (m : FloatOps K) (a b : Vec3 K) : K := m.acos (clamp (Vec3.dot a b) (-1) 1)

/-- ViewFrustum::setProjection. -/
def setProjection (m : FloatOps K) (F : ViewFrustum K) (projection : Mat4 K) : ViewFrustum K :=
  let inverseProjection := Mat4.inverse projection
  let corners : Fin NUM_FRUSTUM_CORNERS → Vec4 K := fun i =>
    let c := inverseProjection.mulVec (NDC_VALUES i)
    Vec4.divScalar c c.w
  let top0 := inverseProjection.mulVec ⟨0, 1, -1, 1⟩
  let top := Vec4.divScalar top0 top0.w
  { F with
    projection := projection
    corners := corners
    nearClip := -(corners BOTTOM_LEFT_NEAR).z
    farClip := -(corners BOTTOM_LEFT_FAR).z
    aspectRatio := ((corners TOP_RIGHT_NEAR).x - (corners BOTTOM_LEFT_NEAR).x) /
      ((corners TOP_RIGHT_NEAR).y - (corners BOTTOM_LEFT_NEAR).y)
    fieldOfView :=
      |degrees m (2 * |Vec3.angle m ⟨0, 0, -1⟩ (Vec3.normalize m top.toVec3)|)| }

/-- The matrix built by glm::perspective from the tangent of half the vertical
field of view, the aspect ratio and the two clip distances. -/
def perspective (tanHalfFovy aspect zNear zFar : K) : Mat4 K :=
  ⟨⟨1 / (aspect * tanHalfFovy), 0, 0, 0⟩,
   ⟨0, 1 / tanHalfFovy, 0, 0⟩,
   ⟨0, 0, -(zFar + zNear) / (zFar - zNear), -1⟩,
   ⟨0, 0, -(2 * zFar * zNear) / (zFar - zNear), 0⟩⟩

/-! ## The frustum builder -/

/-- Negated vector, glm unary `operator-`. -/
def Vec3.neg (a : Vec3 K) : Vec3 K := ⟨-a.x, -a.y, -a.z⟩

/-- The function glm::cross. -/
def Vec3.cross (a b : Vec3 K) : Vec3 K :=
  ⟨a.y * b.z - b.y * a.z, a.z * b.x - b.z * a.x, a.x * b.y - b.x * a.y⟩

/-- Modelled from the spec: Plane::set3Points(p0, p1, p2), "counter-clockwise
winding defines normal": the unit normal is the normalized cross product of the
two edges leaving `p0`, and the plane passes through the given points. -/
def Plane.set3Points (m : FloatOps K) (p0 p1 p2 : Vec3 K) : Plane K :=
  let normal := Vec3.normalize m (Vec3.cross (Vec3.sub p1 p0) (Vec3.sub p2 p0))
  { normal := normal, dCoefficient := -(Vec3.dot normal p0), degenerate := false }

/-- The function glm::translate(v): the identity with last column `(v, 1)`. -/
def Mat4.translate (v : Vec3 K) : Mat4 K :=
  ⟨⟨1, 0, 0, 0⟩, ⟨0, 1, 0, 0⟩, ⟨0, 0, 1, 0⟩, ⟨v.x, v.y, v.z, 1⟩⟩

/-- The conversion `glm::mat4(glm::mat3(a, b, c))`: the three columns, extended
by the last row and column of the identity. -/
def Mat4.ofColumns3 (a b c : Vec3 K) : Mat4 K :=
  ⟨⟨a.x, a.y, a.z, 0⟩, ⟨b.x, b.y, b.z, 0⟩, ⟨c.x, c.y, c.z, 0⟩, ⟨0, 0, 0, 1⟩⟩

/-- ViewFrustum::calculate. -/
def calculate (m : FloatOps K) (F : ViewFrustum K) : ViewFrustum K :=
  let worldMatrix := Mat4.mul (Mat4.translate F.position)
    (Mat4.ofColumns3 F.right F.up (Vec3.neg F.direction))
  let cornersWorld : Fin NUM_FRUSTUM_CORNERS → Vec3 K := fun i =>
    let v := worldMatrix.mulVec (F.corners i)
    (Vec4.divScalar v v.w).toVec3
  let planes : Fin NUM_FRUSTUM_PLANES → Plane K
    | 0 => Plane.set3Points m (cornersWorld TOP_RIGHT_NEAR) (cornersWorld TOP_LEFT_NEAR)
        (cornersWorld TOP_LEFT_FAR)
    | 1 => Plane.set3Points m (cornersWorld BOTTOM_LEFT_NEAR) (cornersWorld BOTTOM_RIGHT_NEAR)
        (cornersWorld BOTTOM_RIGHT_FAR)
    | 2 => Plane.set3Points m (cornersWorld BOTTOM_LEFT_NEAR) (cornersWorld BOTTOM_LEFT_FAR)
        (cornersWorld TOP_LEFT_FAR)
    | 3 => Plane.set3Points m (cornersWorld BOTTOM_RIGHT_FAR) (cornersWorld BOTTOM_RIGHT_NEAR)
        (cornersWorld TOP_RIGHT_FAR)
    | 4 => Plane.set3Points m (cornersWorld BOTTOM_RIGHT_NEAR) (cornersWorld BOTTOM_LEFT_NEAR)
        (cornersWorld TOP_LEFT_NEAR)
    | 5 => Plane.set3Points m (cornersWorld BOTTOM_LEFT_FAR) (cornersWorld BOTTOM_RIGHT_FAR)
        (cornersWorld TOP_RIGHT_FAR)
  { F with cornersWorld := cornersWorld, planes := planes }

/-! ## Furthest vertex, depth-plane corners and the pose setters -/

/-- ViewFrustum::getFurthestPointFromCamera, the output `furthestPoint`. -/
def getFurthestPointFromCamera (F : ViewFrustum K) (box : AACube K) : Vec3 K :=
  let bottomNearRight := box.getCorner
  let scale := box.getScale
  let halfScale := scale * (1 / 2)
  ⟨if F.position.x < bottomNearRight.x + halfScale then bottomNearRight.x + scale
    else bottomNearRight.x,
   if F.position.y < bottomNearRight.y + halfScale then bottomNearRight.y + scale
    else bottomNearRight.y,
   if F.position.z < bottomNearRight.z + halfScale then bottomNearRight.z + scale
    else bottomNearRight.z⟩

/-- ViewFrustum::distanceToCamera: `sqrtf(dot(temp, temp))` for
`temp = getPosition() - point`. -/
def distanceToCamera (m : FloatOps K) (F : ViewFrustum K) (point : Vec3 K) : K :=
  let temp := Vec3.sub F.position point
  m.sqrt (Vec3.dot temp temp)

/-- The struct ViewFrustum::Corners returned by getCorners. -/
structure Corners (K : Type) where
  topLeft : Vec3 K
  topRight : Vec3 K
  bottomLeft : Vec3 K
  bottomRight : Vec3 K

/-- The lambda `getCorner(nearCorner, farCorner)` of ViewFrustum::getCorners. -/
def getCorner (m : FloatOps K) (F : ViewFrustum K) (depth : K)
    (nearCorner farCorner : Fin NUM_FRUSTUM_CORNERS) : Vec3 K :=
  let normal := Vec3.normalize m F.direction
  let dir := Vec3.normalize m (Vec3.sub (F.cornersWorld nearCorner) (F.cornersWorld farCorner))
  let factor := depth / Vec3.dot dir normal
  Vec3.add F.position (Vec3.smul factor dir)

/-- ViewFrustum::getCorners. -/
def getCorners (m : FloatOps K) (F : ViewFrustum K) (depth : K) : Corners K :=
  { topLeft := getCorner m F depth TOP_LEFT_NEAR TOP_LEFT_FAR
    topRight := getCorner m F depth TOP_RIGHT_NEAR TOP_RIGHT_FAR
    bottomLeft := getCorner m F depth BOTTOM_LEFT_NEAR BOTTOM_LEFT_FAR
    bottomRight := getCorner m F depth BOTTOM_RIGHT_NEAR BOTTOM_RIGHT_FAR }

/-- Modelled from the spec: the constant IDENTITY_RIGHT of GLMHelpers.h is
missing; it is the "canonical right axis" of a camera that looks down the
negative z axis with y up. -/
def IDENTITY_RIGHT : Vec3 K := ⟨1, 0, 0⟩

/-- Modelled from the spec: the constant IDENTITY_UP of GLMHelpers.h is missing;
the "canonical up axis". -/
def IDENTITY_UP : Vec3 K := ⟨0, 1, 0⟩

/-- Modelled from the spec: the constant IDENTITY_FRONT of GLMHelpers.h is
missing; the "canonical forward axis", the same `(0, 0, -1)` that setProjection
uses as forward axis. -/
def IDENTITY_FRONT : Vec3 K := ⟨0, 0, -1⟩

/-- The glm product of a quaternion and a vec3 (the rotation of the vector):
`v + ((uv * q.w) + uuv) * 2` with `uv = cross(q.xyz, v)`, `uuv = cross(q.xyz, uv)`. -/
def Quat.rotate (q : Quat K) (v : Vec3 K) : Vec3 K :=
  let QuatVector : Vec3 K := ⟨q.x, q.y, q.z⟩
  let uv := Vec3.cross QuatVector v
  let uuv := Vec3.cross QuatVector uv
  Vec3.add v (Vec3.smul 2 (Vec3.add (Vec3.smul q.w uv) uuv))

/-- The glm product of a quaternion and a vec4: the xyz part is rotated, `w` is
kept. -/
def Quat.mulVec4 (q : Quat K) (v : Vec4 K) : Vec4 K :=
  let r := Quat.rotate q v.toVec3
  ⟨r.x, r.y, r.z, v.w⟩

/-- The function glm::mat4_cast: the rotation matrix of a quaternion. -/
def Mat4.cast (q : Quat K) : Mat4 K :=
  ⟨⟨1 - 2 * (q.y * q.y + q.z * q.z), 2 * (q.x * q.y + q.w * q.z),
      2 * (q.x * q.z - q.w * q.y), 0⟩,
   ⟨2 * (q.x * q.y - q.w * q.z), 1 - 2 * (q.x * q.x + q.z * q.z),
      2 * (q.y * q.z + q.w * q.x), 0⟩,
   ⟨2 * (q.x * q.z + q.w * q.y), 2 * (q.y * q.z - q.w * q.x),
      1 - 2 * (q.x * q.x + q.y * q.y), 0⟩,
   ⟨0, 0, 0, 1⟩⟩

/-- ViewFrustum::setOrientation. -/
def setOrientation (F : ViewFrustum K) (orientationAsQuaternion : Quat K) : ViewFrustum K :=
  { F with
    orientation := orientationAsQuaternion
    right := (Quat.mulVec4 orientationAsQuaternion
      ⟨(IDENTITY_RIGHT : Vec3 K).x, (IDENTITY_RIGHT : Vec3 K).y, (IDENTITY_RIGHT : Vec3 K).z,
        0⟩).toVec3
    up := (Quat.mulVec4 orientationAsQuaternion
      ⟨(IDENTITY_UP : Vec3 K).x, (IDENTITY_UP : Vec3 K).y, (IDENTITY_UP : Vec3 K).z, 0⟩).toVec3
    direction := (Quat.mulVec4 orientationAsQuaternion
      ⟨(IDENTITY_FRONT : Vec3 K).x, (IDENTITY_FRONT : Vec3 K).y, (IDENTITY_FRONT : Vec3 K).z,
        0⟩).toVec3
    view := Mat4.mul (Mat4.translate F.position) (Mat4.cast orientationAsQuaternion) }

/-- ViewFrustum::setPosition. -/
def setPosition (F : ViewFrustum K) (position : Vec3 K) : ViewFrustum K :=
  { F with
    position := position
    view := Mat4.mul (Mat4.translate position) (Mat4.cast F.orientation) }

/-- The product of the glm::mat3 with columns `a`, `b`, `c` and the vector `v`:
`v.x * a + v.y * b + v.z * c`. -/
def Vec3.combine (a b c v : Vec3 K) : Vec3 K :=
  Vec3.add (Vec3.add (Vec3.smul v.x a) (Vec3.smul v.y b)) (Vec3.smul v.z c)

/-- The centroid of the 8 world corners, the reference interior point of the
frustum. -/
def cornersCentroid (F : ViewFrustum K) : Vec3 K :=
  Vec3.smul (1 / 8)
    (Vec3.add (Vec3.add (Vec3.add (F.cornersWorld 0) (F.cornersWorld 1))
        (Vec3.add (F.cornersWorld 2) (F.cornersWorld 3)))
      (Vec3.add (Vec3.add (F.cornersWorld 4) (F.cornersWorld 5))
        (Vec3.add (F.cornersWorld 6) (F.cornersWorld 7))))

/-- The clip-frame corner of a perspective projection on the ray through the
NDC point `(X, Y)` at distance `ζ` in front of the camera; `t` is the tangent of
half the vertical field of view and `a` the aspect ratio. -/
def perspectiveCorner (t a ζ X Y : K) : Vec3 K := ⟨a * t * ζ * X, t * ζ * Y, -ζ⟩

/-- A frustum configured by the three setters and finalized by calculate(). -/
def configure (m : FloatOps K) (F : ViewFrustum K) (position : Vec3 K) (orientation : Quat K)
    (projection : Mat4 K) : ViewFrustum K :=
  calculate m (setProjection m (setOrientation (setPosition F position) orientation) projection)

/-! ## Off-axis frustum extents -/

/-- The constant FLT_MAX of the C header float.h: the largest finite value of
the binary32 format, `(2 ^ 24 - 1) * 2 ^ 104`. -/
def FLT_MAX : K := (2 ^ 24 - 1) * 2 ^ 104

/-- The function glm::dot on two vec4. -/
def Vec4.dot (a b : Vec4 K) : K := a.x * b.x + a.y * b.y + a.z * b.z + a.w * b.w

/-- The function glm::mix on two vec4 and a scalar: `x * (1 - a) + y * a`. -/
def Vec4.mix (x y : Vec4 K) (a : K) : Vec4 K := Vec4.add (Vec4.smul x (1 - a)) (Vec4.smul y a)

/-- The output parameters of ViewFrustum::computeOffAxisFrustum. -/
structure OffAxisFrustum (K : Type) where
  left : K
  right : K
  bottom : K
  top : K
  nearValue : K
  farValue : K
  nearClipPlane : Vec4 K
  farClipPlane : Vec4 K

/-- The index range of `for (int i = 0; i < NUM_FRUSTUM_CORNERS; i++)`. -/
def cornerIndices : List (Fin NUM_FRUSTUM_CORNERS) := [0, 1, 2, 3, 4, 5, 6, 7]

/-- The index range of `for (int i = 0; i < 4; i++)`. -/
def nearCornerIndices : List (Fin 4) := [0, 1, 2, 3]

/-- The first loop of computeOffAxisFrustum, on the pair (nearValue, farValue):
the minimum and the maximum of `-_corners[i].z`. -/
def offAxisDepthLoop (F : ViewFrustum K) : K × K → List (Fin NUM_FRUSTUM_CORNERS) → K × K
  | acc, [] => acc
  | (nearValue, farValue), i :: rest =>
      offAxisDepthLoop F
        (min nearValue (-(F.corners i).z), max farValue (-(F.corners i).z)) rest

/-- The running values left, right, bottom, top of the second loop of
computeOffAxisFrustum. -/
structure Extents (K : Type) where
  left : K
  right : K
  bottom : K
  top : K

/-- The second loop of computeOffAxisFrustum: each near corner is mixed with
the far corner four places further, the result is scaled to `z = -nearValue`,
and the extents of its x and y are accumulated. -/
def offAxisExtentLoop (F : ViewFrustum K) (nearValue focalProportion : K) :
    Extents K → List (Fin 4) → Extents K
  | acc, [] => acc
  | acc, i :: rest =>
      let corner := Vec4.mix (F.corners ⟨i.val, Nat.lt_of_lt_of_le i.isLt (by decide)⟩)
        (F.corners ⟨i.val + 4, Nat.add_lt_add_right i.isLt 4⟩) focalProportion
      let intersection := Vec4.smul corner (-nearValue / corner.z)
      offAxisExtentLoop F nearValue focalProportion
        { left := min acc.left intersection.x
          right := max acc.right intersection.x
          bottom := min acc.bottom intersection.y
          top := max acc.top intersection.y } rest

/-- ViewFrustum::computeOffAxisFrustum, returning its eight output parameters.
The constant MIN_NEAR is `0.01f`. -/
def computeOffAxisFrustum (F : ViewFrustum K) : OffAxisFrustum K :=
  let depth := offAxisDepthLoop F (FLT_MAX, -FLT_MAX) cornerIndices
  let MIN_NEAR : K := 1 / 100
  let nearValue := max MIN_NEAR depth.1
  let farValue := depth.2
  let normal : Vec4 K := ⟨0, 0, 1, 0⟩
  let nearClipPlane : Vec4 K :=
    ⟨-normal.x, -normal.y, -normal.z, Vec4.dot normal (F.corners 0)⟩
  let farClipPlane : Vec4 K :=
    ⟨normal.x, normal.y, normal.z, -Vec4.dot normal (F.corners 4)⟩
  let focalProportion := (F.focalLength - F.nearClip) / (F.farClip - F.nearClip)
  let extents := offAxisExtentLoop F nearValue focalProportion
    ⟨FLT_MAX, -FLT_MAX, FLT_MAX, -FLT_MAX⟩ nearCornerIndices
  { left := extents.left
    right := extents.right
    bottom := extents.bottom
    top := extents.top
    nearValue := nearValue
    farValue := farValue
    nearClipPlane := nearClipPlane
    farClipPlane := farClipPlane }

/-- The clip-frame corners of the frustum with extents `l`, `r`, `b`, `t` at the
near distance `n` and far distance `f`, in the order of the corner indices: the
near corners are `(l|r, b|t, -n)` and each far corner is its near corner scaled
by `f / n`. -/
def offAxisCorner (l r b t n f : K) : Fin NUM_FRUSTUM_CORNERS → Vec3 K
  | 0 => ⟨l, b, -n⟩
  | 1 => ⟨r, b, -n⟩
  | 2 => ⟨r, t, -n⟩
  | 3 => ⟨l, t, -n⟩
  | 4 => Vec3.smul (f / n) ⟨l, b, -n⟩
  | 5 => Vec3.smul (f / n) ⟨r, b, -n⟩
  | 6 => Vec3.smul (f / n) ⟨r, t, -n⟩
  | 7 => Vec3.smul (f / n) ⟨l, t, -n⟩

/-- The function glm::frustum: the projection matrix of the frustum with the
near rectangle `[left, right] × [bottom, top]` at distance `nearVal` and the far
plane at distance `farVal`. -/
def frustum (left right bottom top nearVal farVal : K) : Mat4 K :=
  ⟨⟨2 * nearVal / (right - left), 0, 0, 0⟩,
   ⟨0, 2 * nearVal / (top - bottom), 0, 0⟩,
   ⟨(right + left) / (right - left), (top + bottom) / (top - bottom),
     -(farVal + nearVal) / (farVal - nearVal), -1⟩,
   ⟨0, 0, -(2 * farVal * nearVal) / (farVal - nearVal), 0⟩⟩

/-! ## Sample data -/

/-- An orthographic projection matrix: it maps the box `[-1, 1] × [-1, 1] ×
[-3, -1]` in front of the camera (near 1, far 3) to the NDC cube, and is its
own inverse. -/
def sampleProjection : Mat4 K := ⟨⟨1, 0, 0, 0⟩, ⟨0, 1, 0, 0⟩, ⟨0, 0, -1, 0⟩, ⟨0, 0, -2, 1⟩⟩

/-- A frustum state used to instantiate the theorems: the state that
setProjection with `sampleProjection` and calculate() produce for the camera at
the origin with the identity orientation (looking down the negative z axis).
The frustum is the box `[-1, 1] × [-1, 1] × [-3, -1]`; the central sphere has
radius 1. -/
def sampleFrustum : ViewFrustum K :=
  { position := ⟨0, 0, 0⟩
    orientation := ⟨0, 0, 0, 1⟩
    right := ⟨1, 0, 0⟩
    up := ⟨0, 1, 0⟩
    direction := ⟨0, 0, -1⟩
    view := Mat4.identity
    projection := sampleProjection
    corners := fun i => match i with
      | 0 => ⟨-1, -1, -1, 1⟩
      | 1 => ⟨1, -1, -1, 1⟩
      | 2 => ⟨1, 1, -1, 1⟩
      | 3 => ⟨-1, 1, -1, 1⟩
      | 4 => ⟨-1, -1, -3, 1⟩
      | 5 => ⟨1, -1, -3, 1⟩
      | 6 => ⟨1, 1, -3, 1⟩
      | 7 => ⟨-1, 1, -3, 1⟩
    cornersWorld := fun i => match i with
      | 0 => ⟨-1, -1, -1⟩
      | 1 => ⟨1, -1, -1⟩
      | 2 => ⟨1, 1, -1⟩
      | 3 => ⟨-1, 1, -1⟩
      | 4 => ⟨-1, -1, -3⟩
      | 5 => ⟨1, -1, -3⟩
      | 6 => ⟨1, 1, -3⟩
      | 7 => ⟨-1, 1, -3⟩
    planes := fun i => match i with
      | 0 => ⟨⟨0, -1, 0⟩, 1, false⟩
      | 1 => ⟨⟨0, 1, 0⟩, 1, false⟩
      | 2 => ⟨⟨1, 0, 0⟩, 1, false⟩
      | 3 => ⟨⟨-1, 0, 0⟩, 1, false⟩
      | 4 => ⟨⟨0, 0, -1⟩, -1, false⟩
      | 5 => ⟨⟨0, 0, 1⟩, 3, false⟩
    nearClip := 1
    farClip := 3
    aspectRatio := 1
    fieldOfView := 90
    focalLength := 2
    centerSphereRadius := 1 }

/-- An invertible projection matrix whose inverse makes the homogeneous
coordinate `w` depend on `x` (a projective map that is not a perspective
projection). -/
def skewProjection : Mat4 K := ⟨⟨1, 0, 0, -1 / 2⟩, ⟨0, 1, 0, 0⟩, ⟨0, 0, 1, 0⟩, ⟨0, 0, 0, 1⟩⟩

end Field

/-- The library functions in exact real arithmetic: the real square root, the
real arc cosine and the real number pi. -/
noncomputable def realOps : FloatOps ℝ := ⟨Real.sqrt, Real.arccos, Real.pi⟩

/-! ## Theorems -/

section Theorems

variable {K : Type} [LinearOrderedField K]

open intersection

/-! ### Shared lemmas on planes and loops -/

/-- A test `distance < t` succeeds exactly when the plane is degenerate or the
plane equation is below `t`. -/
theorem Plane.distance_lt (p : Plane K) (v : Vec3 K) (t : K) :
    p.distance v < (t : WithBot K) ↔
      (p.degenerate = true ∨ Vec3.dot p.normal v + p.dCoefficient < t) := by
  unfold Plane.distance
  cases hd : p.degenerate
  · simp only [Bool.false_eq_true, if_false, WithBot.coe_lt_coe, false_or]
  · simp only [if_true, WithBot.bot_lt_coe, true_or]

/-- Every plane index is visited by the loops. -/
theorem mem_planeIndices (i : Fin NUM_FRUSTUM_PLANES) : i ∈ planeIndices := by
  revert i
  decide

/-- The cube test answers OUTSIDE as soon as one plane in the range rejects the
farthest vertex, whatever was recorded before. -/
theorem cubeFrustumLoop_outside (F : ViewFrustum K) (cube : AACube K)
    (l : List (Fin NUM_FRUSTUM_PLANES)) (result : intersection)
    (h : ∃ i ∈ l, (F.planes i).distance (cube.getFarthestVertex (F.planes i).getNormal)
      < ((0 : K) : WithBot K)) :
    cubeFrustumLoop F cube l result = OUTSIDE := by
  induction l generalizing result with
  | nil => simp at h
  | cons j rest ih =>
    simp only [cubeFrustumLoop]
    by_cases hj : (F.planes j).distance (cube.getFarthestVertex (F.planes j).getNormal)
        < ((0 : K) : WithBot K)
    · rw [if_pos hj]
    · have hrest : ∃ i ∈ rest, (F.planes i).distance
          (cube.getFarthestVertex (F.planes i).getNormal) < ((0 : K) : WithBot K) := by
        obtain ⟨i, hi, hd⟩ := h
        rcases List.mem_cons.mp hi with rfl | hi
        · exact absurd hd hj
        · exact ⟨i, hi, hd⟩
      rw [if_neg hj]
      split
      · exact ih _ hrest
      · exact ih _ hrest

/-- The farthest vertex is one of the 8 vertices of the cube. -/
theorem getFarthestVertex_mem_vertices (cube : AACube K) (normal : Vec3 K) :
    cube.getFarthestVertex normal ∈ cube.vertices := by
  unfold AACube.getFarthestVertex AACube.vertices
  by_cases hx : 0 < normal.x <;> by_cases hy : 0 < normal.y <;> by_cases hz : 0 < normal.z <;>
    simp [hx, hy, hz]

/-- The dot product of a vector with itself is not negative. -/
theorem Vec3.dot_self_nonneg (v : Vec3 K) : 0 ≤ Vec3.dot v v := by
  unfold Vec3.dot
  have hx := mul_self_nonneg v.x
  have hy := mul_self_nonneg v.y
  have hz := mul_self_nonneg v.z
  linarith

/-! ### C1: a cube behind one plane is OUTSIDE -/

/-- Claim C1: if all 8 vertices of the cube have negative signed distance to
one of the 6 planes, calculateCubeFrustumIntersection returns OUTSIDE. -/
theorem c1_cube_outside_of_all_vertices_behind (F : ViewFrustum K) (cube : AACube K)
    (h : ∃ i : Fin NUM_FRUSTUM_PLANES, ∀ v ∈ cube.vertices,
      (F.planes i).distance v < ((0 : K) : WithBot K)) :
    calculateCubeFrustumIntersection F cube = OUTSIDE := by
  obtain ⟨i, hi⟩ := h
  exact cubeFrustumLoop_outside F cube planeIndices INSIDE
    ⟨i, mem_planeIndices i, hi _ (getFarthestVertex_mem_vertices cube _)⟩

/-- Witness of claim C1: the unit cube at (5, 5, 5) is above the top plane of
the sample frustum. -/
theorem c1_cube_outside_witness :
    (∃ i : Fin NUM_FRUSTUM_PLANES, ∀ v ∈ (⟨⟨5, 5, 5⟩, 1⟩ : AACube ℚ).vertices,
      ((sampleFrustum : ViewFrustum ℚ).planes i).distance v < ((0 : ℚ) : WithBot ℚ)) ∧
    calculateCubeFrustumIntersection (sampleFrustum : ViewFrustum ℚ) ⟨⟨5, 5, 5⟩, 1⟩ = OUTSIDE :=
  have h : ∃ i : Fin NUM_FRUSTUM_PLANES, ∀ v ∈ (⟨⟨5, 5, 5⟩, 1⟩ : AACube ℚ).vertices,
      ((sampleFrustum : ViewFrustum ℚ).planes i).distance v < ((0 : ℚ) : WithBot ℚ) :=
    ⟨0, by
      intro v hv
      simp only [AACube.vertices, List.mem_cons, List.mem_singleton, List.not_mem_nil,
        or_false] at hv
      rcases hv with rfl | rfl | rfl | rfl | rfl | rfl | rfl | rfl <;>
        simp only [Plane.distance_lt, sampleFrustum, Vec3.dot] <;> norm_num⟩
  ⟨h, c1_cube_outside_of_all_vertices_behind _ _ h⟩

/-! ### C2: the keyhole test is not more restrictive than the frustum test -/

/-- Claim C2: whenever calculateCubeFrustumIntersection returns INSIDE or
INTERSECT, calculateCubeKeyholeIntersection on the same cube does not return
OUTSIDE. -/
theorem c2_keyhole_not_more_restrictive (m : FloatOps K) (EPSILON : K) (F : ViewFrustum K)
    (cube : AACube K)
    (h : calculateCubeFrustumIntersection F cube = INSIDE ∨
      calculateCubeFrustumIntersection F cube = INTERSECT) :
    calculateCubeKeyholeIntersection m EPSILON F cube ≠ OUTSIDE := by
  have hne : calculateCubeFrustumIntersection F cube ≠ OUTSIDE := by
    rcases h with h | h <;> simp [h]
  unfold calculateCubeKeyholeIntersection
  simp only [if_neg hne]
  split_ifs <;> first | exact hne | simp

/-- The cube of edge 1/2 with corner (0, 0, -2) is inside the sample frustum. -/
theorem sample_small_cube_inside :
    calculateCubeFrustumIntersection (sampleFrustum : ViewFrustum ℝ) ⟨⟨0, 0, -2⟩, 1 / 2⟩
      = INSIDE := by
  simp only [calculateCubeFrustumIntersection, planeIndices, cubeFrustumLoop, Plane.distance_lt,
    sampleFrustum, Plane.getNormal, AACube.getFarthestVertex, AACube.getNearestVertex, Vec3.dot]
  norm_num

/-- Witness of claim C2 on the sample frustum. -/
theorem c2_keyhole_not_more_restrictive_witness :
    (calculateCubeFrustumIntersection (sampleFrustum : ViewFrustum ℝ) ⟨⟨0, 0, -2⟩, 1 / 2⟩
        = INSIDE ∨
      calculateCubeFrustumIntersection (sampleFrustum : ViewFrustum ℝ) ⟨⟨0, 0, -2⟩, 1 / 2⟩
        = INTERSECT) ∧
    calculateCubeKeyholeIntersection realOps (1 / 1000000) (sampleFrustum : ViewFrustum ℝ)
      ⟨⟨0, 0, -2⟩, 1 / 2⟩ ≠ OUTSIDE :=
  ⟨Or.inl sample_small_cube_inside,
    c2_keyhole_not_more_restrictive _ _ _ _ (Or.inl sample_small_cube_inside)⟩

/-! ### C3: a cube inside the central sphere is INSIDE -/

/-- One axis of the dot product of the keyhole test: the farthest face along
the offset, taken from the camera, times the offset. -/
theorem farthest_axis (c s p : K) :
    ((if 0 < c + s / 2 - p then c + s else c) - p) * (c + s / 2 - p)
      = (c + s / 2 - p) * (c + s / 2 - p) + s / 2 * |c + s / 2 - p| := by
  by_cases h : 0 < c + s / 2 - p
  · rw [if_pos h, abs_of_pos h]; ring
  · rw [if_neg h, abs_of_nonpos (not_lt.mp h)]; ring

/-- The dot product tested by calculateCubeKeyholeIntersection: the squared
length of the offset plus half the edge times the 1-norm of the offset. -/
theorem keyhole_vertex_dot (cube : AACube K) (pos : Vec3 K) :
    Vec3.dot (Vec3.sub (cube.getFarthestVertex (Vec3.sub cube.calcCenter pos)) pos)
        (Vec3.sub cube.calcCenter pos)
      = Vec3.dot (Vec3.sub cube.calcCenter pos) (Vec3.sub cube.calcCenter pos)
        + cube.scale / 2 * (|(Vec3.sub cube.calcCenter pos).x| + |(Vec3.sub cube.calcCenter pos).y|
          + |(Vec3.sub cube.calcCenter pos).z|) := by
  simp only [Vec3.dot, Vec3.sub, AACube.getFarthestVertex, AACube.calcCenter, farthest_axis]
  ring

/-- The 1-norm of a vector is at most sqrt 3 times its length. -/
theorem abs_sum_le_sqrt_three_mul_length (o : Vec3 ℝ) :
    |o.x| + |o.y| + |o.z| ≤ Real.sqrt 3 * Vec3.length realOps o := by
  have h3 : Real.sqrt 3 * Vec3.length realOps o = Real.sqrt (3 * Vec3.dot o o) := by
    simp only [Vec3.length, realOps]
    rw [Real.sqrt_mul (by norm_num)]
  rw [h3]
  apply Real.le_sqrt_of_sq_le
  simp only [Vec3.dot]
  have hx := sq_abs o.x
  have hy := sq_abs o.y
  have hz := sq_abs o.z
  nlinarith [sq_nonneg (|o.x| - |o.y|), sq_nonneg (|o.x| - |o.z|), sq_nonneg (|o.y| - |o.z|)]

/-- The constant HALF_SQRT_THREE is at most half the square root of 3. -/
theorem HALF_SQRT_THREE_le : (HALF_SQRT_THREE : ℝ) ≤ Real.sqrt 3 / 2 := by
  have h : (2 * HALF_SQRT_THREE : ℝ) ≤ Real.sqrt 3 := by
    apply Real.le_sqrt_of_sq_le
    norm_num [HALF_SQRT_THREE]
  linarith

/-- Claim C3, amended: a cube of non-negative scale whose distance from the
camera to its centre plus its bounding radius (sqrt(3)/2 times its scale) is
strictly less than centerSphereRadius is classified INSIDE by
calculateCubeKeyholeIntersection, whatever the six planes say. -/
theorem c3_cube_inside_sphere (F : ViewFrustum ℝ) (EPSILON : ℝ) (cube : AACube ℝ)
    (hE : 0 ≤ EPSILON) (hs : 0 ≤ cube.scale)
    (h : Vec3.length realOps (Vec3.sub cube.calcCenter F.position)
      + Real.sqrt 3 / 2 * cube.scale < F.centerSphereRadius) :
    calculateCubeKeyholeIntersection realOps EPSILON F cube = INSIDE := by
  have hd0 : 0 ≤ Vec3.length realOps (Vec3.sub cube.calcCenter F.position) := Real.sqrt_nonneg _
  have hsq : Vec3.length realOps (Vec3.sub cube.calcCenter F.position)
      * Vec3.length realOps (Vec3.sub cube.calcCenter F.position)
      = Vec3.dot (Vec3.sub cube.calcCenter F.position) (Vec3.sub cube.calcCenter F.position) :=
    Real.mul_self_sqrt (Vec3.dot_self_nonneg _)
  have h1 := abs_sum_le_sqrt_three_mul_length (Vec3.sub cube.calcCenter F.position)
  by_cases hd : EPSILON < Vec3.length realOps (Vec3.sub cube.calcCenter F.position)
  · have hpos : 0 < Vec3.length realOps (Vec3.sub cube.calcCenter F.position) :=
      lt_of_le_of_lt hE hd
    have hdot : Vec3.dot (Vec3.sub (cube.getFarthestVertex (Vec3.sub cube.calcCenter F.position))
        F.position) (Vec3.sub cube.calcCenter F.position)
        < F.centerSphereRadius * Vec3.length realOps (Vec3.sub cube.calcCenter F.position) := by
      rw [keyhole_vertex_dot, ← hsq]
      have h2 : cube.scale / 2 * (|(Vec3.sub cube.calcCenter F.position).x|
          + |(Vec3.sub cube.calcCenter F.position).y|
          + |(Vec3.sub cube.calcCenter F.position).z|)
          ≤ cube.scale / 2 * (Real.sqrt 3
            * Vec3.length realOps (Vec3.sub cube.calcCenter F.position)) :=
        mul_le_mul_of_nonneg_left h1 (by linarith)
      have h3 := mul_lt_mul_of_pos_right h hpos
      nlinarith
    simp only [calculateCubeKeyholeIntersection, if_pos hd, if_pos hdot]
  · have hh : (HALF_SQRT_THREE : ℝ) * cube.getScale < F.centerSphereRadius := by
      have h2 : (HALF_SQRT_THREE : ℝ) * cube.scale ≤ Real.sqrt 3 / 2 * cube.scale :=
        mul_le_mul_of_nonneg_right HALF_SQRT_THREE_le hs
      simp only [AACube.getScale]
      linarith
    simp only [calculateCubeKeyholeIntersection, if_neg hd, if_pos hh]

/-- The square root of 27 is 3 times the square root of 3. -/
theorem sqrt_twenty_seven : Real.sqrt 27 = 3 * Real.sqrt 3 := by
  rw [show (27 : ℝ) = 3 ^ 2 * 3 by norm_num, Real.sqrt_mul (by positivity),
    Real.sqrt_sq (by norm_num)]

/-- Claim C3, as stated, fails on the boundary: the cube with corner (2, 2, 2)
and edge 2 is rejected by the sample frustum, its distance plus bounding radius
equals the sphere radius 4 sqrt 3, and the keyhole verdict is INTERSECT. -/
theorem c3_cube_inside_sphere_counterexample :
    Vec3.length realOps (Vec3.sub (⟨⟨2, 2, 2⟩, 2⟩ : AACube ℝ).calcCenter
        ({ (sampleFrustum : ViewFrustum ℝ) with centerSphereRadius := 4 * Real.sqrt 3 }).position)
      + Real.sqrt 3 / 2 * (⟨⟨2, 2, 2⟩, 2⟩ : AACube ℝ).scale
      ≤ ({ (sampleFrustum : ViewFrustum ℝ) with
          centerSphereRadius := 4 * Real.sqrt 3 }).centerSphereRadius ∧
    calculateCubeKeyholeIntersection realOps (1 / 1000000)
      { (sampleFrustum : ViewFrustum ℝ) with centerSphereRadius := 4 * Real.sqrt 3 }
      ⟨⟨2, 2, 2⟩, 2⟩ = INTERSECT := by
  have hlen : Vec3.length realOps (Vec3.sub (⟨⟨2, 2, 2⟩, 2⟩ : AACube ℝ).calcCenter
      ({ (sampleFrustum : ViewFrustum ℝ) with centerSphereRadius := 4 * Real.sqrt 3 }).position)
      = 3 * Real.sqrt 3 := by
    rw [← sqrt_twenty_seven]
    simp only [Vec3.length, realOps, Vec3.sub, Vec3.dot, AACube.calcCenter, sampleFrustum]
    norm_num
  have h3 : Real.sqrt 3 * Real.sqrt 3 = 3 := Real.mul_self_sqrt (by norm_num)
  have h1 : (1 : ℝ) ≤ Real.sqrt 3 := by
    apply Real.le_sqrt_of_sq_le
    norm_num
  constructor
  · rw [hlen]
    simp only []
    linarith
  · have hfr : calculateCubeFrustumIntersection
        { (sampleFrustum : ViewFrustum ℝ) with centerSphereRadius := 4 * Real.sqrt 3 }
        ⟨⟨2, 2, 2⟩, 2⟩ = OUTSIDE := by
      simp only [calculateCubeFrustumIntersection, planeIndices, cubeFrustumLoop,
        Plane.distance_lt, sampleFrustum, Plane.getNormal, AACube.getFarthestVertex, Vec3.dot]
      norm_num
    have hE : (1 / 1000000 : ℝ) < 3 * Real.sqrt 3 := by linarith
    have hdot : ¬ Vec3.dot (Vec3.sub ((⟨⟨2, 2, 2⟩, 2⟩ : AACube ℝ).getFarthestVertex
          (Vec3.sub (⟨⟨2, 2, 2⟩, 2⟩ : AACube ℝ).calcCenter (⟨0, 0, 0⟩ : Vec3 ℝ))) ⟨0, 0, 0⟩)
        (Vec3.sub (⟨⟨2, 2, 2⟩, 2⟩ : AACube ℝ).calcCenter ⟨0, 0, 0⟩)
        < 4 * Real.sqrt 3 * (3 * Real.sqrt 3) := by
      simp only [Vec3.sub, Vec3.dot, AACube.calcCenter, AACube.getFarthestVertex]
      norm_num
      nlinarith
    have hts : (⟨⟨2, 2, 2⟩, 2⟩ : AACube ℝ).touchesSphere ⟨0, 0, 0⟩ (4 * Real.sqrt 3) = true := by
      simp only [AACube.touchesSphere, axisGap, Vec3.dot, decide_eq_true_eq]
      constructor
      · positivity
      · norm_num
        nlinarith
    simp only [calculateCubeKeyholeIntersection, hlen, hfr, if_pos hE]
    simp only [sampleFrustum, if_neg hdot, hts]
    simp

/-- Witness of claim C3 (amended): the same cube, outside the sample frustum,
with a central sphere of radius 10. -/
theorem c3_cube_inside_sphere_witness :
    (0 : ℝ) ≤ 1 / 1000000 ∧ (0 : ℝ) ≤ (⟨⟨2, 2, 2⟩, 2⟩ : AACube ℝ).scale ∧
    Vec3.length realOps (Vec3.sub (⟨⟨2, 2, 2⟩, 2⟩ : AACube ℝ).calcCenter
        ({ (sampleFrustum : ViewFrustum ℝ) with centerSphereRadius := 10 }).position)
      + Real.sqrt 3 / 2 * (⟨⟨2, 2, 2⟩, 2⟩ : AACube ℝ).scale
      < ({ (sampleFrustum : ViewFrustum ℝ) with centerSphereRadius := 10 }).centerSphereRadius ∧
    calculateCubeFrustumIntersection
      { (sampleFrustum : ViewFrustum ℝ) with centerSphereRadius := 10 } ⟨⟨2, 2, 2⟩, 2⟩ = OUTSIDE ∧
    calculateCubeKeyholeIntersection realOps (1 / 1000000)
      { (sampleFrustum : ViewFrustum ℝ) with centerSphereRadius := 10 } ⟨⟨2, 2, 2⟩, 2⟩ = INSIDE :=
  have hE : (0 : ℝ) ≤ 1 / 1000000 := by norm_num
  have hs : (0 : ℝ) ≤ (⟨⟨2, 2, 2⟩, 2⟩ : AACube ℝ).scale := by norm_num
  have h : Vec3.length realOps (Vec3.sub (⟨⟨2, 2, 2⟩, 2⟩ : AACube ℝ).calcCenter
        ({ (sampleFrustum : ViewFrustum ℝ) with centerSphereRadius := 10 }).position)
      + Real.sqrt 3 / 2 * (⟨⟨2, 2, 2⟩, 2⟩ : AACube ℝ).scale
      < ({ (sampleFrustum : ViewFrustum ℝ) with centerSphereRadius := 10 }).centerSphereRadius := by
    have hlen : Vec3.length realOps (Vec3.sub (⟨⟨2, 2, 2⟩, 2⟩ : AACube ℝ).calcCenter
        ({ (sampleFrustum : ViewFrustum ℝ) with centerSphereRadius := 10 }).position)
        = 3 * Real.sqrt 3 := by
      rw [← sqrt_twenty_seven]
      simp only [Vec3.length, realOps, Vec3.sub, Vec3.dot, AACube.calcCenter, sampleFrustum]
      norm_num
    have h2 : Real.sqrt 3 < 2 := by
      rw [Real.sqrt_lt' (by norm_num)]; norm_num
    rw [hlen]
    simp only []
    linarith
  ⟨hE, hs, h, by
      simp only [calculateCubeFrustumIntersection, planeIndices, cubeFrustumLoop,
        Plane.distance_lt, sampleFrustum, Plane.getNormal, AACube.getFarthestVertex, Vec3.dot]
      norm_num,
    c3_cube_inside_sphere _ _ _ hE hs h⟩

/-! ### C4: frustum queries after invalidate() -/

/-- After invalidate() every plane passes every test `distance < t`. -/
theorem invalidate_plane_rejects (F : ViewFrustum K) (i : Fin NUM_FRUSTUM_PLANES) (v : Vec3 K)
    (t : K) : ((invalidate F).planes i).distance v < (t : WithBot K) := by
  rw [Plane.distance_lt]
  exact Or.inl rfl

/-- Claim C4: after invalidate(), pointIntersectsFrustum returns false for
every point, and sphereIntersectsFrustum returns false for every center and
every radius. -/
theorem c4_invalidate_frustum_queries_false (F : ViewFrustum K) :
    (∀ point : Vec3 K, pointIntersectsFrustum (invalidate F) point = false) ∧
    (∀ (center : Vec3 K) (radius : K),
      sphereIntersectsFrustum (invalidate F) center radius = false) := by
  constructor
  · intro point
    simp only [pointIntersectsFrustum, planeIndices, pointFrustumLoop]
    rw [if_pos (invalidate_plane_rejects F 0 point 0)]
  · intro center radius
    simp only [sphereIntersectsFrustum, planeIndices, sphereFrustumLoop]
    rw [if_pos (invalidate_plane_rejects F 0 center (-radius))]

/-! ### C5: keyhole queries after invalidate() -/

/-- After invalidate() the frustum test rejects every cube. -/
theorem invalidate_cube_outside (F : ViewFrustum K) (cube : AACube K) :
    calculateCubeFrustumIntersection (invalidate F) cube = OUTSIDE := by
  simp only [calculateCubeFrustumIntersection, planeIndices, cubeFrustumLoop]
  rw [if_pos (invalidate_plane_rejects F 0 _ 0)]

/-- No cube touches a sphere of negative radius. -/
theorem touchesSphere_neg (cube : AACube K) (center : Vec3 K) (radius : K) (h : radius < 0) :
    cube.touchesSphere center radius = false := by
  simp only [AACube.touchesSphere, decide_eq_false_iff_not, not_and]
  intro h0
  exact absurd h (not_lt.mpr h0)

/-- No box touches a sphere of negative radius. -/
theorem box_touchesSphere_neg (box : AABox K) (center : Vec3 K) (radius : K) (h : radius < 0) :
    box.touchesSphere center radius = false := by
  simp only [AABox.touchesSphere, decide_eq_false_iff_not, not_and]
  intro h0
  exact absurd h (not_lt.mpr h0)

/-- Claim C5, as stated, fails: after invalidate() the sphere of radius 10^6
around the camera still intersects the keyhole, and the cube centred on the
camera is classified INTERSECT. -/
theorem c5_invalidate_keyhole_counterexample :
    sphereIntersectsKeyhole realOps (invalidate (sampleFrustum : ViewFrustum ℝ)) ⟨0, 0, 0⟩ 1000000
      = true ∧
    calculateCubeKeyholeIntersection realOps (1 / 1000000)
      (invalidate (sampleFrustum : ViewFrustum ℝ)) ⟨⟨-1, -1, -1⟩, 2⟩ = INTERSECT := by
  constructor
  · simp [sphereIntersectsKeyhole, invalidate, sampleFrustum, Vec3.length, Vec3.sub, Vec3.dot,
      realOps]
  · have h0 : Vec3.length realOps (Vec3.sub (⟨⟨-1, -1, -1⟩, 2⟩ : AACube ℝ).calcCenter
        (invalidate (sampleFrustum : ViewFrustum ℝ)).position) = 0 := by
      simp [invalidate, sampleFrustum, Vec3.length, Vec3.sub, Vec3.dot, realOps,
        AACube.calcCenter]
    simp only [calculateCubeKeyholeIntersection, h0, invalidate_cube_outside]
    norm_num [HALF_SQRT_THREE, AACube.getScale, invalidate]

/-- Claim C5, amended: after invalidate(), calculateCubeKeyholeIntersection
returns OUTSIDE for every cube of non-negative scale whose centre is farther
than EPSILON from the camera, cubeIntersectsKeyhole and boxIntersectsKeyhole
return false for every cube and box, and sphereIntersectsKeyhole returns false
for every center and every radius below 10^6. -/
theorem c5_invalidate_keyhole_queries (F : ViewFrustum ℝ) (EPSILON : ℝ) :
    (∀ cube : AACube ℝ, 0 ≤ cube.scale →
      EPSILON < Vec3.length realOps (Vec3.sub cube.calcCenter F.position) →
      calculateCubeKeyholeIntersection realOps EPSILON (invalidate F) cube = OUTSIDE) ∧
    (∀ cube : AACube ℝ, cubeIntersectsKeyhole (invalidate F) cube = false) ∧
    (∀ box : AABox ℝ, boxIntersectsKeyhole (invalidate F) box = false) ∧
    (∀ (center : Vec3 ℝ) (radius : ℝ), radius < 1000000 →
      sphereIntersectsKeyhole realOps (invalidate F) center radius = false) := by
  have hR : (invalidate F).centerSphereRadius = -1000000 := rfl
  have hP : (invalidate F).position = F.position := rfl
  refine ⟨?_, ?_, ?_, ?_⟩
  · intro cube hs hd
    have hlen : 0 ≤ Vec3.length realOps (Vec3.sub cube.calcCenter F.position) :=
      Real.sqrt_nonneg _
    have hdot : ¬ Vec3.dot (Vec3.sub (cube.getFarthestVertex (Vec3.sub cube.calcCenter F.position))
        F.position) (Vec3.sub cube.calcCenter F.position)
        < -1000000 * Vec3.length realOps (Vec3.sub cube.calcCenter F.position) := by
      rw [keyhole_vertex_dot, not_lt]
      have h1 : 0 ≤ Vec3.dot (Vec3.sub cube.calcCenter F.position)
          (Vec3.sub cube.calcCenter F.position) := Vec3.dot_self_nonneg _
      have h2 : 0 ≤ cube.scale / 2 * (|(Vec3.sub cube.calcCenter F.position).x|
          + |(Vec3.sub cube.calcCenter F.position).y|
          + |(Vec3.sub cube.calcCenter F.position).z|) := by positivity
      nlinarith
    simp only [calculateCubeKeyholeIntersection, hR, hP, if_pos hd, if_neg hdot,
      invalidate_cube_outside, touchesSphere_neg cube F.position (-1000000) (by norm_num)]
    simp
  · intro cube
    simp only [cubeIntersectsKeyhole, hR, hP,
      touchesSphere_neg cube F.position (-1000000) (by norm_num), planeIndices, cubeKeyholeLoop]
    rw [if_pos (invalidate_plane_rejects F 0 _ 0)]
    simp
  · intro box
    simp only [boxIntersectsKeyhole, hR, hP,
      box_touchesSphere_neg box F.position (-1000000) (by norm_num), planeIndices, boxFrustumLoop]
    rw [if_pos (invalidate_plane_rejects F 0 _ 0)]
    simp
  · intro center radius hr
    have hlen : 0 ≤ Vec3.length realOps (Vec3.sub center F.position) := Real.sqrt_nonneg _
    have hneg : ¬ Vec3.length realOps (Vec3.sub center F.position) ≤ radius + -1000000 := by
      rw [not_le]; linarith
    simp only [sphereIntersectsKeyhole, hR, hP, if_neg hneg, planeIndices, sphereFrustumLoop]
    rw [if_pos (invalidate_plane_rejects F 0 _ (-radius))]

/-- Witness of claim C5 (amended): the cube of edge 2 centred at (3, 4, 0) and
the sphere of radius 5 around the camera, on the invalidated sample frustum. -/
theorem c5_invalidate_keyhole_queries_witness :
    ((0 : ℝ) ≤ (⟨⟨2, 3, -1⟩, 2⟩ : AACube ℝ).scale ∧
      (1 / 1000000 : ℝ) < Vec3.length realOps (Vec3.sub (⟨⟨2, 3, -1⟩, 2⟩ : AACube ℝ).calcCenter
        (sampleFrustum : ViewFrustum ℝ).position) ∧
      calculateCubeKeyholeIntersection realOps (1 / 1000000)
        (invalidate (sampleFrustum : ViewFrustum ℝ)) ⟨⟨2, 3, -1⟩, 2⟩ = OUTSIDE) ∧
    ((5 : ℝ) < 1000000 ∧
      sphereIntersectsKeyhole realOps (invalidate (sampleFrustum : ViewFrustum ℝ)) ⟨0, 0, 0⟩ 5
        = false) :=
  have hs : (0 : ℝ) ≤ (⟨⟨2, 3, -1⟩, 2⟩ : AACube ℝ).scale := by norm_num
  have hd : (1 / 1000000 : ℝ) < Vec3.length realOps
      (Vec3.sub (⟨⟨2, 3, -1⟩, 2⟩ : AACube ℝ).calcCenter
        (sampleFrustum : ViewFrustum ℝ).position) := by
    simp only [Vec3.length, realOps, Vec3.sub, Vec3.dot, AACube.calcCenter, sampleFrustum]
    rw [Real.lt_sqrt (by norm_num)]
    norm_num
  have hr : (5 : ℝ) < 1000000 := by norm_num
  ⟨⟨hs, hd, (c5_invalidate_keyhole_queries sampleFrustum (1 / 1000000)).1 _ hs hd⟩,
    ⟨hr, (c5_invalidate_keyhole_queries sampleFrustum (1 / 1000000)).2.2.2 _ _ hr⟩⟩

/-! ### C6: isVerySimilar is reflexive -/

/-- The result of isVerySimilar as the conjunction of its seven tests. -/
theorem isVerySimilar_iff (m : FloatOps K) (EPSILON : K) (A B : ViewFrustum K) :
    isVerySimilar m EPSILON A B = true ↔
      |0 - Vec3.distance m A.position B.position| ≤ 5 ∧
      |0 - (if (!decide (B.orientation = A.orientation) &&
              acosIsNaN (Quat.mul A.orientation (Quat.inverse B.orientation)).w) = true then 0
            else if decide (B.orientation = A.orientation) = true then 0
            else degrees m (Quat.angle m (Quat.mul A.orientation (Quat.inverse B.orientation))))|
        ≤ 10 ∧
      |B.fieldOfView - A.fieldOfView| ≤ EPSILON ∧
      |B.aspectRatio - A.aspectRatio| ≤ EPSILON ∧
      |B.nearClip - A.nearClip| ≤ EPSILON ∧
      |B.farClip - A.farClip| ≤ EPSILON ∧
      |B.focalLength - A.focalLength| ≤ EPSILON := by
  simp only [isVerySimilar, testMatches, Bool.and_eq_true, decide_eq_true_eq, and_assoc]

/-- The distance of a point to itself is zero. -/
theorem Vec3.distance_self (p : Vec3 ℝ) : Vec3.distance realOps p p = 0 := by
  simp [Vec3.distance, Vec3.length, Vec3.sub, Vec3.dot, realOps]

/-- Claim C6: isVerySimilar is reflexive, F.isVerySimilar(F) returns true
(EPSILON, the tolerance constant, is not negative). -/
theorem c6_isVerySimilar_refl (F : ViewFrustum ℝ) (EPSILON : ℝ) (hE : 0 ≤ EPSILON) :
    isVerySimilar realOps EPSILON F F = true := by
  rw [isVerySimilar_iff]
  simp [Vec3.distance_self, hE]

/-- Witness of claim C6 on the sample frustum. -/
theorem c6_isVerySimilar_refl_witness :
    (0 : ℝ) ≤ 1 / 1000000 ∧
    isVerySimilar realOps (1 / 1000000) (sampleFrustum : ViewFrustum ℝ) sampleFrustum = true :=
  ⟨by norm_num, c6_isVerySimilar_refl sampleFrustum (1 / 1000000) (by norm_num)⟩

/-! ### C7: the position threshold of isVerySimilar -/

/-- With only the position changed, isVerySimilar is the position test. -/
theorem isVerySimilar_position (F : ViewFrustum ℝ) (EPSILON : ℝ) (hE : 0 ≤ EPSILON)
    (p : Vec3 ℝ) :
    isVerySimilar realOps EPSILON F { F with position := p } = true ↔
      Vec3.distance realOps F.position p ≤ 5 := by
  rw [isVerySimilar_iff]
  have hd : 0 ≤ Vec3.distance realOps F.position p := Real.sqrt_nonneg _
  simp [hE, abs_of_nonneg hd]

/-- Claim C7: when F' differs from F only by a position shift of d along one
coordinate axis, F.isVerySimilar(F') is true exactly when |d| ≤ 5. -/
theorem c7_position_shift (F : ViewFrustum ℝ) (EPSILON d : ℝ) (hE : 0 ≤ EPSILON) :
    (isVerySimilar realOps EPSILON F
        { F with position := ⟨F.position.x + d, F.position.y, F.position.z⟩ } = true ↔ |d| ≤ 5) ∧
    (isVerySimilar realOps EPSILON F
        { F with position := ⟨F.position.x, F.position.y + d, F.position.z⟩ } = true ↔ |d| ≤ 5) ∧
    (isVerySimilar realOps EPSILON F
        { F with position := ⟨F.position.x, F.position.y, F.position.z + d⟩ } = true ↔
      |d| ≤ 5) := by
  refine ⟨?_, ?_, ?_⟩ <;>
  · rw [isVerySimilar_position F EPSILON hE]
    simp [Vec3.distance, Vec3.length, Vec3.sub, Vec3.dot, realOps, Real.sqrt_mul_self_eq_abs]

/-- Witness of claim C7: on the sample frustum a shift of 6 along x is not
similar and a shift of 4 is. -/
theorem c7_position_shift_witness :
    (0 : ℝ) ≤ 1 / 1000000 ∧
    isVerySimilar realOps (1 / 1000000) (sampleFrustum : ViewFrustum ℝ)
      { (sampleFrustum : ViewFrustum ℝ) with
        position := ⟨(sampleFrustum : ViewFrustum ℝ).position.x + 6,
          (sampleFrustum : ViewFrustum ℝ).position.y,
          (sampleFrustum : ViewFrustum ℝ).position.z⟩ } = false ∧
    isVerySimilar realOps (1 / 1000000) (sampleFrustum : ViewFrustum ℝ)
      { (sampleFrustum : ViewFrustum ℝ) with
        position := ⟨(sampleFrustum : ViewFrustum ℝ).position.x + 4,
          (sampleFrustum : ViewFrustum ℝ).position.y,
          (sampleFrustum : ViewFrustum ℝ).position.z⟩ } = true :=
  have hE : (0 : ℝ) ≤ 1 / 1000000 := by norm_num
  ⟨hE,
    by
      rw [← Bool.not_eq_true, (c7_position_shift sampleFrustum (1 / 1000000) 6 hE).1]
      norm_num,
    (c7_position_shift sampleFrustum (1 / 1000000) 4 hE).1.mpr (by norm_num [abs_le])⟩

/-! ### C8: the orientation threshold of isVerySimilar -/

/-- The norm of a quaternion product. -/
theorem Quat.dot_mul (p q : Quat K) :
    Quat.dot (Quat.mul p q) (Quat.mul p q) = Quat.dot p p * Quat.dot q q := by
  simp only [Quat.dot, Quat.mul]
  ring

/-- The scalar part of `q * inverse(q * r)`. -/
theorem Quat.mul_inverse_mul_w (q r : Quat K) :
    (Quat.mul q (Quat.inverse (Quat.mul q r))).w
      = Quat.dot q q * r.w / (Quat.dot q q * Quat.dot r r) := by
  rw [← Quat.dot_mul]
  simp only [Quat.mul, Quat.inverse, Quat.conjugate, Quat.dot]
  ring

/-- The scalar part of `q * inverse(r * q)`. -/
theorem Quat.mul_inverse_mul_w' (q r : Quat K) :
    (Quat.mul q (Quat.inverse (Quat.mul r q))).w
      = Quat.dot q q * r.w / (Quat.dot r r * Quat.dot q q) := by
  rw [← Quat.dot_mul]
  simp only [Quat.mul, Quat.inverse, Quat.conjugate, Quat.dot]
  ring

/-- A unit quaternion times `r` is that quaternion only if the scalar part of
`r` is 1. -/
theorem Quat.w_eq_one_of_mul_eq (q r : Quat K) (hq : Quat.dot q q = 1)
    (h : Quat.mul q r = q) : r.w = 1 := by
  have h1 : (Quat.mul (Quat.conjugate q) (Quat.mul q r)).w = Quat.dot q q * r.w := by
    simp only [Quat.mul, Quat.conjugate, Quat.dot]; ring
  have h2 : (Quat.mul (Quat.conjugate q) q).w = Quat.dot q q := by
    simp only [Quat.mul, Quat.conjugate, Quat.dot]; ring
  rw [h, h2, hq] at h1
  linarith

/-- A rotation `r` times a unit quaternion is that quaternion only if the scalar
part of `r` is 1. -/
theorem Quat.w_eq_one_of_mul_eq' (q r : Quat K) (hq : Quat.dot q q = 1)
    (h : Quat.mul r q = q) : r.w = 1 := by
  have h1 : (Quat.mul (Quat.mul r q) (Quat.conjugate q)).w = Quat.dot q q * r.w := by
    simp only [Quat.mul, Quat.conjugate, Quat.dot]; ring
  have h2 : (Quat.mul q (Quat.conjugate q)).w = Quat.dot q q := by
    simp only [Quat.mul, Quat.conjugate, Quat.dot]; ring
  rw [h, h2, hq] at h1
  linarith

/-- The quaternion of a rotation about a unit axis is a unit quaternion. -/
theorem angleAxis_dot (h : ℝ) (axis : Vec3 ℝ) (ha : Vec3.dot axis axis = 1) :
    Quat.dot (angleAxisOfHalf (Real.cos h) (Real.sin h) axis)
      (angleAxisOfHalf (Real.cos h) (Real.sin h) axis) = 1 := by
  simp only [Vec3.dot] at ha
  simp only [Quat.dot, angleAxisOfHalf]
  have := Real.sin_sq_add_cos_sq h
  nlinarith

/-- With only the orientation changed, to one whose relative rotation has
scalar part `cos(t/2)` for an angle of `t` degrees, isVerySimilar is the test
`t ≤ 10`. -/
theorem isVerySimilar_rotation (F : ViewFrustum ℝ) (EPSILON : ℝ) (hE : 0 ≤ EPSILON)
    (q' : Quat ℝ) (t : ℝ) (ht0 : 0 < t) (ht : t ≤ 360) (hne : q' ≠ F.orientation)
    (hw : (Quat.mul F.orientation (Quat.inverse q')).w = Real.cos (t * Real.pi / 180 / 2)) :
    isVerySimilar realOps EPSILON F { F with orientation := q' } = true ↔ t ≤ 10 := by
  have hpi := Real.pi_pos
  have hh0 : 0 ≤ t * Real.pi / 180 / 2 := by positivity
  have hh1 : t * Real.pi / 180 / 2 ≤ Real.pi := by
    have : t * Real.pi ≤ 360 * Real.pi := mul_le_mul_of_nonneg_right ht hpi.le
    linarith
  have hnan : acosIsNaN (Real.cos (t * Real.pi / 180 / 2)) = false := by
    simp only [acosIsNaN, decide_eq_false_iff_not, not_or, not_lt]
    exact ⟨Real.neg_one_le_cos _, Real.cos_le_one _⟩
  have hdeg : degrees realOps (Quat.angle realOps
      (Quat.mul F.orientation (Quat.inverse q'))) = t := by
    simp only [degrees, Quat.angle, realOps, hw, Real.arccos_cos hh0 hh1]
    field_simp
    ring
  rw [isVerySimilar_iff]
  simp only [Vec3.distance_self, hw, hnan, hdeg, decide_eq_false hne]
  simp [hE, abs_of_pos ht0]

/-- The cosine of half an angle of `t` degrees, 0 < t ≤ 360, is below 1. -/
theorem cos_half_lt_one (t : ℝ) (ht0 : 0 < t) (ht : t ≤ 360) :
    Real.cos (t * Real.pi / 180 / 2) < 1 := by
  have hpi := Real.pi_pos
  have hh0 : 0 < t * Real.pi / 180 / 2 := by positivity
  have hh1 : t * Real.pi / 180 / 2 ≤ Real.pi := by
    have : t * Real.pi ≤ 360 * Real.pi := mul_le_mul_of_nonneg_right ht hpi.le
    linarith
  have := Real.cos_lt_cos_of_nonneg_of_le_pi (le_refl 0) hh1 hh0
  simpa using this

/-- The two ways of composing a unit orientation with a rotation of `t`
degrees about a unit axis, for 0 < t ≤ 360. -/
theorem isVerySimilar_angleAxis (F : ViewFrustum ℝ) (EPSILON : ℝ) (axis : Vec3 ℝ) (t : ℝ)
    (hE : 0 ≤ EPSILON) (hq : Quat.dot F.orientation F.orientation = 1)
    (ha : Vec3.dot axis axis = 1) (ht0 : 0 < t) (ht : t ≤ 360) :
    (isVerySimilar realOps EPSILON F { F with orientation := (Quat.mul F.orientation
        (angleAxisOfHalf (Real.cos (t * Real.pi / 180 / 2)) (Real.sin (t * Real.pi / 180 / 2))
          axis)) } = true ↔ t ≤ 10) ∧
    (isVerySimilar realOps EPSILON F { F with orientation := (Quat.mul
        (angleAxisOfHalf (Real.cos (t * Real.pi / 180 / 2)) (Real.sin (t * Real.pi / 180 / 2))
          axis) F.orientation) } = true ↔ t ≤ 10) := by
  have hr := angleAxis_dot (t * Real.pi / 180 / 2) axis ha
  have hlt := cos_half_lt_one t ht0 ht
  constructor
  · apply isVerySimilar_rotation F EPSILON hE _ t ht0 ht
    · intro h
      have := Quat.w_eq_one_of_mul_eq _ _ hq h
      simp only [angleAxisOfHalf] at this
      linarith
    · rw [Quat.mul_inverse_mul_w, hq, hr]
      simp [angleAxisOfHalf]
  · apply isVerySimilar_rotation F EPSILON hE _ t ht0 ht
    · intro h
      have := Quat.w_eq_one_of_mul_eq' _ _ hq h
      simp only [angleAxisOfHalf] at this
      linarith
    · rw [Quat.mul_inverse_mul_w', hq, hr]
      simp [angleAxisOfHalf]

/-- Claim C8: for a frustum F with unit orientation q and a frustum F' that
differs only by its orientation, q composed (on either side) with a rotation
of theta degrees about a unit axis, F.isVerySimilar(F') is false for theta = 11
and true for theta = 9. -/
theorem c8_orientation_change (F : ViewFrustum ℝ) (EPSILON : ℝ) (axis : Vec3 ℝ)
    (hE : 0 ≤ EPSILON) (hq : Quat.dot F.orientation F.orientation = 1)
    (ha : Vec3.dot axis axis = 1) :
    (isVerySimilar realOps EPSILON F { F with orientation := (Quat.mul F.orientation
        (angleAxisOfHalf (Real.cos (11 * Real.pi / 180 / 2)) (Real.sin (11 * Real.pi / 180 / 2))
          axis)) } = false ∧
      isVerySimilar realOps EPSILON F { F with orientation := (Quat.mul F.orientation
        (angleAxisOfHalf (Real.cos (9 * Real.pi / 180 / 2)) (Real.sin (9 * Real.pi / 180 / 2))
          axis)) } = true) ∧
    (isVerySimilar realOps EPSILON F { F with orientation := (Quat.mul
        (angleAxisOfHalf (Real.cos (11 * Real.pi / 180 / 2)) (Real.sin (11 * Real.pi / 180 / 2))
          axis) F.orientation) } = false ∧
      isVerySimilar realOps EPSILON F { F with orientation := (Quat.mul
        (angleAxisOfHalf (Real.cos (9 * Real.pi / 180 / 2)) (Real.sin (9 * Real.pi / 180 / 2))
          axis) F.orientation) } = true) := by
  have h11 := isVerySimilar_angleAxis F EPSILON axis 11 hE hq ha (by norm_num) (by norm_num)
  have h9 := isVerySimilar_angleAxis F EPSILON axis 9 hE hq ha (by norm_num) (by norm_num)
  refine ⟨⟨?_, ?_⟩, ⟨?_, ?_⟩⟩
  · rw [← Bool.not_eq_true, h11.1]; norm_num
  · rw [h9.1]; norm_num
  · rw [← Bool.not_eq_true, h11.2]; norm_num
  · rw [h9.2]; norm_num

/-- Witness of claim C8: the sample frustum turned by 11 degrees about the y
axis. -/
theorem c8_orientation_change_witness :
    ((0 : ℝ) ≤ 1 / 1000000 ∧
      Quat.dot (sampleFrustum : ViewFrustum ℝ).orientation
        (sampleFrustum : ViewFrustum ℝ).orientation = 1 ∧
      Vec3.dot (⟨0, 1, 0⟩ : Vec3 ℝ) ⟨0, 1, 0⟩ = 1) ∧
    isVerySimilar realOps (1 / 1000000) (sampleFrustum : ViewFrustum ℝ)
      { (sampleFrustum : ViewFrustum ℝ) with
        orientation := Quat.mul (sampleFrustum : ViewFrustum ℝ).orientation
          (angleAxisOfHalf (Real.cos (11 * Real.pi / 180 / 2))
            (Real.sin (11 * Real.pi / 180 / 2)) ⟨0, 1, 0⟩) } = false :=
  have hE : (0 : ℝ) ≤ 1 / 1000000 := by norm_num
  have hq : Quat.dot (sampleFrustum : ViewFrustum ℝ).orientation
      (sampleFrustum : ViewFrustum ℝ).orientation = 1 := by
    norm_num [Quat.dot, sampleFrustum]
  have ha : Vec3.dot (⟨0, 1, 0⟩ : Vec3 ℝ) ⟨0, 1, 0⟩ = 1 := by norm_num [Vec3.dot]
  ⟨⟨hE, hq, ha⟩, (c8_orientation_change sampleFrustum (1 / 1000000) ⟨0, 1, 0⟩ hE hq ha).1.1⟩

/-! ### C9: the origins of the pick rays through (0, 0) and (1, 1) -/

/-- The inverse that glm computes for a matrix of the shape of a perspective
projection. -/
theorem perspective_shape_inverse (A B C D : K) (hA : A ≠ 0) (hB : B ≠ 0) (hD : D ≠ 0) :
    Mat4.inverse ⟨⟨A, 0, 0, 0⟩, ⟨0, B, 0, 0⟩, ⟨0, 0, C, -1⟩, ⟨0, 0, D, 0⟩⟩
      = ⟨⟨1 / A, 0, 0, 0⟩, ⟨0, 1 / B, 0, 0⟩, ⟨0, 0, 0, 1 / D⟩, ⟨0, 0, -1, C / D⟩⟩ := by
  simp only [Mat4.inverse, Vec4.mul, Vec4.add, Vec4.sub, Vec4.smul,
    Mat4.mk.injEq, Vec4.mk.injEq, mul_zero, zero_mul, sub_zero, zero_sub, add_zero, zero_add,
    mul_one, mul_neg, neg_neg, neg_zero, sub_self]
  refine ⟨⟨?_, ?_, ?_, ?_⟩, ⟨?_, ?_, ?_, ?_⟩, ⟨?_, ?_, ?_, ?_⟩, ⟨?_, ?_, ?_, ?_⟩⟩ <;>
    first
    | rfl
    | (field_simp; done)
    | (field_simp; ring)

/-- The inverse of the matrix of glm::perspective, for a positive tangent,
a positive aspect ratio and clip distances 0 < n < f. -/
theorem perspective_inverse (t a n f : K) (ht : 0 < t) (ha : 0 < a) (hn : 0 < n)
    (hnf : n < f) :
    Mat4.inverse (perspective t a n f)
      = ⟨⟨1 / (1 / (a * t)), 0, 0, 0⟩, ⟨0, 1 / (1 / t), 0, 0⟩,
          ⟨0, 0, 0, 1 / (-(2 * f * n) / (f - n))⟩,
          ⟨0, 0, -1, (-(f + n) / (f - n)) / (-(2 * f * n) / (f - n))⟩⟩ := by
  have hf : 0 < f := lt_trans hn hnf
  have hfn : f - n ≠ 0 := ne_of_gt (sub_pos.mpr hnf)
  have hA : 1 / (a * t) ≠ 0 := by positivity
  have hB : 1 / t ≠ 0 := by positivity
  have hD : -(2 * f * n) / (f - n) ≠ 0 := by
    apply div_ne_zero _ hfn
    have : 0 < 2 * f * n := by positivity
    linarith
  exact perspective_shape_inverse _ _ _ _ hA hB hD

/-- The clip-frame corners that setProjection derives from a perspective
matrix: the NDC corner `(x, y, -1)` goes to `(a t n x, t n y, -n)` and the NDC
corner `(x, y, 1)` to `(a t f x, t f y, -f)`, where `t` is the tangent of half
the vertical field of view. -/
theorem setProjection_perspective_corners (m : FloatOps K) (F : ViewFrustum K) (t a n f : K)
    (ht : 0 < t) (ha : 0 < a) (hn : 0 < n) (hnf : n < f) (i : Fin NUM_FRUSTUM_CORNERS) :
    (setProjection m F (perspective t a n f)).corners i
      = if (NDC_VALUES i : Vec4 K).z = -1
        then ⟨a * t * n * (NDC_VALUES i : Vec4 K).x, t * n * (NDC_VALUES i : Vec4 K).y, -n, 1⟩
        else ⟨a * t * f * (NDC_VALUES i : Vec4 K).x, t * f * (NDC_VALUES i : Vec4 K).y, -f, 1⟩ := by
  have hf : 0 < f := lt_trans hn hnf
  have hfn : f - n ≠ 0 := ne_of_gt (sub_pos.mpr hnf)
  have hne : n ≠ 0 := ne_of_gt hn
  have hfe : f ≠ 0 := ne_of_gt hf
  have hwn : 1 / (-(2 * f * n) / (f - n)) * -1 + -(f + n) / (f - n) / (-(2 * f * n) / (f - n)) * 1
      = 1 / n := by
    field_simp
    ring
  have hwf : 1 / (-(2 * f * n) / (f - n)) * 1 + -(f + n) / (f - n) / (-(2 * f * n) / (f - n)) * 1
      = 1 / f := by
    field_simp
    ring
  have h11 : ((1 : K) = -1) = False := by norm_num
  simp only [setProjection, perspective_inverse t a n f ht ha hn hnf]
  fin_cases i <;>
    simp only [NDC_VALUES, Mat4.mulVec, Vec4.divScalar, zero_mul, zero_add, add_zero, hwn, hwf,
      if_true, h11, if_false, Vec4.mk.injEq] <;>
    refine ⟨?_, ?_, ?_, ?_⟩ <;> field_simp

/-- The world corners computed by calculate(): the clip-frame corner moved by
the world matrix (columns right, up, -direction, translated by the position)
and divided by its `w`. -/
theorem calculate_cornersWorld (m : FloatOps K) (F : ViewFrustum K)
    (i : Fin NUM_FRUSTUM_CORNERS) :
    (calculate m F).cornersWorld i
      = (Vec4.divScalar
          ((Mat4.mul (Mat4.translate F.position)
            (Mat4.ofColumns3 F.right F.up (Vec3.neg F.direction))).mulVec (F.corners i))
          ((Mat4.mul (Mat4.translate F.position)
            (Mat4.ofColumns3 F.right F.up (Vec3.neg F.direction))).mulVec
              (F.corners i)).w).toVec3 :=
  rfl

/-- For a frustum built by setProjection from a perspective matrix and then
calculate(), the pick ray through (1, 1) starts at the BOTTOM_RIGHT_NEAR world
corner. -/
theorem perspective_pick_ray_bottom_right (m : FloatOps K) (F : ViewFrustum K) (t a n f : K)
    (ht : 0 < t) (ha : 0 < a) (hn : 0 < n) (hnf : n < f) :
    (computePickRay m (calculate m (setProjection m F (perspective t a n f))) 1 1).origin
      = (calculate m (setProjection m F (perspective t a n f))).cornersWorld
          BOTTOM_RIGHT_NEAR := by
  have hp : (setProjection m F (perspective t a n f)).position = F.position := rfl
  have hr : (setProjection m F (perspective t a n f)).right = F.right := rfl
  have hu : (setProjection m F (perspective t a n f)).up = F.up := rfl
  have hd : (setProjection m F (perspective t a n f)).direction = F.direction := rfl
  simp only [computePickRay, calculate_cornersWorld, hp, hr, hu, hd,
    setProjection_perspective_corners m F t a n f ht ha hn hnf]
  simp only [NDC_VALUES, if_true, Mat4.mul, Mat4.mulVec, Mat4.translate, Mat4.ofColumns3,
    Vec3.neg, Vec4.divScalar, Vec4.toVec3, Vec3.add, Vec3.sub, Vec3.smul, Vec3.mk.injEq]
  refine ⟨?_, ?_, ?_⟩ <;> (simp; ring)

/-- Claim C9, amended: computePickRay(0, 0) has its origin at the
TOP_LEFT_NEAR world corner; computePickRay(1, 1) has its origin at the
BOTTOM_RIGHT_NEAR world corner exactly when the near world corners form a
parallelogram (TOP_RIGHT_NEAR - TOP_LEFT_NEAR = BOTTOM_RIGHT_NEAR -
BOTTOM_LEFT_NEAR), which is the case after setProjection with a perspective
matrix followed by calculate(). -/
theorem c9_pick_ray_origins (m : FloatOps K) (F : ViewFrustum K) :
    (computePickRay m F 0 0).origin = F.cornersWorld TOP_LEFT_NEAR ∧
    ((computePickRay m F 1 1).origin = F.cornersWorld BOTTOM_RIGHT_NEAR ↔
      Vec3.sub (F.cornersWorld TOP_RIGHT_NEAR) (F.cornersWorld TOP_LEFT_NEAR)
        = Vec3.sub (F.cornersWorld BOTTOM_RIGHT_NEAR) (F.cornersWorld BOTTOM_LEFT_NEAR)) ∧
    (∀ t a n f : K, 0 < t → 0 < a → 0 < n → n < f →
      (computePickRay m (calculate m (setProjection m F (perspective t a n f))) 1 1).origin
        = (calculate m (setProjection m F (perspective t a n f))).cornersWorld
            BOTTOM_RIGHT_NEAR) := by
  refine ⟨?_, ?_, ?_⟩
  · simp [computePickRay, Vec3.add, Vec3.smul, Vec3.sub]
  · simp only [computePickRay, Vec3.add, Vec3.smul, Vec3.sub, one_mul]
    generalize F.cornersWorld TOP_LEFT_NEAR = a
    generalize F.cornersWorld TOP_RIGHT_NEAR = b
    generalize F.cornersWorld BOTTOM_LEFT_NEAR = c
    generalize F.cornersWorld BOTTOM_RIGHT_NEAR = e
    cases a; cases b; cases c; cases e
    simp only [Vec3.mk.injEq]
    constructor
    · rintro ⟨h1, h2, h3⟩
      refine ⟨?_, ?_, ?_⟩ <;> linarith
    · rintro ⟨h1, h2, h3⟩
      refine ⟨?_, ?_, ?_⟩ <;> linarith
  · intro t a n f ht ha hn hnf
    exact perspective_pick_ray_bottom_right m F t a n f ht ha hn hnf

/-- Witness of claim C9 (amended): the sample pose with the perspective matrix
of tangent 1, aspect 1, near 1/10 and far 100. -/
theorem c9_pick_ray_origins_witness :
    ((0 : ℝ) < 1 ∧ (0 : ℝ) < 1 / 10 ∧ (1 / 10 : ℝ) < 100) ∧
    (computePickRay realOps (calculate realOps (setProjection realOps
        (sampleFrustum : ViewFrustum ℝ) (perspective 1 1 (1 / 10) 100))) 1 1).origin
      = (calculate realOps (setProjection realOps (sampleFrustum : ViewFrustum ℝ)
          (perspective 1 1 (1 / 10) 100))).cornersWorld BOTTOM_RIGHT_NEAR :=
  ⟨⟨by norm_num, by norm_num, by norm_num⟩,
    (c9_pick_ray_origins realOps (sampleFrustum : ViewFrustum ℝ)).2.2 1 1 (1 / 10) 100
      (by norm_num) (by norm_num) (by norm_num) (by norm_num)⟩

/-- The inverse of the skew projection. -/
theorem skewProjection_inverse :
    Mat4.inverse (skewProjection : Mat4 ℝ)
      = ⟨⟨1, 0, 0, 1 / 2⟩, ⟨0, 1, 0, 0⟩, ⟨0, 0, 1, 0⟩, ⟨0, 0, 0, 1⟩⟩ := by
  norm_num [Mat4.inverse, skewProjection, Vec4.mul, Vec4.add, Vec4.sub, Vec4.smul]

/-- The world corners computed by setProjection and calculate() from the skew
projection at the pose of the sample frustum. -/
theorem skew_cornersWorld (i : Fin NUM_FRUSTUM_CORNERS) :
    (calculate realOps (setProjection realOps (sampleFrustum : ViewFrustum ℝ)
        skewProjection)).cornersWorld i
      = (Vec4.divScalar
          (Mat4.mulVec ⟨⟨1, 0, 0, 1 / 2⟩, ⟨0, 1, 0, 0⟩, ⟨0, 0, 1, 0⟩, ⟨0, 0, 0, 1⟩⟩
            (NDC_VALUES i))
          (Mat4.mulVec ⟨⟨1, 0, 0, 1 / 2⟩, ⟨0, 1, 0, 0⟩, ⟨0, 0, 1, 0⟩, ⟨0, 0, 0, 1⟩⟩
            (NDC_VALUES i)).w).toVec3 := by
  simp only [calculate, setProjection, skewProjection_inverse]
  fin_cases i <;>
    norm_num [sampleFrustum, Mat4.mul, Mat4.mulVec, Mat4.translate, Mat4.ofColumns3, Vec3.neg,
      NDC_VALUES, Vec4.divScalar, Vec4.toVec3]

/-- Claim C9, as stated, fails: after setProjection with the skew projection
and calculate(), computePickRay(1, 1) has origin (2/3, -10/3, -2/3) while the
BOTTOM_RIGHT_NEAR world corner is (2/3, -2/3, -2/3). -/
theorem c9_pick_ray_origins_counterexample :
    (computePickRay realOps
        (calculate realOps (setProjection realOps (sampleFrustum : ViewFrustum ℝ) skewProjection))
        1 1).origin = ⟨2 / 3, -10 / 3, -2 / 3⟩ ∧
    (calculate realOps (setProjection realOps (sampleFrustum : ViewFrustum ℝ)
        skewProjection)).cornersWorld BOTTOM_RIGHT_NEAR = ⟨2 / 3, -2 / 3, -2 / 3⟩ := by
  simp only [computePickRay, skew_cornersWorld]
  norm_num [Mat4.mulVec, NDC_VALUES, Vec4.divScalar, Vec4.toVec3, Vec3.add, Vec3.sub, Vec3.smul]

/-! ### C10: setProjection recovers the parameters of a perspective projection -/

/-- The fields derived by setProjection from a perspective matrix, in terms of
the tangent `t` of half the vertical field of view. -/
theorem setProjection_perspective (m : FloatOps K) (F : ViewFrustum K) (t a n f : K)
    (ht : 0 < t) (ha : 0 < a) (hn : 0 < n) (hnf : n < f) :
    (setProjection m F (perspective t a n f)).nearClip = n ∧
    (setProjection m F (perspective t a n f)).farClip = f ∧
    (setProjection m F (perspective t a n f)).aspectRatio = a ∧
    (setProjection m F (perspective t a n f)).fieldOfView
      = |degrees m (2 * |Vec3.angle m ⟨0, 0, -1⟩ (Vec3.normalize m ⟨0, t * n, -n⟩)|)| := by
  have hf : 0 < f := lt_trans hn hnf
  have hne : n ≠ 0 := ne_of_gt hn
  have hte : t ≠ 0 := ne_of_gt ht
  have hfn : f - n ≠ 0 := ne_of_gt (sub_pos.mpr hnf)
  have hc := setProjection_perspective_corners m F t a n f ht ha hn hnf
  have h11 : ((1 : K) = -1) = False := by norm_num
  have hnear : (setProjection m F (perspective t a n f)).nearClip
      = -((setProjection m F (perspective t a n f)).corners BOTTOM_LEFT_NEAR).z := rfl
  have hfar : (setProjection m F (perspective t a n f)).farClip
      = -((setProjection m F (perspective t a n f)).corners BOTTOM_LEFT_FAR).z := rfl
  have hasp : (setProjection m F (perspective t a n f)).aspectRatio
      = (((setProjection m F (perspective t a n f)).corners TOP_RIGHT_NEAR).x
          - ((setProjection m F (perspective t a n f)).corners BOTTOM_LEFT_NEAR).x)
        / (((setProjection m F (perspective t a n f)).corners TOP_RIGHT_NEAR).y
          - ((setProjection m F (perspective t a n f)).corners BOTTOM_LEFT_NEAR).y) := rfl
  refine ⟨?_, ?_, ?_, ?_⟩
  · rw [hnear, hc]
    simp [NDC_VALUES]
  · rw [hfar, hc]
    simp [NDC_VALUES, h11]
  · rw [hasp, hc, hc]
    simp only [NDC_VALUES, if_true]
    field_simp
    ring
  · have htop : (Vec4.divScalar (Mat4.mulVec (Mat4.inverse (perspective t a n f)) ⟨0, 1, -1, 1⟩)
        (Mat4.mulVec (Mat4.inverse (perspective t a n f)) ⟨0, 1, -1, 1⟩).w).toVec3
        = ⟨0, t * n, -n⟩ := by
      have hwn : 1 / (-(2 * f * n) / (f - n)) * -1
          + -(f + n) / (f - n) / (-(2 * f * n) / (f - n)) * 1 = 1 / n := by
        field_simp
        ring
      simp only [perspective_inverse t a n f ht ha hn hnf, Mat4.mulVec, Vec4.divScalar,
        Vec4.toVec3, zero_mul, zero_add, add_zero, hwn, Vec3.mk.injEq]
      refine ⟨?_, ?_, ?_⟩ <;> field_simp
    simp only [setProjection, htop]

/-- The angle between the forward axis and the unprojected top-centre
direction is half the field of view: its cosine is `cos h` when the direction is
`(0, tan h * n, -n)`. -/
theorem top_direction_dot (h n : ℝ) (hh0 : 0 < h) (hh1 : h < Real.pi / 2) (hn : 0 < n) :
    Vec3.dot ⟨0, 0, -1⟩ (Vec3.normalize realOps ⟨0, Real.tan h * n, -n⟩) = Real.cos h := by
  have hc : 0 < Real.cos h :=
    Real.cos_pos_of_mem_Ioo ⟨by linarith, hh1⟩
  have hsq : Real.sqrt (0 * 0 + Real.tan h * n * (Real.tan h * n) + -n * -n) = n / Real.cos h := by
    rw [Real.sqrt_eq_iff_mul_self_eq_of_pos (by positivity), Real.tan_eq_sin_div_cos]
    field_simp
    have := Real.sin_sq_add_cos_sq h
    nlinarith
  simp only [Vec3.dot, Vec3.normalize, Vec3.smul, realOps, hsq]
  field_simp

/-- Claim C10: for the perspective matrix of vertical field of view fovy
(degrees, 0 < fovy < 180), aspect ratio a > 0 and clip distances 0 < n < f,
setProjection derives nearClip = n, farClip = f, aspectRatio = a and
fieldOfView = fovy. -/
theorem c10_setProjection_recovers (F : ViewFrustum ℝ) (fovy a n f : ℝ)
    (h0 : 0 < fovy) (h180 : fovy < 180) (ha : 0 < a) (hn : 0 < n) (hnf : n < f) :
    (setProjection realOps F
        (perspective (Real.tan (fovy * Real.pi / 180 / 2)) a n f)).nearClip = n ∧
    (setProjection realOps F
        (perspective (Real.tan (fovy * Real.pi / 180 / 2)) a n f)).farClip = f ∧
    (setProjection realOps F
        (perspective (Real.tan (fovy * Real.pi / 180 / 2)) a n f)).aspectRatio = a ∧
    (setProjection realOps F
        (perspective (Real.tan (fovy * Real.pi / 180 / 2)) a n f)).fieldOfView = fovy := by
  have hpi := Real.pi_pos
  have hh0 : 0 < fovy * Real.pi / 180 / 2 := by positivity
  have hh1 : fovy * Real.pi / 180 / 2 < Real.pi / 2 := by
    have : fovy * Real.pi < 180 * Real.pi := mul_lt_mul_of_pos_right h180 hpi
    linarith
  have ht : 0 < Real.tan (fovy * Real.pi / 180 / 2) :=
    Real.tan_pos_of_pos_of_lt_pi_div_two hh0 hh1
  obtain ⟨h1, h2, h3, h4⟩ := setProjection_perspective realOps F _ a n f ht ha hn hnf
  refine ⟨h1, h2, h3, ?_⟩
  rw [h4]
  have hcl : clamp (Real.cos (fovy * Real.pi / 180 / 2)) (-1) 1
      = Real.cos (fovy * Real.pi / 180 / 2) := by
    simp only [clamp]
    rw [max_eq_left (Real.neg_one_le_cos _), min_eq_left (Real.cos_le_one _)]
  have hang : Vec3.angle realOps ⟨0, 0, -1⟩
      (Vec3.normalize realOps ⟨0, Real.tan (fovy * Real.pi / 180 / 2) * n, -n⟩)
      = fovy * Real.pi / 180 / 2 := by
    simp only [Vec3.angle]
    rw [top_direction_dot _ n hh0 hh1 hn, hcl]
    exact Real.arccos_cos hh0.le (by linarith)
  rw [hang, abs_of_pos hh0]
  have hd : degrees realOps (2 * (fovy * Real.pi / 180 / 2)) = fovy := by
    simp only [degrees, realOps]
    field_simp
    ring
  rw [hd, abs_of_pos h0]

/-- Witness of claim C10: fovy = 90, aspect 1, near 0.1, far 100. -/
theorem c10_setProjection_recovers_witness :
    ((0 : ℝ) < 90 ∧ (90 : ℝ) < 180 ∧ (0 : ℝ) < 1 ∧ (0 : ℝ) < 1 / 10 ∧ (1 / 10 : ℝ) < 100) ∧
    (setProjection realOps (sampleFrustum : ViewFrustum ℝ)
        (perspective (Real.tan (90 * Real.pi / 180 / 2)) 1 (1 / 10) 100)).nearClip = 1 / 10 ∧
    (setProjection realOps (sampleFrustum : ViewFrustum ℝ)
        (perspective (Real.tan (90 * Real.pi / 180 / 2)) 1 (1 / 10) 100)).farClip = 100 ∧
    (setProjection realOps (sampleFrustum : ViewFrustum ℝ)
        (perspective (Real.tan (90 * Real.pi / 180 / 2)) 1 (1 / 10) 100)).aspectRatio = 1 ∧
    (setProjection realOps (sampleFrustum : ViewFrustum ℝ)
        (perspective (Real.tan (90 * Real.pi / 180 / 2)) 1 (1 / 10) 100)).fieldOfView = 90 :=
  ⟨⟨by norm_num, by norm_num, by norm_num, by norm_num, by norm_num⟩,
    c10_setProjection_recovers sampleFrustum 90 1 (1 / 10) 100 (by norm_num) (by norm_num)
      (by norm_num) (by norm_num) (by norm_num)⟩

/-! ### The sample frustum is a state computed by the code -/

/-- The sample projection is its own inverse. -/
theorem sampleProjection_inverse :
    Mat4.inverse (sampleProjection : Mat4 ℝ) = sampleProjection := by
  norm_num [Mat4.inverse, sampleProjection, Vec4.mul, Vec4.add, Vec4.sub, Vec4.smul]

/-- The square root of 16 is 4. -/
theorem sqrt_sixteen : Real.sqrt 16 = 4 := by
  rw [show (16 : ℝ) = 4 ^ 2 by norm_num, Real.sqrt_sq (by norm_num)]

/-- The planes built by calculate(), each from the three world corners the
code names. -/
theorem calculate_planes (m : FloatOps K) (F : ViewFrustum K) :
    (calculate m F).planes TOP_PLANE
      = Plane.set3Points m ((calculate m F).cornersWorld TOP_RIGHT_NEAR)
          ((calculate m F).cornersWorld TOP_LEFT_NEAR)
          ((calculate m F).cornersWorld TOP_LEFT_FAR) ∧
    (calculate m F).planes BOTTOM_PLANE
      = Plane.set3Points m ((calculate m F).cornersWorld BOTTOM_LEFT_NEAR)
          ((calculate m F).cornersWorld BOTTOM_RIGHT_NEAR)
          ((calculate m F).cornersWorld BOTTOM_RIGHT_FAR) ∧
    (calculate m F).planes LEFT_PLANE
      = Plane.set3Points m ((calculate m F).cornersWorld BOTTOM_LEFT_NEAR)
          ((calculate m F).cornersWorld BOTTOM_LEFT_FAR)
          ((calculate m F).cornersWorld TOP_LEFT_FAR) ∧
    (calculate m F).planes RIGHT_PLANE
      = Plane.set3Points m ((calculate m F).cornersWorld BOTTOM_RIGHT_FAR)
          ((calculate m F).cornersWorld BOTTOM_RIGHT_NEAR)
          ((calculate m F).cornersWorld TOP_RIGHT_FAR) ∧
    (calculate m F).planes NEAR_PLANE
      = Plane.set3Points m ((calculate m F).cornersWorld BOTTOM_RIGHT_NEAR)
          ((calculate m F).cornersWorld BOTTOM_LEFT_NEAR)
          ((calculate m F).cornersWorld TOP_LEFT_NEAR) ∧
    (calculate m F).planes FAR_PLANE
      = Plane.set3Points m ((calculate m F).cornersWorld BOTTOM_LEFT_FAR)
          ((calculate m F).cornersWorld BOTTOM_RIGHT_FAR)
          ((calculate m F).cornersWorld TOP_RIGHT_FAR) :=
  ⟨rfl, rfl, rfl, rfl, rfl, rfl⟩

/-- The clip-frame corners of the sample frustum are those that setProjection
derives from the sample projection. -/
theorem sampleFrustum_corners (i : Fin NUM_FRUSTUM_CORNERS) :
    (setProjection realOps (sampleFrustum : ViewFrustum ℝ) sampleProjection).corners i
      = (sampleFrustum : ViewFrustum ℝ).corners i := by
  simp only [setProjection, sampleProjection_inverse]
  fin_cases i <;>
    norm_num [sampleFrustum, sampleProjection, Mat4.mulVec, NDC_VALUES, Vec4.divScalar]

/-- The world corners of the sample frustum are those that calculate()
computes. -/
theorem sampleFrustum_cornersWorld (i : Fin NUM_FRUSTUM_CORNERS) :
    (calculate realOps (sampleFrustum : ViewFrustum ℝ)).cornersWorld i
      = (sampleFrustum : ViewFrustum ℝ).cornersWorld i := by
  have hw : Mat4.mul (Mat4.translate (sampleFrustum : ViewFrustum ℝ).position)
      (Mat4.ofColumns3 (sampleFrustum : ViewFrustum ℝ).right (sampleFrustum : ViewFrustum ℝ).up
        (Vec3.neg (sampleFrustum : ViewFrustum ℝ).direction)) = Mat4.identity := by
    norm_num [sampleFrustum, Mat4.mul, Mat4.mulVec, Mat4.translate, Mat4.ofColumns3, Vec3.neg,
      Mat4.identity]
  rw [calculate_cornersWorld, hw]
  fin_cases i <;>
    norm_num [sampleFrustum, Mat4.identity, Mat4.mulVec, Vec4.divScalar, Vec4.toVec3]

/-- The planes of the sample frustum are those that calculate() builds: with the
corner triples of the code, every normal points into the frustum. -/
theorem sampleFrustum_planes (i : Fin NUM_FRUSTUM_PLANES) :
    (calculate realOps (sampleFrustum : ViewFrustum ℝ)).planes i
      = (sampleFrustum : ViewFrustum ℝ).planes i := by
  obtain ⟨h0, h1, h2, h3, h4, h5⟩ := calculate_planes realOps (sampleFrustum : ViewFrustum ℝ)
  have h16 := sqrt_sixteen
  fin_cases i
  · show (calculate realOps (sampleFrustum : ViewFrustum ℝ)).planes TOP_PLANE = _
    rw [h0]
    simp only [sampleFrustum_cornersWorld]
    norm_num [sampleFrustum, Plane.set3Points, Vec3.normalize, Vec3.cross, Vec3.sub, Vec3.dot,
      Vec3.smul, realOps, sqrt_sixteen]
  · show (calculate realOps (sampleFrustum : ViewFrustum ℝ)).planes BOTTOM_PLANE = _
    rw [h1]
    simp only [sampleFrustum_cornersWorld]
    norm_num [sampleFrustum, Plane.set3Points, Vec3.normalize, Vec3.cross, Vec3.sub, Vec3.dot,
      Vec3.smul, realOps, sqrt_sixteen]
  · show (calculate realOps (sampleFrustum : ViewFrustum ℝ)).planes LEFT_PLANE = _
    rw [h2]
    simp only [sampleFrustum_cornersWorld]
    norm_num [sampleFrustum, Plane.set3Points, Vec3.normalize, Vec3.cross, Vec3.sub, Vec3.dot,
      Vec3.smul, realOps, sqrt_sixteen]
  · show (calculate realOps (sampleFrustum : ViewFrustum ℝ)).planes RIGHT_PLANE = _
    rw [h3]
    simp only [sampleFrustum_cornersWorld]
    norm_num [sampleFrustum, Plane.set3Points, Vec3.normalize, Vec3.cross, Vec3.sub, Vec3.dot,
      Vec3.smul, realOps, sqrt_sixteen]
  · show (calculate realOps (sampleFrustum : ViewFrustum ℝ)).planes NEAR_PLANE = _
    rw [h4]
    simp only [sampleFrustum_cornersWorld]
    norm_num [sampleFrustum, Plane.set3Points, Vec3.normalize, Vec3.cross, Vec3.sub, Vec3.dot,
      Vec3.smul, realOps, sqrt_sixteen]
  · show (calculate realOps (sampleFrustum : ViewFrustum ℝ)).planes FAR_PLANE = _
    rw [h5]
    simp only [sampleFrustum_cornersWorld]
    norm_num [sampleFrustum, Plane.set3Points, Vec3.normalize, Vec3.cross, Vec3.sub, Vec3.dot,
      Vec3.smul, realOps, sqrt_sixteen]

/-! ### Shared lemmas on the plane loops -/

/-- When no plane in the range rejects the farthest vertex and one plane has the
nearest vertex behind it, the cube loop ends with INTERSECT. -/
theorem cubeFrustumLoop_intersect (F : ViewFrustum K) (cube : AACube K)
    (l : List (Fin NUM_FRUSTUM_PLANES)) (result : intersection)
    (hfar : ∀ i ∈ l, ¬ (F.planes i).distance (cube.getFarthestVertex (F.planes i).getNormal)
      < ((0 : K) : WithBot K))
    (hnear : (∃ i ∈ l, (F.planes i).distance (cube.getNearestVertex (F.planes i).getNormal)
      < ((0 : K) : WithBot K)) ∨ result = INTERSECT) :
    cubeFrustumLoop F cube l result = INTERSECT := by
  induction l generalizing result with
  | nil =>
    rcases hnear with ⟨i, hi, _⟩ | h
    · simp at hi
    · simpa [cubeFrustumLoop] using h
  | cons j rest ih =>
    simp only [cubeFrustumLoop]
    rw [if_neg (hfar j (List.mem_cons_self _ _))]
    have hfar' : ∀ i ∈ rest, ¬ (F.planes i).distance
        (cube.getFarthestVertex (F.planes i).getNormal) < ((0 : K) : WithBot K) :=
      fun i hi => hfar i (List.mem_cons_of_mem _ hi)
    by_cases hj : (F.planes j).distance (cube.getNearestVertex (F.planes j).getNormal)
        < ((0 : K) : WithBot K)
    · rw [if_pos hj]
      exact ih INTERSECT hfar' (Or.inr rfl)
    · rw [if_neg hj]
      apply ih result hfar'
      rcases hnear with ⟨i, hi, hd⟩ | h
      · rcases List.mem_cons.mp hi with rfl | hi
        · exact absurd hd hj
        · exact Or.inl ⟨i, hi, hd⟩
      · exact Or.inr h

/-- When no plane in the range has the farthest or the nearest vertex behind it,
the cube loop leaves the recorded result unchanged. -/
theorem cubeFrustumLoop_unchanged (F : ViewFrustum K) (cube : AACube K)
    (l : List (Fin NUM_FRUSTUM_PLANES)) (result : intersection)
    (hfar : ∀ i ∈ l, ¬ (F.planes i).distance (cube.getFarthestVertex (F.planes i).getNormal)
      < ((0 : K) : WithBot K))
    (hnear : ∀ i ∈ l, ¬ (F.planes i).distance (cube.getNearestVertex (F.planes i).getNormal)
      < ((0 : K) : WithBot K)) :
    cubeFrustumLoop F cube l result = result := by
  induction l with
  | nil => rfl
  | cons j rest ih =>
    simp only [cubeFrustumLoop]
    rw [if_neg (hfar j (List.mem_cons_self _ _)), if_neg (hnear j (List.mem_cons_self _ _))]
    exact ih (fun i hi => hfar i (List.mem_cons_of_mem _ hi))
      (fun i hi => hnear i (List.mem_cons_of_mem _ hi))

/-- When no plane in the range rejects the farthest vertex, the cube loop does
not end with OUTSIDE (unless OUTSIDE was recorded before). -/
theorem cubeFrustumLoop_ne_outside (F : ViewFrustum K) (cube : AACube K)
    (l : List (Fin NUM_FRUSTUM_PLANES)) (result : intersection) (hr : result ≠ OUTSIDE)
    (hfar : ∀ i ∈ l, ¬ (F.planes i).distance (cube.getFarthestVertex (F.planes i).getNormal)
      < ((0 : K) : WithBot K)) :
    cubeFrustumLoop F cube l result ≠ OUTSIDE := by
  induction l generalizing result with
  | nil => exact hr
  | cons j rest ih =>
    simp only [cubeFrustumLoop]
    rw [if_neg (hfar j (List.mem_cons_self _ _))]
    have hfar' : ∀ i ∈ rest, ¬ (F.planes i).distance
        (cube.getFarthestVertex (F.planes i).getNormal) < ((0 : K) : WithBot K) :=
      fun i hi => hfar i (List.mem_cons_of_mem _ hi)
    split
    · exact ih INTERSECT (by decide) hfar'
    · exact ih result hr hfar'

/-- The cube test is OUTSIDE exactly when some plane rejects the farthest
vertex. -/
theorem cube_outside_iff (F : ViewFrustum K) (cube : AACube K) :
    calculateCubeFrustumIntersection F cube = OUTSIDE ↔
      ∃ i : Fin NUM_FRUSTUM_PLANES,
        (F.planes i).distance (cube.getFarthestVertex (F.planes i).getNormal)
          < ((0 : K) : WithBot K) := by
  constructor
  · intro h
    by_contra hfar
    exact cubeFrustumLoop_ne_outside F cube planeIndices INSIDE (by decide)
      (fun i _ hi => hfar ⟨i, hi⟩) h
  · rintro ⟨i, hi⟩
    exact cubeFrustumLoop_outside F cube planeIndices INSIDE ⟨i, mem_planeIndices i, hi⟩

/-- The loop of cubeIntersectsKeyhole answers true exactly when no plane in the
range rejects the farthest vertex. -/
theorem cubeKeyholeLoop_eq_true (F : ViewFrustum K) (cube : AACube K)
    (l : List (Fin NUM_FRUSTUM_PLANES)) :
    cubeKeyholeLoop F cube l = true ↔
      ∀ i ∈ l, ¬ (F.planes i).distance (cube.getFarthestVertex (F.planes i).getNormal)
        < ((0 : K) : WithBot K) := by
  induction l with
  | nil => simp [cubeKeyholeLoop]
  | cons j rest ih =>
    simp only [cubeKeyholeLoop, List.forall_mem_cons]
    by_cases hj : (F.planes j).distance (cube.getFarthestVertex (F.planes j).getNormal)
        < ((0 : K) : WithBot K)
    · rw [if_pos hj]
      exact iff_of_false (by decide) (fun hh => hh.1 hj)
    · rw [if_neg hj, ih]
      exact ⟨fun hh => ⟨hj, hh⟩, fun hh => hh.2⟩

/-- The loop of boxIntersectsFrustum answers true exactly when no plane in the
range rejects the farthest vertex of the box. -/
theorem boxFrustumLoop_eq_true (F : ViewFrustum K) (box : AABox K)
    (l : List (Fin NUM_FRUSTUM_PLANES)) :
    boxFrustumLoop F box l = true ↔
      ∀ i ∈ l, ¬ (F.planes i).distance (box.getFarthestVertex (F.planes i).getNormal)
        < ((0 : K) : WithBot K) := by
  induction l with
  | nil => simp [boxFrustumLoop]
  | cons j rest ih =>
    simp only [boxFrustumLoop, List.forall_mem_cons]
    by_cases hj : (F.planes j).distance (box.getFarthestVertex (F.planes j).getNormal)
        < ((0 : K) : WithBot K)
    · rw [if_pos hj]
      exact iff_of_false (by decide) (fun hh => hh.1 hj)
    · rw [if_neg hj, ih]
      exact ⟨fun hh => ⟨hj, hh⟩, fun hh => hh.2⟩

/-- The loop of pointIntersectsFrustum answers true exactly when no plane in the
range has the point at negative distance. -/
theorem pointFrustumLoop_eq_true (F : ViewFrustum K) (point : Vec3 K)
    (l : List (Fin NUM_FRUSTUM_PLANES)) :
    pointFrustumLoop F point l = true ↔
      ∀ i ∈ l, ¬ (F.planes i).distance point < ((0 : K) : WithBot K) := by
  induction l with
  | nil => simp [pointFrustumLoop]
  | cons j rest ih =>
    simp only [pointFrustumLoop, List.forall_mem_cons]
    by_cases hj : (F.planes j).distance point < ((0 : K) : WithBot K)
    · rw [if_pos hj]
      exact iff_of_false (by decide) (fun hh => hh.1 hj)
    · rw [if_neg hj, ih]
      exact ⟨fun hh => ⟨hj, hh⟩, fun hh => hh.2⟩

/-- The loop of sphereIntersectsFrustum answers true exactly when no plane in
the range has the centre at a distance below minus the radius. -/
theorem sphereFrustumLoop_eq_true (F : ViewFrustum K) (center : Vec3 K) (radius : K)
    (l : List (Fin NUM_FRUSTUM_PLANES)) :
    sphereFrustumLoop F center radius l = true ↔
      ∀ i ∈ l, ¬ (F.planes i).distance center < ((-radius : K) : WithBot K) := by
  induction l with
  | nil => simp [sphereFrustumLoop]
  | cons j rest ih =>
    simp only [sphereFrustumLoop, List.forall_mem_cons]
    by_cases hj : (F.planes j).distance center < ((-radius : K) : WithBot K)
    · rw [if_pos hj]
      exact iff_of_false (by decide) (fun hh => hh.1 hj)
    · rw [if_neg hj, ih]
      exact ⟨fun hh => ⟨hj, hh⟩, fun hh => hh.2⟩

/-- The Cauchy-Schwarz inequality for vec3, squared. -/
theorem Vec3.dot_sq_le (a b : Vec3 K) :
    Vec3.dot a b * Vec3.dot a b ≤ Vec3.dot a a * Vec3.dot b b := by
  simp only [Vec3.dot]
  nlinarith [sq_nonneg (a.x * b.y - a.y * b.x), sq_nonneg (a.x * b.z - a.z * b.x),
    sq_nonneg (a.y * b.z - a.z * b.y)]

/-! ### C11: the cube test is determined by the farthest and nearest vertices -/

/-- Claim C11: calculateCubeFrustumIntersection returns OUTSIDE iff some plane
has the farthest vertex along its normal at negative distance; otherwise
INTERSECT iff some plane has the nearest vertex at negative distance; otherwise
INSIDE. -/
theorem c11_cube_frustum_characterisation (F : ViewFrustum K) (cube : AACube K) :
    (calculateCubeFrustumIntersection F cube = OUTSIDE ↔
      ∃ i : Fin NUM_FRUSTUM_PLANES,
        (F.planes i).distance (cube.getFarthestVertex (F.planes i).getNormal)
          < ((0 : K) : WithBot K)) ∧
    (calculateCubeFrustumIntersection F cube = INTERSECT ↔
      (¬ ∃ i : Fin NUM_FRUSTUM_PLANES,
        (F.planes i).distance (cube.getFarthestVertex (F.planes i).getNormal)
          < ((0 : K) : WithBot K)) ∧
      ∃ i : Fin NUM_FRUSTUM_PLANES,
        (F.planes i).distance (cube.getNearestVertex (F.planes i).getNormal)
          < ((0 : K) : WithBot K)) ∧
    (calculateCubeFrustumIntersection F cube = INSIDE ↔
      (¬ ∃ i : Fin NUM_FRUSTUM_PLANES,
        (F.planes i).distance (cube.getFarthestVertex (F.planes i).getNormal)
          < ((0 : K) : WithBot K)) ∧
      ¬ ∃ i : Fin NUM_FRUSTUM_PLANES,
        (F.planes i).distance (cube.getNearestVertex (F.planes i).getNormal)
          < ((0 : K) : WithBot K)) := by
  by_cases hfar : ∃ i : Fin NUM_FRUSTUM_PLANES,
      (F.planes i).distance (cube.getFarthestVertex (F.planes i).getNormal)
        < ((0 : K) : WithBot K)
  · have h : calculateCubeFrustumIntersection F cube = OUTSIDE := by
      obtain ⟨i, hi⟩ := hfar
      exact cubeFrustumLoop_outside F cube planeIndices INSIDE ⟨i, mem_planeIndices i, hi⟩
    rw [h]
    exact ⟨iff_of_true rfl hfar, iff_of_false (by decide) (fun hh => hh.1 hfar),
      iff_of_false (by decide) (fun hh => hh.1 hfar)⟩
  · have hfar' : ∀ i ∈ planeIndices, ¬ (F.planes i).distance
        (cube.getFarthestVertex (F.planes i).getNormal) < ((0 : K) : WithBot K) :=
      fun i _ hi => hfar ⟨i, hi⟩
    by_cases hnear : ∃ i : Fin NUM_FRUSTUM_PLANES,
        (F.planes i).distance (cube.getNearestVertex (F.planes i).getNormal)
          < ((0 : K) : WithBot K)
    · have h : calculateCubeFrustumIntersection F cube = INTERSECT := by
        obtain ⟨i, hi⟩ := hnear
        exact cubeFrustumLoop_intersect F cube planeIndices INSIDE hfar'
          (Or.inl ⟨i, mem_planeIndices i, hi⟩)
      rw [h]
      exact ⟨iff_of_false (by decide) hfar, iff_of_true rfl ⟨hfar, hnear⟩,
        iff_of_false (by decide) (fun hh => hh.2 hnear)⟩
    · have h : calculateCubeFrustumIntersection F cube = INSIDE :=
        cubeFrustumLoop_unchanged F cube planeIndices INSIDE hfar'
          (fun i _ hi => hnear ⟨i, hi⟩)
      rw [h]
      exact ⟨iff_of_false (by decide) hfar, iff_of_false (by decide) (fun hh => hnear hh.2),
        iff_of_true rfl ⟨hfar, hnear⟩⟩

/-! ### C12: the boolean keyhole queries are sphere-or-frustum -/

/-- The cube branch of the keyhole test agrees with the ternary cube test. -/
theorem cubeKeyholeLoop_eq (F : ViewFrustum K) (cube : AACube K) :
    cubeKeyholeLoop F cube planeIndices
      = decide (calculateCubeFrustumIntersection F cube ≠ OUTSIDE) := by
  rw [Bool.eq_iff_iff, cubeKeyholeLoop_eq_true, decide_eq_true_eq, Ne, cube_outside_iff]
  exact ⟨fun hh ⟨i, hi⟩ => hh i (mem_planeIndices i) hi, fun hh i _ hi => hh ⟨i, hi⟩⟩

/-- Claim C12: each boolean keyhole query is the disjunction of touching the
central sphere and passing the frustum-only test, so every volume accepted by
the frustum-only test is accepted by the keyhole test. -/
theorem c12_keyhole_is_sphere_or_frustum (m : FloatOps K) (F : ViewFrustum K) :
    (∀ (center : Vec3 K) (radius : K),
      sphereIntersectsKeyhole m F center radius
        = (decide (Vec3.length m (Vec3.sub center F.position)
            ≤ radius + F.centerSphereRadius) || sphereIntersectsFrustum F center radius)) ∧
    (∀ box : AABox K,
      boxIntersectsKeyhole F box
        = (box.touchesSphere F.position F.centerSphereRadius || boxIntersectsFrustum F box)) ∧
    (∀ cube : AACube K,
      cubeIntersectsKeyhole F cube
        = (cube.touchesSphere F.position F.centerSphereRadius
            || decide (calculateCubeFrustumIntersection F cube ≠ OUTSIDE))) ∧
    (∀ (center : Vec3 K) (radius : K), sphereIntersectsFrustum F center radius = true →
      sphereIntersectsKeyhole m F center radius = true) ∧
    (∀ box : AABox K, boxIntersectsFrustum F box = true → boxIntersectsKeyhole F box = true) ∧
    (∀ cube : AACube K, calculateCubeFrustumIntersection F cube ≠ OUTSIDE →
      cubeIntersectsKeyhole F cube = true) := by
  have hs : ∀ (center : Vec3 K) (radius : K),
      sphereIntersectsKeyhole m F center radius
        = (decide (Vec3.length m (Vec3.sub center F.position)
            ≤ radius + F.centerSphereRadius) || sphereIntersectsFrustum F center radius) := by
    intro center radius
    unfold sphereIntersectsKeyhole sphereIntersectsFrustum
    by_cases h : Vec3.length m (Vec3.sub center F.position) ≤ radius + F.centerSphereRadius
    · simp [h]
    · simp [h]
  have hb : ∀ box : AABox K,
      boxIntersectsKeyhole F box
        = (box.touchesSphere F.position F.centerSphereRadius || boxIntersectsFrustum F box) := by
    intro box
    unfold boxIntersectsKeyhole boxIntersectsFrustum
    cases box.touchesSphere F.position F.centerSphereRadius <;> simp
  have hc : ∀ cube : AACube K,
      cubeIntersectsKeyhole F cube
        = (cube.touchesSphere F.position F.centerSphereRadius
            || decide (calculateCubeFrustumIntersection F cube ≠ OUTSIDE)) := by
    intro cube
    unfold cubeIntersectsKeyhole
    rw [cubeKeyholeLoop_eq]
    cases cube.touchesSphere F.position F.centerSphereRadius <;> simp
  refine ⟨hs, hb, hc, ?_, ?_, ?_⟩
  · intro center radius h
    rw [hs, h, Bool.or_true]
  · intro box h
    rw [hb, h, Bool.or_true]
  · intro cube h
    rw [hc, decide_eq_true h, Bool.or_true]

/-- Witness of claim C12: the cube of edge 1/2 with corner (0, 0, -2) is inside
the sample frustum and is accepted by cubeIntersectsKeyhole. -/
theorem c12_keyhole_is_sphere_or_frustum_witness :
    calculateCubeFrustumIntersection (sampleFrustum : ViewFrustum ℝ) ⟨⟨0, 0, -2⟩, 1 / 2⟩
      ≠ OUTSIDE ∧
    cubeIntersectsKeyhole (sampleFrustum : ViewFrustum ℝ) ⟨⟨0, 0, -2⟩, 1 / 2⟩ = true :=
  have h : calculateCubeFrustumIntersection (sampleFrustum : ViewFrustum ℝ)
      ⟨⟨0, 0, -2⟩, 1 / 2⟩ ≠ OUTSIDE := by
    rw [sample_small_cube_inside]
    decide
  ⟨h, (c12_keyhole_is_sphere_or_frustum realOps sampleFrustum).2.2.2.2.2 _ h⟩

/-! ### C13: the box test is the not-rejected part of the cube test -/

/-- The farthest vertex of the box with the corner of a cube and three sides
equal to its scale is the farthest vertex of the cube. -/
theorem box_of_cube_farthest (cube : AACube K) (normal : Vec3 K) :
    (⟨cube.corner, ⟨cube.scale, cube.scale, cube.scale⟩⟩ : AABox K).getFarthestVertex normal
      = cube.getFarthestVertex normal := rfl

/-- Claim C13: boxIntersectsFrustum returns false iff some plane has negative
distance to the farthest vertex of the box along its normal; for a cube and the
box with the same corner and equal side lengths, boxIntersectsFrustum is true
iff calculateCubeFrustumIntersection is INSIDE or INTERSECT. -/
theorem c13_box_test_is_cube_not_rejected (F : ViewFrustum K) :
    (∀ box : AABox K, boxIntersectsFrustum F box = false ↔
      ∃ i : Fin NUM_FRUSTUM_PLANES,
        (F.planes i).distance (box.getFarthestVertex (F.planes i).getNormal)
          < ((0 : K) : WithBot K)) ∧
    (∀ cube : AACube K,
      boxIntersectsFrustum F ⟨cube.corner, ⟨cube.scale, cube.scale, cube.scale⟩⟩ = true ↔
        (calculateCubeFrustumIntersection F cube = INSIDE ∨
          calculateCubeFrustumIntersection F cube = INTERSECT)) := by
  have hb : ∀ box : AABox K, boxIntersectsFrustum F box = true ↔
      ¬ ∃ i : Fin NUM_FRUSTUM_PLANES,
        (F.planes i).distance (box.getFarthestVertex (F.planes i).getNormal)
          < ((0 : K) : WithBot K) := by
    intro box
    unfold boxIntersectsFrustum
    rw [boxFrustumLoop_eq_true]
    exact ⟨fun hh ⟨i, hi⟩ => hh i (mem_planeIndices i) hi, fun hh i _ hi => hh ⟨i, hi⟩⟩
  constructor
  · intro box
    rw [← Bool.not_eq_true, hb, not_not]
  · intro cube
    rw [hb]
    simp only [box_of_cube_farthest]
    rw [← cube_outside_iff]
    cases calculateCubeFrustumIntersection F cube <;> simp

/-! ### C14: the setters are independent -/

/-- Claim C14: the three setters leave the world corners, the planes and
centerSphereRadius unchanged; setPosition and setOrientation leave the
projection-derived fields unchanged; setProjection leaves position,
orientation, right, up, direction and the view matrix unchanged; and two
different setters applied in either order give the same state. -/
theorem c14_setters_independent (m : FloatOps K) (F : ViewFrustum K) (p : Vec3 K)
    (q : Quat K) (P : Mat4 K) :
    ((setPosition F p).cornersWorld = F.cornersWorld ∧ (setPosition F p).planes = F.planes ∧
      (setPosition F p).centerSphereRadius = F.centerSphereRadius ∧
      (setOrientation F q).cornersWorld = F.cornersWorld ∧
      (setOrientation F q).planes = F.planes ∧
      (setOrientation F q).centerSphereRadius = F.centerSphereRadius ∧
      (setProjection m F P).cornersWorld = F.cornersWorld ∧
      (setProjection m F P).planes = F.planes ∧
      (setProjection m F P).centerSphereRadius = F.centerSphereRadius) ∧
    ((setPosition F p).projection = F.projection ∧ (setPosition F p).corners = F.corners ∧
      (setPosition F p).nearClip = F.nearClip ∧ (setPosition F p).farClip = F.farClip ∧
      (setPosition F p).aspectRatio = F.aspectRatio ∧
      (setPosition F p).fieldOfView = F.fieldOfView ∧
      (setOrientation F q).projection = F.projection ∧
      (setOrientation F q).corners = F.corners ∧
      (setOrientation F q).nearClip = F.nearClip ∧ (setOrientation F q).farClip = F.farClip ∧
      (setOrientation F q).aspectRatio = F.aspectRatio ∧
      (setOrientation F q).fieldOfView = F.fieldOfView) ∧
    ((setProjection m F P).position = F.position ∧
      (setProjection m F P).orientation = F.orientation ∧
      (setProjection m F P).right = F.right ∧ (setProjection m F P).up = F.up ∧
      (setProjection m F P).direction = F.direction ∧ (setProjection m F P).view = F.view) ∧
    (setPosition (setOrientation F q) p = setOrientation (setPosition F p) q ∧
      setProjection m (setPosition F p) P = setPosition (setProjection m F P) p ∧
      setProjection m (setOrientation F q) P = setOrientation (setProjection m F P) q) :=
  ⟨⟨rfl, rfl, rfl, rfl, rfl, rfl, rfl, rfl, rfl⟩,
    ⟨rfl, rfl, rfl, rfl, rfl, rfl, rfl, rfl, rfl, rfl, rfl, rfl⟩,
    ⟨rfl, rfl, rfl, rfl, rfl, rfl⟩, ⟨rfl, rfl, rfl⟩⟩

/-! ### C15: the furthest vertex from the camera -/

/-- One axis of getFurthestPointFromCamera: the chosen face is at least as far
from the camera coordinate `p` as either face of the cube. -/
theorem furthest_axis (p c s v : K) (hs : 0 ≤ s) (hv : v = c ∨ v = c + s) :
    (p - v) * (p - v)
      ≤ (p - (if p < c + s * (1 / 2) then c + s else c))
        * (p - (if p < c + s * (1 / 2) then c + s else c)) := by
  by_cases h : p < c + s * (1 / 2)
  · rw [if_pos h]
    rcases hv with rfl | rfl
    · nlinarith
    · exact le_refl _
  · rw [if_neg h]
    rcases hv with rfl | rfl
    · exact le_refl _
    · nlinarith [not_lt.mp h]

/-- The point chosen by getFurthestPointFromCamera is one of the 8 vertices. -/
theorem getFurthestPointFromCamera_mem (F : ViewFrustum K) (box : AACube K) :
    getFurthestPointFromCamera F box ∈ box.vertices := by
  simp only [getFurthestPointFromCamera, AACube.getCorner, AACube.getScale, AACube.vertices]
  by_cases hx : F.position.x < box.corner.x + box.scale * (1 / 2) <;>
    by_cases hy : F.position.y < box.corner.y + box.scale * (1 / 2) <;>
    by_cases hz : F.position.z < box.corner.z + box.scale * (1 / 2) <;>
    simp only [hx, hy, hz, if_true, if_false] <;>
    simp

/-- Every vertex has each coordinate on one of the two faces of its axis. -/
theorem vertices_coordinates (box : AACube K) (v : Vec3 K) (hv : v ∈ box.vertices) :
    (v.x = box.corner.x ∨ v.x = box.corner.x + box.scale) ∧
    (v.y = box.corner.y ∨ v.y = box.corner.y + box.scale) ∧
    (v.z = box.corner.z ∨ v.z = box.corner.z + box.scale) := by
  simp only [AACube.vertices, List.mem_cons, List.mem_singleton, List.not_mem_nil,
    or_false] at hv
  rcases hv with rfl | rfl | rfl | rfl | rfl | rfl | rfl | rfl <;> simp

/-- Claim C15: for a cube of non-negative scale the point produced by
getFurthestPointFromCamera is one of the 8 vertices, and its Euclidean distance
from the camera position is at least that of every vertex. -/
theorem c15_furthest_point (F : ViewFrustum ℝ) (box : AACube ℝ) (hs : 0 ≤ box.scale) :
    getFurthestPointFromCamera F box ∈ box.vertices ∧
    ∀ v ∈ box.vertices,
      distanceToCamera realOps F v
        ≤ distanceToCamera realOps F (getFurthestPointFromCamera F box) := by
  refine ⟨getFurthestPointFromCamera_mem F box, ?_⟩
  intro v hv
  obtain ⟨hx, hy, hz⟩ := vertices_coordinates box v hv
  have h1 := furthest_axis F.position.x box.corner.x box.scale v.x hs hx
  have h2 := furthest_axis F.position.y box.corner.y box.scale v.y hs hy
  have h3 := furthest_axis F.position.z box.corner.z box.scale v.z hs hz
  simp only [distanceToCamera, realOps]
  apply Real.sqrt_le_sqrt
  simp only [Vec3.dot, Vec3.sub, getFurthestPointFromCamera, AACube.getCorner, AACube.getScale]
  linarith

/-- Witness of claim C15: the cube with corner (2, 2, 2) and edge 2, seen from
the sample frustum at the origin. -/
theorem c15_furthest_point_witness :
    (0 : ℝ) ≤ (⟨⟨2, 2, 2⟩, 2⟩ : AACube ℝ).scale ∧
    getFurthestPointFromCamera (sampleFrustum : ViewFrustum ℝ) ⟨⟨2, 2, 2⟩, 2⟩
      ∈ (⟨⟨2, 2, 2⟩, 2⟩ : AACube ℝ).vertices :=
  have hs : (0 : ℝ) ≤ (⟨⟨2, 2, 2⟩, 2⟩ : AACube ℝ).scale := by norm_num
  ⟨hs, (c15_furthest_point sampleFrustum ⟨⟨2, 2, 2⟩, 2⟩ hs).1⟩

/-! ### C16: the planes built by calculate() face inward -/

/-- The triple product of three vectors moved by a matrix is the triple product
of the columns of the matrix times the triple product of the vectors. -/
theorem triple_combine (R U B a b c : Vec3 K) :
    Vec3.dot (Vec3.cross (Vec3.combine R U B a) (Vec3.combine R U B b)) (Vec3.combine R U B c)
      = Vec3.dot (Vec3.cross R U) B * Vec3.dot (Vec3.cross a b) c := by
  simp only [Vec3.dot, Vec3.cross, Vec3.combine, Vec3.add, Vec3.smul]
  ring

/-- The difference of two points of a frame is the matrix applied to the
difference of their coordinates. -/
theorem sub_combine (P R U B a b : Vec3 K) :
    Vec3.sub (Vec3.add P (Vec3.combine R U B a)) (Vec3.add P (Vec3.combine R U B b))
      = Vec3.combine R U B (Vec3.sub a b) := by
  simp only [Vec3.combine, Vec3.add, Vec3.smul, Vec3.sub, Vec3.mk.injEq]
  refine ⟨?_, ?_, ?_⟩ <;> ring

/-- A world corner computed by calculate() from a clip-frame corner with `w = 1`:
the position plus the corner coordinates along right, up and -direction. -/
theorem calculate_cornersWorld_affine (m : FloatOps K) (F : ViewFrustum K)
    (j : Fin NUM_FRUSTUM_CORNERS) (hw : (F.corners j).w = 1) :
    (calculate m F).cornersWorld j
      = Vec3.add F.position
          (Vec3.combine F.right F.up (Vec3.neg F.direction) (F.corners j).toVec3) := by
  rw [calculate_cornersWorld]
  simp only [Mat4.mul, Mat4.mulVec, Mat4.translate, Mat4.ofColumns3, Vec3.neg, Vec4.divScalar,
    Vec4.toVec3, Vec3.combine, Vec3.add, Vec3.smul, hw, Vec3.mk.injEq]
  refine ⟨?_, ?_, ?_⟩ <;> (simp; ring)

/-- The basis that setOrientation derives from a unit quaternion has triple
product 1: right, up and -direction form a right-handed frame. -/
theorem setOrientation_triple (F : ViewFrustum K) (q : Quat K) (hq : Quat.dot q q = 1) :
    Vec3.dot (Vec3.cross (setOrientation F q).right (setOrientation F q).up)
      (Vec3.neg (setOrientation F q).direction) = 1 := by
  simp only [Quat.dot] at hq
  simp only [setOrientation, Quat.mulVec4, Quat.rotate, IDENTITY_RIGHT, IDENTITY_UP,
    IDENTITY_FRONT, Vec4.toVec3, Vec3.dot, Vec3.cross, Vec3.neg, Vec3.add, Vec3.smul]
  linear_combination (4 * (q.x ^ 2 + q.y ^ 2 + q.z ^ 2)) * hq

/-- The signed distance to the plane that set3Points builds from three points:
the triple product with the two edges, divided by the length of their cross
product. -/
theorem set3Points_distance (p0 p1 p2 c : Vec3 ℝ) :
    (Plane.set3Points realOps p0 p1 p2).distance c
      = ((1 / Real.sqrt (Vec3.dot (Vec3.cross (Vec3.sub p1 p0) (Vec3.sub p2 p0))
            (Vec3.cross (Vec3.sub p1 p0) (Vec3.sub p2 p0)))
          * Vec3.dot (Vec3.cross (Vec3.sub p1 p0) (Vec3.sub p2 p0)) (Vec3.sub c p0) : ℝ)
        : WithBot ℝ) := by
  simp only [Plane.set3Points, Plane.distance, Vec3.normalize, realOps, Bool.false_eq_true,
    if_false, WithBot.coe_inj]
  generalize Vec3.cross (Vec3.sub p1 p0) (Vec3.sub p2 p0) = N
  simp only [Vec3.dot, Vec3.smul, Vec3.sub]
  ring

/-- The clip-frame corners that setProjection derives from a perspective matrix,
as points on the four corner rays, and their `w`. -/
theorem perspective_corner_form (m : FloatOps K) (F : ViewFrustum K) (t a n f : K)
    (ht : 0 < t) (ha : 0 < a) (hn : 0 < n) (hnf : n < f) (j : Fin NUM_FRUSTUM_CORNERS) :
    ((setProjection m F (perspective t a n f)).corners j).w = 1 ∧
    ∃ ζ X Y : K, (ζ = n ∨ ζ = f) ∧ (X = 1 ∨ X = -1) ∧ (Y = 1 ∨ Y = -1) ∧
      ((setProjection m F (perspective t a n f)).corners j).toVec3
        = perspectiveCorner t a ζ X Y := by
  have h11 : ((1 : K) = -1) = False := by norm_num
  rw [setProjection_perspective_corners m F t a n f ht ha hn hnf]
  fin_cases j
  · exact ⟨by simp [NDC_VALUES], n, -1, -1, Or.inl rfl, Or.inr rfl, Or.inr rfl,
      by simp [NDC_VALUES, Vec4.toVec3, perspectiveCorner]⟩
  · exact ⟨by simp [NDC_VALUES], n, 1, -1, Or.inl rfl, Or.inl rfl, Or.inr rfl,
      by simp [NDC_VALUES, Vec4.toVec3, perspectiveCorner]⟩
  · exact ⟨by simp [NDC_VALUES], n, 1, 1, Or.inl rfl, Or.inl rfl, Or.inl rfl,
      by simp [NDC_VALUES, Vec4.toVec3, perspectiveCorner]⟩
  · exact ⟨by simp [NDC_VALUES], n, -1, 1, Or.inl rfl, Or.inr rfl, Or.inl rfl,
      by simp [NDC_VALUES, Vec4.toVec3, perspectiveCorner]⟩
  · exact ⟨by simp [NDC_VALUES, h11], f, -1, -1, Or.inr rfl, Or.inr rfl, Or.inr rfl,
      by simp [NDC_VALUES, Vec4.toVec3, perspectiveCorner, h11]⟩
  · exact ⟨by simp [NDC_VALUES, h11], f, 1, -1, Or.inr rfl, Or.inl rfl, Or.inr rfl,
      by simp [NDC_VALUES, Vec4.toVec3, perspectiveCorner, h11]⟩
  · exact ⟨by simp [NDC_VALUES, h11], f, 1, 1, Or.inr rfl, Or.inl rfl, Or.inl rfl,
      by simp [NDC_VALUES, Vec4.toVec3, perspectiveCorner, h11]⟩
  · exact ⟨by simp [NDC_VALUES, h11], f, -1, 1, Or.inr rfl, Or.inr rfl, Or.inl rfl,
      by simp [NDC_VALUES, Vec4.toVec3, perspectiveCorner, h11]⟩

/-- The eight clip-frame corners of a perspective projection, by index. -/
theorem perspective_corner_table (m : FloatOps K) (F : ViewFrustum K) (t a n f : K)
    (ht : 0 < t) (ha : 0 < a) (hn : 0 < n) (hnf : n < f) :
    ((setProjection m F (perspective t a n f)).corners BOTTOM_LEFT_NEAR).toVec3
      = perspectiveCorner t a n (-1) (-1) ∧
    ((setProjection m F (perspective t a n f)).corners BOTTOM_RIGHT_NEAR).toVec3
      = perspectiveCorner t a n 1 (-1) ∧
    ((setProjection m F (perspective t a n f)).corners TOP_RIGHT_NEAR).toVec3
      = perspectiveCorner t a n 1 1 ∧
    ((setProjection m F (perspective t a n f)).corners TOP_LEFT_NEAR).toVec3
      = perspectiveCorner t a n (-1) 1 ∧
    ((setProjection m F (perspective t a n f)).corners BOTTOM_LEFT_FAR).toVec3
      = perspectiveCorner t a f (-1) (-1) ∧
    ((setProjection m F (perspective t a n f)).corners BOTTOM_RIGHT_FAR).toVec3
      = perspectiveCorner t a f 1 (-1) ∧
    ((setProjection m F (perspective t a n f)).corners TOP_RIGHT_FAR).toVec3
      = perspectiveCorner t a f 1 1 ∧
    ((setProjection m F (perspective t a n f)).corners TOP_LEFT_FAR).toVec3
      = perspectiveCorner t a f (-1) 1 := by
  have h11 : ((1 : K) = -1) = False := by norm_num
  simp only [setProjection_perspective_corners m F t a n f ht ha hn hnf, NDC_VALUES, if_true,
    h11, if_false, Vec4.toVec3, perspectiveCorner]
  simp

/-- The triple products that decide the side of a clip-frame point `e` with
respect to the six planes, each built from the three corners the code names. -/
theorem perspective_plane_triples (t a n f : K) (e : Vec3 K) :
    Vec3.dot (Vec3.cross
        (Vec3.sub (perspectiveCorner t a n (-1) 1) (perspectiveCorner t a n 1 1))
        (Vec3.sub (perspectiveCorner t a f (-1) 1) (perspectiveCorner t a n 1 1)))
        (Vec3.sub e (perspectiveCorner t a n 1 1))
      = 2 * a * t * n * (f - n) * (-e.y - t * e.z) ∧
    Vec3.dot (Vec3.cross
        (Vec3.sub (perspectiveCorner t a n 1 (-1)) (perspectiveCorner t a n (-1) (-1)))
        (Vec3.sub (perspectiveCorner t a f 1 (-1)) (perspectiveCorner t a n (-1) (-1))))
        (Vec3.sub e (perspectiveCorner t a n (-1) (-1)))
      = 2 * a * t * n * (f - n) * (e.y - t * e.z) ∧
    Vec3.dot (Vec3.cross
        (Vec3.sub (perspectiveCorner t a f (-1) (-1)) (perspectiveCorner t a n (-1) (-1)))
        (Vec3.sub (perspectiveCorner t a f (-1) 1) (perspectiveCorner t a n (-1) (-1))))
        (Vec3.sub e (perspectiveCorner t a n (-1) (-1)))
      = 2 * t * f * (f - n) * (e.x - a * t * e.z) ∧
    Vec3.dot (Vec3.cross
        (Vec3.sub (perspectiveCorner t a n 1 (-1)) (perspectiveCorner t a f 1 (-1)))
        (Vec3.sub (perspectiveCorner t a f 1 1) (perspectiveCorner t a f 1 (-1))))
        (Vec3.sub e (perspectiveCorner t a f 1 (-1)))
      = 2 * t * f * (f - n) * (-e.x - a * t * e.z) ∧
    Vec3.dot (Vec3.cross
        (Vec3.sub (perspectiveCorner t a n (-1) (-1)) (perspectiveCorner t a n 1 (-1)))
        (Vec3.sub (perspectiveCorner t a n (-1) 1) (perspectiveCorner t a n 1 (-1))))
        (Vec3.sub e (perspectiveCorner t a n 1 (-1)))
      = 4 * a * t * t * n * n * (-e.z - n) ∧
    Vec3.dot (Vec3.cross
        (Vec3.sub (perspectiveCorner t a f 1 (-1)) (perspectiveCorner t a f (-1) (-1)))
        (Vec3.sub (perspectiveCorner t a f 1 1) (perspectiveCorner t a f (-1) (-1))))
        (Vec3.sub e (perspectiveCorner t a f (-1) (-1)))
      = 4 * a * t * t * f * f * (e.z + f) := by
  simp only [Vec3.dot, Vec3.cross, Vec3.sub, perspectiveCorner]
  refine ⟨?_, ?_, ?_, ?_, ?_, ?_⟩ <;> ring

/-- A vector that has a non-zero dot product with some vector has a positive
squared length. -/
theorem dot_self_pos_of_dot_ne_zero (N x : Vec3 K) (h : Vec3.dot N x ≠ 0) :
    0 < Vec3.dot N N := by
  rcases (Vec3.dot_self_nonneg N).lt_or_eq with hpos | hzero
  · exact hpos
  · exfalso
    have hcs := Vec3.dot_sq_le N x
    rw [← hzero, zero_mul] at hcs
    have hsq := mul_self_nonneg (Vec3.dot N x)
    have h0 : Vec3.dot N x * Vec3.dot N x = 0 := le_antisymm hcs hsq
    exact h (mul_self_eq_zero.mp h0)

/-- The side of a point of a right-handed frame with respect to the plane that
set3Points builds from three points of the frame: when the triple product of the
coordinates is `κ * ℓ e` with `κ > 0` and `ℓ` is positive at some point, the sign
of the signed distance of a point is the sign of `ℓ` there. -/
theorem frame_plane_side (P R U B e0 e1 e2 : Vec3 ℝ) (κ : ℝ) (ℓ : Vec3 ℝ → ℝ)
    (hdet : 0 < Vec3.dot (Vec3.cross R U) B) (hκ : 0 < κ)
    (hT : ∀ e, Vec3.dot (Vec3.cross (Vec3.sub e1 e0) (Vec3.sub e2 e0)) (Vec3.sub e e0)
      = κ * ℓ e)
    (ec : Vec3 ℝ) (hc : 0 < ℓ ec) (e : Vec3 ℝ) :
    (0 ≤ ℓ e → ((0 : ℝ) : WithBot ℝ) ≤
      (Plane.set3Points realOps (Vec3.add P (Vec3.combine R U B e0))
        (Vec3.add P (Vec3.combine R U B e1)) (Vec3.add P (Vec3.combine R U B e2))).distance
        (Vec3.add P (Vec3.combine R U B e))) ∧
    (0 < ℓ e → ((0 : ℝ) : WithBot ℝ) <
      (Plane.set3Points realOps (Vec3.add P (Vec3.combine R U B e0))
        (Vec3.add P (Vec3.combine R U B e1)) (Vec3.add P (Vec3.combine R U B e2))).distance
        (Vec3.add P (Vec3.combine R U B e))) := by
  have hside : ∀ x, Vec3.dot (Vec3.cross (Vec3.combine R U B (Vec3.sub e1 e0))
      (Vec3.combine R U B (Vec3.sub e2 e0))) (Vec3.combine R U B (Vec3.sub x e0))
      = Vec3.dot (Vec3.cross R U) B * (κ * ℓ x) := by
    intro x
    rw [triple_combine, hT]
  have hNN : 0 < Vec3.dot (Vec3.cross (Vec3.combine R U B (Vec3.sub e1 e0))
      (Vec3.combine R U B (Vec3.sub e2 e0))) (Vec3.cross (Vec3.combine R U B (Vec3.sub e1 e0))
      (Vec3.combine R U B (Vec3.sub e2 e0))) := by
    apply dot_self_pos_of_dot_ne_zero _ (Vec3.combine R U B (Vec3.sub ec e0))
    rw [hside]
    positivity
  have hk : 0 < 1 / Real.sqrt (Vec3.dot (Vec3.cross (Vec3.combine R U B (Vec3.sub e1 e0))
      (Vec3.combine R U B (Vec3.sub e2 e0))) (Vec3.cross (Vec3.combine R U B (Vec3.sub e1 e0))
      (Vec3.combine R U B (Vec3.sub e2 e0)))) :=
    one_div_pos.mpr (Real.sqrt_pos.mpr hNN)
  rw [set3Points_distance, sub_combine, sub_combine, sub_combine, hside, WithBot.coe_le_coe,
    WithBot.coe_lt_coe]
  constructor
  · intro h
    positivity
  · intro h
    positivity

/-- Every corner of a perspective projection is on the inner side of the six
planes, in clip-frame coordinates. -/
theorem perspective_corner_sides (t a n f ζ X Y : K) (ht : 0 < t) (ha : 0 < a) (hn : 0 < n)
    (hnf : n < f) (hζ : ζ = n ∨ ζ = f) (hX : X = 1 ∨ X = -1) (hY : Y = 1 ∨ Y = -1) :
    0 ≤ -(perspectiveCorner t a ζ X Y).y - t * (perspectiveCorner t a ζ X Y).z ∧
    0 ≤ (perspectiveCorner t a ζ X Y).y - t * (perspectiveCorner t a ζ X Y).z ∧
    0 ≤ (perspectiveCorner t a ζ X Y).x - a * t * (perspectiveCorner t a ζ X Y).z ∧
    0 ≤ -(perspectiveCorner t a ζ X Y).x - a * t * (perspectiveCorner t a ζ X Y).z ∧
    0 ≤ -(perspectiveCorner t a ζ X Y).z - n ∧
    0 ≤ (perspectiveCorner t a ζ X Y).z + f := by
  have hf : 0 < f := lt_trans hn hnf
  have hζ0 : 0 < ζ := by rcases hζ with rfl | rfl <;> assumption
  have htζ : 0 < t * ζ := mul_pos ht hζ0
  have hatζ : 0 < a * t * ζ := by positivity
  simp only [perspectiveCorner]
  refine ⟨?_, ?_, ?_, ?_, ?_, ?_⟩
  · rcases hY with rfl | rfl <;> nlinarith
  · rcases hY with rfl | rfl <;> nlinarith
  · rcases hX with rfl | rfl <;> nlinarith
  · rcases hX with rfl | rfl <;> nlinarith
  · rcases hζ with rfl | rfl <;> linarith
  · rcases hζ with rfl | rfl <;> linarith

/-- The eight world corners of a frustum built from a perspective projection,
as points of the frame (position; right, up, -direction). -/
theorem perspective_cornersWorld (m : FloatOps K) (G : ViewFrustum K) (t a n f : K)
    (ht : 0 < t) (ha : 0 < a) (hn : 0 < n) (hnf : n < f) :
    (∀ j ζ X Y, ((setProjection m G (perspective t a n f)).corners j).toVec3
        = perspectiveCorner t a ζ X Y →
      (calculate m (setProjection m G (perspective t a n f))).cornersWorld j
        = Vec3.add G.position (Vec3.combine G.right G.up (Vec3.neg G.direction)
            (perspectiveCorner t a ζ X Y))) := by
  intro j ζ X Y hE
  rw [calculate_cornersWorld_affine m _ j
    (perspective_corner_form m G t a n f ht ha hn hnf j).1, hE]
  rfl

/-- The centroid of the world corners of a frustum built from a perspective
projection: the point of the frame half way between the clip distances on the
view axis. -/
theorem perspective_centroid (m : FloatOps K) (G : ViewFrustum K) (t a n f : K)
    (ht : 0 < t) (ha : 0 < a) (hn : 0 < n) (hnf : n < f) :
    cornersCentroid (calculate m (setProjection m G (perspective t a n f)))
      = Vec3.add G.position (Vec3.combine G.right G.up (Vec3.neg G.direction)
          ⟨0, 0, -((n + f) / 2)⟩) := by
  obtain ⟨h0, h1, h2, h3, h4, h5, h6, h7⟩ := perspective_corner_table m G t a n f ht ha hn hnf
  have hw := perspective_cornersWorld m G t a n f ht ha hn hnf
  unfold cornersCentroid
  rw [hw 0 _ _ _ h0, hw 1 _ _ _ h1, hw 2 _ _ _ h2, hw 3 _ _ _ h3, hw 4 _ _ _ h4,
    hw 5 _ _ _ h5, hw 6 _ _ _ h6, hw 7 _ _ _ h7]
  simp only [perspectiveCorner, Vec3.combine, Vec3.add, Vec3.smul, Vec3.neg, Vec3.mk.injEq]
  refine ⟨?_, ?_, ?_⟩ <;> ring

/-- For a frustum built from a perspective projection on a right-handed frame,
every world corner has non-negative signed distance to each of the six planes,
and the centroid of the corners has positive distance to each. -/
theorem perspective_planes_inward (G : ViewFrustum ℝ) (t a n f : ℝ)
    (ht : 0 < t) (ha : 0 < a) (hn : 0 < n) (hnf : n < f)
    (hdet : 0 < Vec3.dot (Vec3.cross G.right G.up) (Vec3.neg G.direction))
    (i : Fin NUM_FRUSTUM_PLANES) :
    (∀ j, ((0 : ℝ) : WithBot ℝ) ≤
      ((calculate realOps (setProjection realOps G (perspective t a n f))).planes i).distance
        ((calculate realOps (setProjection realOps G (perspective t a n f))).cornersWorld j)) ∧
    ((0 : ℝ) : WithBot ℝ) <
      ((calculate realOps (setProjection realOps G (perspective t a n f))).planes i).distance
        (cornersCentroid (calculate realOps (setProjection realOps G (perspective t a n f)))) := by
  have hf : 0 < f := lt_trans hn hnf
  have hfn : 0 < f - n := sub_pos.mpr hnf
  obtain ⟨c0, c1, c2, c3, c4, c5, c6, c7⟩ :=
    perspective_corner_table realOps G t a n f ht ha hn hnf
  have hw := perspective_cornersWorld realOps G t a n f ht ha hn hnf
  obtain ⟨p0, p1, p2, p3, p4, p5⟩ :=
    calculate_planes realOps (setProjection realOps G (perspective t a n f))
  have hcen := perspective_centroid realOps G t a n f ht ha hn hnf
  have hcorner : ∀ j, ∃ ζ X Y : ℝ, (ζ = n ∨ ζ = f) ∧ (X = 1 ∨ X = -1) ∧ (Y = 1 ∨ Y = -1) ∧
      (calculate realOps (setProjection realOps G (perspective t a n f))).cornersWorld j
        = Vec3.add G.position (Vec3.combine G.right G.up (Vec3.neg G.direction)
            (perspectiveCorner t a ζ X Y)) := by
    intro j
    obtain ⟨_, ζ, X, Y, hζ, hX, hY, hE⟩ := perspective_corner_form realOps G t a n f ht ha hn hnf j
    exact ⟨ζ, X, Y, hζ, hX, hY, hw j ζ X Y hE⟩
  have hnf2 : 0 < (n + f) / 2 := by positivity
  fin_cases i
  · show (∀ j, _ ≤ ((calculate realOps _).planes TOP_PLANE).distance _) ∧
      _ < ((calculate realOps _).planes TOP_PLANE).distance _
    rw [p0, hw _ _ _ _ c2, hw _ _ _ _ c3, hw _ _ _ _ c7, hcen]
    have key := frame_plane_side G.position G.right G.up (Vec3.neg G.direction)
      (perspectiveCorner t a n 1 1) (perspectiveCorner t a n (-1) 1)
      (perspectiveCorner t a f (-1) 1) (2 * a * t * n * (f - n)) (fun e => -e.y - t * e.z)
      hdet (by positivity) (fun e => (perspective_plane_triples t a n f e).1)
      ⟨0, 0, -((n + f) / 2)⟩ (by simp only []; nlinarith)
    refine ⟨fun j => ?_, (key _).2 (by simp only []; nlinarith)⟩
    obtain ⟨ζ, X, Y, hζ, hX, hY, hj⟩ := hcorner j
    rw [hj]
    exact (key _).1 (perspective_corner_sides t a n f ζ X Y ht ha hn hnf hζ hX hY).1
  · show (∀ j, _ ≤ ((calculate realOps _).planes BOTTOM_PLANE).distance _) ∧
      _ < ((calculate realOps _).planes BOTTOM_PLANE).distance _
    rw [p1, hw _ _ _ _ c0, hw _ _ _ _ c1, hw _ _ _ _ c5, hcen]
    have key := frame_plane_side G.position G.right G.up (Vec3.neg G.direction)
      (perspectiveCorner t a n (-1) (-1)) (perspectiveCorner t a n 1 (-1))
      (perspectiveCorner t a f 1 (-1)) (2 * a * t * n * (f - n)) (fun e => e.y - t * e.z)
      hdet (by positivity) (fun e => (perspective_plane_triples t a n f e).2.1)
      ⟨0, 0, -((n + f) / 2)⟩ (by simp only []; nlinarith)
    refine ⟨fun j => ?_, (key _).2 (by simp only []; nlinarith)⟩
    obtain ⟨ζ, X, Y, hζ, hX, hY, hj⟩ := hcorner j
    rw [hj]
    exact (key _).1 (perspective_corner_sides t a n f ζ X Y ht ha hn hnf hζ hX hY).2.1
  · show (∀ j, _ ≤ ((calculate realOps _).planes LEFT_PLANE).distance _) ∧
      _ < ((calculate realOps _).planes LEFT_PLANE).distance _
    rw [p2, hw _ _ _ _ c0, hw _ _ _ _ c4, hw _ _ _ _ c7, hcen]
    have key := frame_plane_side G.position G.right G.up (Vec3.neg G.direction)
      (perspectiveCorner t a n (-1) (-1)) (perspectiveCorner t a f (-1) (-1))
      (perspectiveCorner t a f (-1) 1) (2 * t * f * (f - n)) (fun e => e.x - a * t * e.z)
      hdet (by positivity) (fun e => (perspective_plane_triples t a n f e).2.2.1)
      ⟨0, 0, -((n + f) / 2)⟩ (by simp only []; nlinarith [mul_pos ha ht])
    refine ⟨fun j => ?_, (key _).2 (by simp only []; nlinarith [mul_pos ha ht])⟩
    obtain ⟨ζ, X, Y, hζ, hX, hY, hj⟩ := hcorner j
    rw [hj]
    exact (key _).1 (perspective_corner_sides t a n f ζ X Y ht ha hn hnf hζ hX hY).2.2.1
  · show (∀ j, _ ≤ ((calculate realOps _).planes RIGHT_PLANE).distance _) ∧
      _ < ((calculate realOps _).planes RIGHT_PLANE).distance _
    rw [p3, hw _ _ _ _ c5, hw _ _ _ _ c1, hw _ _ _ _ c6, hcen]
    have key := frame_plane_side G.position G.right G.up (Vec3.neg G.direction)
      (perspectiveCorner t a f 1 (-1)) (perspectiveCorner t a n 1 (-1))
      (perspectiveCorner t a f 1 1) (2 * t * f * (f - n)) (fun e => -e.x - a * t * e.z)
      hdet (by positivity) (fun e => (perspective_plane_triples t a n f e).2.2.2.1)
      ⟨0, 0, -((n + f) / 2)⟩ (by simp only []; nlinarith [mul_pos ha ht])
    refine ⟨fun j => ?_, (key _).2 (by simp only []; nlinarith [mul_pos ha ht])⟩
    obtain ⟨ζ, X, Y, hζ, hX, hY, hj⟩ := hcorner j
    rw [hj]
    exact (key _).1 (perspective_corner_sides t a n f ζ X Y ht ha hn hnf hζ hX hY).2.2.2.1
  · show (∀ j, _ ≤ ((calculate realOps _).planes NEAR_PLANE).distance _) ∧
      _ < ((calculate realOps _).planes NEAR_PLANE).distance _
    rw [p4, hw _ _ _ _ c1, hw _ _ _ _ c0, hw _ _ _ _ c3, hcen]
    have key := frame_plane_side G.position G.right G.up (Vec3.neg G.direction)
      (perspectiveCorner t a n 1 (-1)) (perspectiveCorner t a n (-1) (-1))
      (perspectiveCorner t a n (-1) 1) (4 * a * t * t * n * n) (fun e => -e.z - n)
      hdet (by positivity) (fun e => (perspective_plane_triples t a n f e).2.2.2.2.1)
      ⟨0, 0, -((n + f) / 2)⟩ (by simp only []; linarith)
    refine ⟨fun j => ?_, (key _).2 (by simp only []; linarith)⟩
    obtain ⟨ζ, X, Y, hζ, hX, hY, hj⟩ := hcorner j
    rw [hj]
    exact (key _).1 (perspective_corner_sides t a n f ζ X Y ht ha hn hnf hζ hX hY).2.2.2.2.1
  · show (∀ j, _ ≤ ((calculate realOps _).planes FAR_PLANE).distance _) ∧
      _ < ((calculate realOps _).planes FAR_PLANE).distance _
    rw [p5, hw _ _ _ _ c4, hw _ _ _ _ c5, hw _ _ _ _ c6, hcen]
    have key := frame_plane_side G.position G.right G.up (Vec3.neg G.direction)
      (perspectiveCorner t a f (-1) (-1)) (perspectiveCorner t a f 1 (-1))
      (perspectiveCorner t a f 1 1) (4 * a * t * t * f * f) (fun e => e.z + f)
      hdet (by positivity) (fun e => (perspective_plane_triples t a n f e).2.2.2.2.2)
      ⟨0, 0, -((n + f) / 2)⟩ (by simp only []; linarith)
    refine ⟨fun j => ?_, (key _).2 (by simp only []; linarith)⟩
    obtain ⟨ζ, X, Y, hζ, hX, hY, hj⟩ := hcorner j
    rw [hj]
    exact (key _).1 (perspective_corner_sides t a n f ζ X Y ht ha hn hnf hζ hX hY).2.2.2.2.2

/-- Claim C16: after calculate() on a frustum configured with any position, any
unit-quaternion orientation and a perspective projection (tangent of the half
field of view t > 0, aspect a > 0, 0 < n < f), every plane faces the interior:
each of the 8 world corners has signed distance >= 0 to each of the 6 planes, so
pointIntersectsFrustum holds for every corner, and the centroid of the corners
has strictly positive distance to every plane. -/
theorem c16_planes_face_inward (F : ViewFrustum ℝ) (p : Vec3 ℝ) (q : Quat ℝ) (t a n f : ℝ)
    (hq : Quat.dot q q = 1) (ht : 0 < t) (ha : 0 < a) (hn : 0 < n) (hnf : n < f) :
    (∀ i j, ((0 : ℝ) : WithBot ℝ) ≤
      ((configure realOps F p q (perspective t a n f)).planes i).distance
        ((configure realOps F p q (perspective t a n f)).cornersWorld j)) ∧
    (∀ j, pointIntersectsFrustum (configure realOps F p q (perspective t a n f))
      ((configure realOps F p q (perspective t a n f)).cornersWorld j) = true) ∧
    (∀ i, ((0 : ℝ) : WithBot ℝ) <
      ((configure realOps F p q (perspective t a n f)).planes i).distance
        (cornersCentroid (configure realOps F p q (perspective t a n f)))) := by
  have hdet : 0 < Vec3.dot (Vec3.cross (setOrientation (setPosition F p) q).right
      (setOrientation (setPosition F p) q).up)
      (Vec3.neg (setOrientation (setPosition F p) q).direction) := by
    rw [setOrientation_triple (setPosition F p) q hq]
    exact one_pos
  have hmain := perspective_planes_inward (setOrientation (setPosition F p) q) t a n f
    ht ha hn hnf hdet
  refine ⟨fun i j => (hmain i).1 j, fun j => ?_, fun i => (hmain i).2⟩
  unfold pointIntersectsFrustum
  rw [pointFrustumLoop_eq_true]
  intro i _
  exact not_lt.mpr ((hmain i).1 j)

/-- Witness of claim C16: the camera at the origin with the identity
orientation and the perspective matrix of tangent 1, aspect 1, near 1/10 and
far 100. -/
theorem c16_planes_face_inward_witness :
    (Quat.dot (⟨0, 0, 0, 1⟩ : Quat ℝ) ⟨0, 0, 0, 1⟩ = 1 ∧ (0 : ℝ) < 1 ∧ (0 : ℝ) < 1 / 10 ∧
      (1 / 10 : ℝ) < 100) ∧
    ∀ j, pointIntersectsFrustum
      (configure realOps (sampleFrustum : ViewFrustum ℝ) ⟨0, 0, 0⟩ ⟨0, 0, 0, 1⟩
        (perspective 1 1 (1 / 10) 100))
      ((configure realOps (sampleFrustum : ViewFrustum ℝ) ⟨0, 0, 0⟩ ⟨0, 0, 0, 1⟩
        (perspective 1 1 (1 / 10) 100)).cornersWorld j) = true :=
  have hq : Quat.dot (⟨0, 0, 0, 1⟩ : Quat ℝ) ⟨0, 0, 0, 1⟩ = 1 := by norm_num [Quat.dot]
  ⟨⟨hq, by norm_num, by norm_num, by norm_num⟩,
    (c16_planes_face_inward sampleFrustum ⟨0, 0, 0⟩ ⟨0, 0, 0, 1⟩ 1 1 (1 / 10) 100 hq
      (by norm_num) (by norm_num) (by norm_num) (by norm_num)).2.1⟩

/-! ### C17: the depth-plane corners -/

/-- The point of getCorners on one column is at the requested depth along the
normalized view direction, when the corner edge is not perpendicular to it. -/
theorem getCorner_depth (m : FloatOps K) (F : ViewFrustum K) (depth : K)
    (nearCorner farCorner : Fin NUM_FRUSTUM_CORNERS)
    (h : Vec3.dot (Vec3.normalize m (Vec3.sub (F.cornersWorld nearCorner)
      (F.cornersWorld farCorner))) (Vec3.normalize m F.direction) ≠ 0) :
    Vec3.dot (Vec3.sub (getCorner m F depth nearCorner farCorner) F.position)
      (Vec3.normalize m F.direction) = depth := by
  have hlin : Vec3.dot (Vec3.sub (getCorner m F depth nearCorner farCorner) F.position)
      (Vec3.normalize m F.direction)
      = depth / Vec3.dot (Vec3.normalize m (Vec3.sub (F.cornersWorld nearCorner)
          (F.cornersWorld farCorner))) (Vec3.normalize m F.direction)
        * Vec3.dot (Vec3.normalize m (Vec3.sub (F.cornersWorld nearCorner)
          (F.cornersWorld farCorner))) (Vec3.normalize m F.direction) := by
    simp only [getCorner, Vec3.dot, Vec3.sub, Vec3.add, Vec3.smul]
    ring
  rw [hlin, div_mul_cancel₀ _ h]

/-- The point of getCorners on one column lies on the corner line whenever the
camera position lies on that line. -/
theorem getCorner_on_line (m : FloatOps K) (F : ViewFrustum K) (depth : K)
    (nearCorner farCorner : Fin NUM_FRUSTUM_CORNERS)
    (h : ∃ s : K, F.position = Vec3.add (F.cornersWorld nearCorner)
      (Vec3.smul s (Vec3.sub (F.cornersWorld farCorner) (F.cornersWorld nearCorner)))) :
    ∃ s : K, getCorner m F depth nearCorner farCorner
      = Vec3.add (F.cornersWorld nearCorner)
        (Vec3.smul s (Vec3.sub (F.cornersWorld farCorner) (F.cornersWorld nearCorner))) := by
  obtain ⟨s, hs⟩ := h
  refine ⟨s - depth / Vec3.dot (Vec3.normalize m (Vec3.sub (F.cornersWorld nearCorner)
      (F.cornersWorld farCorner))) (Vec3.normalize m F.direction)
    * (1 / m.sqrt (Vec3.dot (Vec3.sub (F.cornersWorld nearCorner) (F.cornersWorld farCorner))
      (Vec3.sub (F.cornersWorld nearCorner) (F.cornersWorld farCorner)))), ?_⟩
  have hx := congrArg Vec3.x hs
  have hy := congrArg Vec3.y hs
  have hz := congrArg Vec3.z hs
  simp only [Vec3.add, Vec3.smul, Vec3.sub] at hx hy hz
  simp only [getCorner, Vec3.normalize, Vec3.add, Vec3.smul, Vec3.sub, Vec3.mk.injEq]
  refine ⟨?_, ?_, ?_⟩
  · rw [hx]; ring
  · rw [hy]; ring
  · rw [hz]; ring

/-- For a frustum built by setProjection from a perspective matrix and then
calculate(), the camera position lies on each of the four lines through a near
world corner and the far world corner of the same column. -/
theorem perspective_position_on_corner_lines (m : FloatOps K) (F : ViewFrustum K)
    (t a n f : K) (ht : 0 < t) (ha : 0 < a) (hn : 0 < n) (hnf : n < f)
    (c : Fin NUM_FRUSTUM_CORNERS × Fin NUM_FRUSTUM_CORNERS)
    (hc : c = (TOP_LEFT_NEAR, TOP_LEFT_FAR) ∨ c = (TOP_RIGHT_NEAR, TOP_RIGHT_FAR) ∨
      c = (BOTTOM_LEFT_NEAR, BOTTOM_LEFT_FAR) ∨ c = (BOTTOM_RIGHT_NEAR, BOTTOM_RIGHT_FAR)) :
    ∃ s : K, (calculate m (setProjection m F (perspective t a n f))).position
      = Vec3.add ((calculate m (setProjection m F (perspective t a n f))).cornersWorld c.1)
        (Vec3.smul s (Vec3.sub
          ((calculate m (setProjection m F (perspective t a n f))).cornersWorld c.2)
          ((calculate m (setProjection m F (perspective t a n f))).cornersWorld c.1))) := by
  have hp : (setProjection m F (perspective t a n f)).position = F.position := rfl
  have hr : (setProjection m F (perspective t a n f)).right = F.right := rfl
  have hu : (setProjection m F (perspective t a n f)).up = F.up := rfl
  have hd : (setProjection m F (perspective t a n f)).direction = F.direction := rfl
  have hcp : (calculate m (setProjection m F (perspective t a n f))).position = F.position := rfl
  have hfn : f - n ≠ 0 := ne_of_gt (sub_pos.mpr hnf)
  have h11 : ((1 : K) = -1) = False := by norm_num
  refine ⟨-n / (f - n), ?_⟩
  rcases hc with rfl | rfl | rfl | rfl <;>
  · simp only [hcp, calculate_cornersWorld, hp, hr, hu, hd,
      setProjection_perspective_corners m F t a n f ht ha hn hnf]
    simp only [NDC_VALUES, if_true, h11, if_false, Mat4.mul, Mat4.mulVec, Mat4.translate,
      Mat4.ofColumns3, Vec3.neg, Vec4.divScalar, Vec4.toVec3, Vec3.add, Vec3.sub, Vec3.smul]
    cases hP : F.position
    simp only [Vec3.mk.injEq]
    refine ⟨?_, ?_, ?_⟩ <;> (field_simp; ring)

/-- Claim C17, amended: each of the 4 points returned by getCorners(depth) is
the point of its column; for every column, when the corner edge is not
perpendicular to the view direction the point satisfies dot(point - position,
normalize(direction)) = depth, and the point lies on the line through the near
and far world corners of the column whenever the camera position lies on that
line, as it does for a frustum built by setProjection from a perspective matrix
followed by calculate(). -/
theorem c17_getCorners_depth_plane (m : FloatOps K) (F : ViewFrustum K) (depth : K) :
    ((getCorners m F depth).topLeft = getCorner m F depth TOP_LEFT_NEAR TOP_LEFT_FAR ∧
      (getCorners m F depth).topRight = getCorner m F depth TOP_RIGHT_NEAR TOP_RIGHT_FAR ∧
      (getCorners m F depth).bottomLeft
        = getCorner m F depth BOTTOM_LEFT_NEAR BOTTOM_LEFT_FAR ∧
      (getCorners m F depth).bottomRight
        = getCorner m F depth BOTTOM_RIGHT_NEAR BOTTOM_RIGHT_FAR) ∧
    (∀ nearCorner farCorner : Fin NUM_FRUSTUM_CORNERS,
      Vec3.dot (Vec3.normalize m (Vec3.sub (F.cornersWorld nearCorner)
        (F.cornersWorld farCorner))) (Vec3.normalize m F.direction) ≠ 0 →
      Vec3.dot (Vec3.sub (getCorner m F depth nearCorner farCorner) F.position)
        (Vec3.normalize m F.direction) = depth) ∧
    (∀ nearCorner farCorner : Fin NUM_FRUSTUM_CORNERS,
      (∃ s : K, F.position = Vec3.add (F.cornersWorld nearCorner)
        (Vec3.smul s (Vec3.sub (F.cornersWorld farCorner) (F.cornersWorld nearCorner)))) →
      ∃ s : K, getCorner m F depth nearCorner farCorner
        = Vec3.add (F.cornersWorld nearCorner)
          (Vec3.smul s (Vec3.sub (F.cornersWorld farCorner) (F.cornersWorld nearCorner)))) ∧
    (∀ (t a n f : K) (c : Fin NUM_FRUSTUM_CORNERS × Fin NUM_FRUSTUM_CORNERS),
      0 < t → 0 < a → 0 < n → n < f →
      (c = (TOP_LEFT_NEAR, TOP_LEFT_FAR) ∨ c = (TOP_RIGHT_NEAR, TOP_RIGHT_FAR) ∨
        c = (BOTTOM_LEFT_NEAR, BOTTOM_LEFT_FAR) ∨ c = (BOTTOM_RIGHT_NEAR, BOTTOM_RIGHT_FAR)) →
      ∃ s : K, getCorner m (calculate m (setProjection m F (perspective t a n f))) depth c.1 c.2
        = Vec3.add ((calculate m (setProjection m F (perspective t a n f))).cornersWorld c.1)
          (Vec3.smul s (Vec3.sub
            ((calculate m (setProjection m F (perspective t a n f))).cornersWorld c.2)
            ((calculate m (setProjection m F (perspective t a n f))).cornersWorld c.1)))) := by
  refine ⟨⟨rfl, rfl, rfl, rfl⟩, ?_, ?_, ?_⟩
  · intro nearCorner farCorner h
    exact getCorner_depth m F depth nearCorner farCorner h
  · intro nearCorner farCorner h
    exact getCorner_on_line m F depth nearCorner farCorner h
  · intro t a n f c ht ha hn hnf hc
    exact getCorner_on_line m _ depth c.1 c.2
      (perspective_position_on_corner_lines m F t a n f ht ha hn hnf c hc)

/-- The square root of 4 is 2. -/
theorem sqrt_four : Real.sqrt 4 = 2 := by
  rw [show (4 : ℝ) = 2 ^ 2 by norm_num, Real.sqrt_sq (by norm_num)]

/-- On the sample frustum the top-left corner edge, normalized, has dot product
-1 with the normalized view direction. -/
theorem sample_corner_edge_dot :
    Vec3.dot (Vec3.normalize realOps (Vec3.sub
        ((sampleFrustum : ViewFrustum ℝ).cornersWorld TOP_LEFT_NEAR)
        ((sampleFrustum : ViewFrustum ℝ).cornersWorld TOP_LEFT_FAR)))
      (Vec3.normalize realOps (sampleFrustum : ViewFrustum ℝ).direction) = -1 := by
  simp only [sampleFrustum, Vec3.normalize, Vec3.sub, Vec3.dot, Vec3.smul, realOps]
  norm_num [sqrt_four]

/-- The top-left point that getCorners(2) returns on the sample frustum. -/
theorem sample_getCorners_topLeft :
    (getCorners realOps (sampleFrustum : ViewFrustum ℝ) 2).topLeft = ⟨0, 0, -2⟩ := by
  have h := sample_corner_edge_dot
  simp only [getCorners, getCorner, h]
  simp only [sampleFrustum, Vec3.normalize, Vec3.sub, Vec3.dot, Vec3.smul, Vec3.add, realOps]
  norm_num [sqrt_four]

/-- Claim C17, as stated, fails: on the sample frustum (an orthographic box,
built by setProjection and calculate()) the top-left corner edge is not
perpendicular to the view direction, getCorners(2) returns the top-left point
(0, 0, -2), and that point is not on the line through the TOP_LEFT_NEAR and
TOP_LEFT_FAR world corners. -/
theorem c17_getCorners_depth_plane_counterexample :
    Vec3.dot (Vec3.normalize realOps (Vec3.sub
        ((sampleFrustum : ViewFrustum ℝ).cornersWorld TOP_LEFT_NEAR)
        ((sampleFrustum : ViewFrustum ℝ).cornersWorld TOP_LEFT_FAR)))
      (Vec3.normalize realOps (sampleFrustum : ViewFrustum ℝ).direction) ≠ 0 ∧
    (getCorners realOps (sampleFrustum : ViewFrustum ℝ) 2).topLeft = ⟨0, 0, -2⟩ ∧
    ¬ ∃ s : ℝ, (getCorners realOps (sampleFrustum : ViewFrustum ℝ) 2).topLeft
      = Vec3.add ((sampleFrustum : ViewFrustum ℝ).cornersWorld TOP_LEFT_NEAR)
        (Vec3.smul s (Vec3.sub ((sampleFrustum : ViewFrustum ℝ).cornersWorld TOP_LEFT_FAR)
          ((sampleFrustum : ViewFrustum ℝ).cornersWorld TOP_LEFT_NEAR))) := by
  refine ⟨?_, sample_getCorners_topLeft, ?_⟩
  · rw [sample_corner_edge_dot]
    norm_num
  · rw [sample_getCorners_topLeft]
    rintro ⟨s, hs⟩
    have hx := congrArg Vec3.x hs
    simp only [sampleFrustum, Vec3.add, Vec3.smul, Vec3.sub] at hx
    norm_num at hx

/-- Witness of claim C17 (amended): the depth of the top-left point on the
sample frustum, and the bottom-right column of a perspective frustum. -/
theorem c17_getCorners_depth_plane_witness :
    (Vec3.dot (Vec3.normalize realOps (Vec3.sub
          ((sampleFrustum : ViewFrustum ℝ).cornersWorld TOP_LEFT_NEAR)
          ((sampleFrustum : ViewFrustum ℝ).cornersWorld TOP_LEFT_FAR)))
        (Vec3.normalize realOps (sampleFrustum : ViewFrustum ℝ).direction) ≠ 0 ∧
      Vec3.dot (Vec3.sub (getCorner realOps (sampleFrustum : ViewFrustum ℝ) 2
          TOP_LEFT_NEAR TOP_LEFT_FAR) (sampleFrustum : ViewFrustum ℝ).position)
        (Vec3.normalize realOps (sampleFrustum : ViewFrustum ℝ).direction) = 2) ∧
    (((0 : ℝ) < 1 ∧ (0 : ℝ) < 1 / 10 ∧ (1 / 10 : ℝ) < 100) ∧
      ∃ s : ℝ, getCorner realOps (calculate realOps (setProjection realOps
          (sampleFrustum : ViewFrustum ℝ) (perspective 1 1 (1 / 10) 100))) 2
          BOTTOM_RIGHT_NEAR BOTTOM_RIGHT_FAR
        = Vec3.add ((calculate realOps (setProjection realOps (sampleFrustum : ViewFrustum ℝ)
            (perspective 1 1 (1 / 10) 100))).cornersWorld BOTTOM_RIGHT_NEAR)
          (Vec3.smul s (Vec3.sub
            ((calculate realOps (setProjection realOps (sampleFrustum : ViewFrustum ℝ)
              (perspective 1 1 (1 / 10) 100))).cornersWorld BOTTOM_RIGHT_FAR)
            ((calculate realOps (setProjection realOps (sampleFrustum : ViewFrustum ℝ)
              (perspective 1 1 (1 / 10) 100))).cornersWorld BOTTOM_RIGHT_NEAR)))) :=
  have h : Vec3.dot (Vec3.normalize realOps (Vec3.sub
        ((sampleFrustum : ViewFrustum ℝ).cornersWorld TOP_LEFT_NEAR)
        ((sampleFrustum : ViewFrustum ℝ).cornersWorld TOP_LEFT_FAR)))
      (Vec3.normalize realOps (sampleFrustum : ViewFrustum ℝ).direction) ≠ 0 := by
    rw [sample_corner_edge_dot]
    norm_num
  ⟨⟨h, (c17_getCorners_depth_plane realOps sampleFrustum 2).2.1 _ _ h⟩,
    ⟨⟨by norm_num, by norm_num, by norm_num⟩,
      (c17_getCorners_depth_plane realOps sampleFrustum 2).2.2.2 1 1 (1 / 10) 100
        (BOTTOM_RIGHT_NEAR, BOTTOM_RIGHT_FAR) (by norm_num) (by norm_num) (by norm_num)
        (by norm_num) (Or.inr (Or.inr (Or.inr rfl)))⟩⟩

/-! ### C18: cube culling has no false rejections -/

/-- Along any normal, the farthest vertex of a cube is at least as far as every
point within the extent of the cube. -/
theorem farthest_dot_ge (cube : AACube K) (normal p : Vec3 K)
    (hx : cube.corner.x ≤ p.x ∧ p.x ≤ cube.corner.x + cube.scale)
    (hy : cube.corner.y ≤ p.y ∧ p.y ≤ cube.corner.y + cube.scale)
    (hz : cube.corner.z ≤ p.z ∧ p.z ≤ cube.corner.z + cube.scale) :
    Vec3.dot normal p ≤ Vec3.dot normal (cube.getFarthestVertex normal) := by
  have axis : ∀ n c q : K, c ≤ q ∧ q ≤ c + cube.scale →
      n * q ≤ n * (if 0 < n then c + cube.scale else c) := by
    intro n c q hq
    by_cases hn : 0 < n
    · rw [if_pos hn]
      exact mul_le_mul_of_nonneg_left hq.2 hn.le
    · rw [if_neg hn]
      exact mul_le_mul_of_nonpos_left hq.1 (not_lt.mp hn)
  simp only [Vec3.dot, AACube.getFarthestVertex]
  have h1 := axis normal.x cube.corner.x p.x hx
  have h2 := axis normal.y cube.corner.y p.y hy
  have h3 := axis normal.z cube.corner.z p.z hz
  linarith

/-- Claim C18: cube culling has no false rejections. If some point within the
axis-aligned extent of a cube satisfies pointIntersectsFrustum, then
calculateCubeFrustumIntersection does not return OUTSIDE (a cube that has such
a point has a non-negative scale). -/
theorem c18_cube_no_false_rejection (F : ViewFrustum K) (cube : AACube K) (p : Vec3 K)
    (hx : cube.corner.x ≤ p.x ∧ p.x ≤ cube.corner.x + cube.scale)
    (hy : cube.corner.y ≤ p.y ∧ p.y ≤ cube.corner.y + cube.scale)
    (hz : cube.corner.z ≤ p.z ∧ p.z ≤ cube.corner.z + cube.scale)
    (hp : pointIntersectsFrustum F p = true) :
    calculateCubeFrustumIntersection F cube ≠ OUTSIDE := by
  unfold pointIntersectsFrustum at hp
  rw [pointFrustumLoop_eq_true] at hp
  apply cubeFrustumLoop_ne_outside F cube planeIndices INSIDE (by decide)
  intro i hi hfar
  have hpi := hp i hi
  rw [Plane.distance_lt] at hpi hfar
  rcases hfar with hdeg | hlt
  · exact hpi (Or.inl hdeg)
  · apply hpi
    right
    have := farthest_dot_ge cube (F.planes i).normal p hx hy hz
    simp only [Plane.getNormal] at hlt
    linarith

/-- Witness of claim C18: the point (0, 0, -2) of the cube with corner
(0, 0, -2) and edge 5 is in the sample frustum. -/
theorem c18_cube_no_false_rejection_witness :
    (((0 : ℚ) ≤ 0 ∧ (0 : ℚ) ≤ 0 + 5) ∧ ((-2 : ℚ) ≤ -2 ∧ (-2 : ℚ) ≤ -2 + 5) ∧
      pointIntersectsFrustum (sampleFrustum : ViewFrustum ℚ) ⟨0, 0, -2⟩ = true) ∧
    calculateCubeFrustumIntersection (sampleFrustum : ViewFrustum ℚ) ⟨⟨0, 0, -2⟩, 5⟩
      ≠ OUTSIDE :=
  have h0 : (0 : ℚ) ≤ 0 ∧ (0 : ℚ) ≤ 0 + 5 := by norm_num
  have h2 : (-2 : ℚ) ≤ -2 ∧ (-2 : ℚ) ≤ -2 + 5 := by norm_num
  have hp : pointIntersectsFrustum (sampleFrustum : ViewFrustum ℚ) ⟨0, 0, -2⟩ = true := by
    simp only [pointIntersectsFrustum, planeIndices, pointFrustumLoop, Plane.distance_lt,
      sampleFrustum, Vec3.dot]
    norm_num
  ⟨⟨h0, h2, hp⟩,
    c18_cube_no_false_rejection sampleFrustum ⟨⟨0, 0, -2⟩, 5⟩ ⟨0, 0, -2⟩ h0 h0 h2 hp⟩

/-! ### C19: sphere culling has no false rejections -/

/-- Moving a point by a vector of length at most `r` changes its signed distance
to a plane with a unit normal by at most `r`. -/
theorem unit_normal_dot_ge (n c p : Vec3 ℝ) (r : ℝ) (hn : Vec3.dot n n = 1)
    (hpc : Vec3.length realOps (Vec3.sub p c) ≤ r) :
    Vec3.dot n p - r ≤ Vec3.dot n c := by
  have hcs := Vec3.dot_sq_le n (Vec3.sub p c)
  rw [hn, one_mul] at hcs
  have habs : |Vec3.dot n (Vec3.sub p c)| ≤ Real.sqrt (Vec3.dot (Vec3.sub p c) (Vec3.sub p c)) :=
    Real.abs_le_sqrt (by rw [sq]; exact hcs)
  have hle : Vec3.dot n (Vec3.sub p c) ≤ r :=
    le_trans (le_trans (le_abs_self _) habs) hpc
  have hlin : Vec3.dot n (Vec3.sub p c) = Vec3.dot n p - Vec3.dot n c := by
    simp only [Vec3.dot, Vec3.sub]
    ring
  linarith

/-- Claim C19: sphere culling has no false rejections. For a frustum whose
planes have unit normals, if some point within distance r of the centre
satisfies pointIntersectsFrustum then sphereIntersectsFrustum returns true; the
test with radius 0 is pointIntersectsFrustum, and the result is monotone in the
radius. -/
theorem c19_sphere_no_false_rejection (F : ViewFrustum ℝ)
    (hn : ∀ i, Vec3.dot (F.planes i).normal (F.planes i).normal = 1) :
    (∀ (c p : Vec3 ℝ) (r : ℝ), 0 ≤ r → Vec3.length realOps (Vec3.sub p c) ≤ r →
      pointIntersectsFrustum F p = true → sphereIntersectsFrustum F c r = true) ∧
    (∀ c : Vec3 ℝ, sphereIntersectsFrustum F c 0 = pointIntersectsFrustum F c) ∧
    (∀ (c : Vec3 ℝ) (r r' : ℝ), r ≤ r' → sphereIntersectsFrustum F c r = true →
      sphereIntersectsFrustum F c r' = true) := by
  refine ⟨?_, ?_, ?_⟩
  · intro c p r _ hpc hp
    unfold pointIntersectsFrustum at hp
    unfold sphereIntersectsFrustum
    rw [pointFrustumLoop_eq_true] at hp
    rw [sphereFrustumLoop_eq_true]
    intro i hi hlt
    have hpi := hp i hi
    rw [Plane.distance_lt] at hpi hlt
    rcases hlt with hdeg | hlt
    · exact hpi (Or.inl hdeg)
    · apply hpi
      right
      have := unit_normal_dot_ge (F.planes i).normal c p r (hn i) hpc
      linarith
  · intro c
    unfold pointIntersectsFrustum sphereIntersectsFrustum
    rw [Bool.eq_iff_iff, pointFrustumLoop_eq_true, sphereFrustumLoop_eq_true]
    simp only [neg_zero]
  · intro c r r' hr h
    unfold sphereIntersectsFrustum at h ⊢
    rw [sphereFrustumLoop_eq_true] at h ⊢
    intro i hi hlt
    apply h i hi
    rw [Plane.distance_lt] at hlt ⊢
    rcases hlt with hdeg | hlt
    · exact Or.inl hdeg
    · right
      linarith

/-- Witness of claim C19: the sphere of radius 2 around (0, 3, -2), which
contains the point (0, 1, -2) of the sample frustum. -/
theorem c19_sphere_no_false_rejection_witness :
    ((∀ i, Vec3.dot ((sampleFrustum : ViewFrustum ℝ).planes i).normal
        ((sampleFrustum : ViewFrustum ℝ).planes i).normal = 1) ∧
      (0 : ℝ) ≤ 2 ∧
      Vec3.length realOps (Vec3.sub (⟨0, 1, -2⟩ : Vec3 ℝ) ⟨0, 3, -2⟩) ≤ 2 ∧
      pointIntersectsFrustum (sampleFrustum : ViewFrustum ℝ) ⟨0, 1, -2⟩ = true) ∧
    sphereIntersectsFrustum (sampleFrustum : ViewFrustum ℝ) ⟨0, 3, -2⟩ 2 = true :=
  have hn : ∀ i, Vec3.dot ((sampleFrustum : ViewFrustum ℝ).planes i).normal
      ((sampleFrustum : ViewFrustum ℝ).planes i).normal = 1 := by
    intro i
    fin_cases i <;> norm_num [sampleFrustum, Vec3.dot]
  have hr : (0 : ℝ) ≤ 2 := by norm_num
  have hpc : Vec3.length realOps (Vec3.sub (⟨0, 1, -2⟩ : Vec3 ℝ) ⟨0, 3, -2⟩) ≤ 2 := by
    simp only [Vec3.length, realOps, Vec3.sub, Vec3.dot]
    rw [Real.sqrt_le_left (by norm_num)]
    norm_num
  have hp : pointIntersectsFrustum (sampleFrustum : ViewFrustum ℝ) ⟨0, 1, -2⟩ = true := by
    simp only [pointIntersectsFrustum, planeIndices, pointFrustumLoop, Plane.distance_lt,
      sampleFrustum, Vec3.dot]
    norm_num
  ⟨⟨hn, hr, hpc, hp⟩,
    (c19_sphere_no_false_rejection sampleFrustum hn).1 ⟨0, 3, -2⟩ ⟨0, 1, -2⟩ 2 hr hpc hp⟩

/-! ### C20: isVerySimilar is symmetric on unit orientations -/

/-- The function glm::distance is symmetric: both orders take the square root of
the same number. -/
theorem Vec3.distance_comm (m : FloatOps K) (p q : Vec3 K) :
    Vec3.distance m p q = Vec3.distance m q p := by
  have h : Vec3.dot (Vec3.sub q p) (Vec3.sub q p) = Vec3.dot (Vec3.sub p q) (Vec3.sub p q) := by
    simp only [Vec3.dot, Vec3.sub]
    ring
  simp only [Vec3.distance, Vec3.length, h]

/-- For unit quaternions the scalar part of `p * inverse(q)` is the dot product
of `p` and `q`. -/
theorem Quat.mul_inverse_w (p q : Quat K) (hq : Quat.dot q q = 1) :
    (Quat.mul p (Quat.inverse q)).w = Quat.dot p q := by
  simp only [Quat.mul, Quat.inverse, Quat.conjugate, hq]
  simp only [Quat.dot]
  ring

/-- Claim C20: isVerySimilar is symmetric on snapshots with unit-quaternion
orientations, A.isVerySimilar(B) = B.isVerySimilar(A). -/
theorem c20_isVerySimilar_symm (m : FloatOps K) (EPSILON : K) (A B : ViewFrustum K)
    (hA : Quat.dot A.orientation A.orientation = 1)
    (hB : Quat.dot B.orientation B.orientation = 1) :
    isVerySimilar m EPSILON A B = isVerySimilar m EPSILON B A := by
  have hw : (Quat.mul A.orientation (Quat.inverse B.orientation)).w
      = (Quat.mul B.orientation (Quat.inverse A.orientation)).w := by
    rw [Quat.mul_inverse_w _ _ hB, Quat.mul_inverse_w _ _ hA]
    simp only [Quat.dot]
    ring
  have hang : Quat.angle m (Quat.mul A.orientation (Quat.inverse B.orientation))
      = Quat.angle m (Quat.mul B.orientation (Quat.inverse A.orientation)) := by
    simp only [Quat.angle, hw]
  have heq : decide (B.orientation = A.orientation) = decide (A.orientation = B.orientation) := by
    simp only [eq_comm]
  rw [Bool.eq_iff_iff, isVerySimilar_iff, isVerySimilar_iff, Vec3.distance_comm m A.position,
    hang, hw, heq, abs_sub_comm B.fieldOfView, abs_sub_comm B.aspectRatio,
    abs_sub_comm B.nearClip, abs_sub_comm B.farClip, abs_sub_comm B.focalLength]

/-- Witness of claim C20: the sample frustum and the sample frustum moved by 4
along x. -/
theorem c20_isVerySimilar_symm_witness :
    (Quat.dot (sampleFrustum : ViewFrustum ℝ).orientation
        (sampleFrustum : ViewFrustum ℝ).orientation = 1) ∧
    isVerySimilar realOps (1 / 1000000) (sampleFrustum : ViewFrustum ℝ)
        { (sampleFrustum : ViewFrustum ℝ) with position := ⟨4, 0, 0⟩ }
      = isVerySimilar realOps (1 / 1000000)
        { (sampleFrustum : ViewFrustum ℝ) with position := ⟨4, 0, 0⟩ } sampleFrustum :=
  have hq : Quat.dot (sampleFrustum : ViewFrustum ℝ).orientation
      (sampleFrustum : ViewFrustum ℝ).orientation = 1 := by
    norm_num [Quat.dot, sampleFrustum]
  ⟨hq, c20_isVerySimilar_symm realOps (1 / 1000000) sampleFrustum
    { (sampleFrustum : ViewFrustum ℝ) with position := ⟨4, 0, 0⟩ } hq hq⟩

/-! ### C21: computeOffAxisFrustum gives back the parameters of a frustum -/

/-- The depth loop over corners with the depths of `offAxisCorner` returns the
near and the far distance. -/
theorem offAxisDepthLoop_corners (F : ViewFrustum K) (l r b t n f : K)
    (hn : 0 < n) (hnf : n < f) (hmax : n ≤ FLT_MAX)
    (hc : ∀ i, (F.corners i).toVec3 = offAxisCorner l r b t n f i) :
    offAxisDepthLoop F (FLT_MAX, -FLT_MAX) cornerIndices = (n, f) := by
  have hz : ∀ i, (F.corners i).z = (offAxisCorner l r b t n f i).z := fun i =>
    congrArg Vec3.z (hc i)
  have hfn : f / n * -n = -f := by field_simp
  have h1 : min (FLT_MAX : K) n = n := min_eq_right hmax
  have h2 : min n f = n := min_eq_left hnf.le
  have h3 : max (-FLT_MAX : K) n = n := max_eq_right (by linarith)
  have h4 : max n f = f := max_eq_right hnf.le
  simp only [cornerIndices, offAxisDepthLoop, hz, offAxisCorner, Vec3.smul, hfn, neg_neg, h1,
    h2, h3, h4, min_self, max_self]

/-- In the order of the corner indices, the far corner four places after a near
corner of `offAxisCorner` is that near corner scaled by `f / n`, and the near
corner has depth `-n`. -/
theorem offAxisCorner_far (l r b t n f : K) (i : Fin 4) :
    offAxisCorner l r b t n f ⟨i.val + 4, Nat.add_lt_add_right i.isLt 4⟩
      = Vec3.smul (f / n)
          (offAxisCorner l r b t n f ⟨i.val, Nat.lt_of_lt_of_le i.isLt (by decide)⟩) ∧
    (offAxisCorner l r b t n f ⟨i.val, Nat.lt_of_lt_of_le i.isLt (by decide)⟩).z = -n := by
  fin_cases i <;> exact ⟨rfl, rfl⟩

/-- One pass of the extent loop: mixing a near corner with its far corner and
scaling the result to depth `-n` gives back the x and y of the near corner,
whatever the (non-zero) focal length. -/
theorem offAxis_intersection (c c' : Vec4 K) (n f g : K) (hn : n ≠ 0) (hnf : f - n ≠ 0)
    (hg : g ≠ 0) (hz : c.z = -n) (hx : c'.x = f / n * c.x) (hy : c'.y = f / n * c.y)
    (hz' : c'.z = f / n * c.z) :
    (Vec4.smul (Vec4.mix c c' ((g - n) / (f - n)))
        (-n / (Vec4.mix c c' ((g - n) / (f - n))).z)).x = c.x ∧
    (Vec4.smul (Vec4.mix c c' ((g - n) / (f - n)))
        (-n / (Vec4.mix c c' ((g - n) / (f - n))).z)).y = c.y := by
  have hmz : (Vec4.mix c c' ((g - n) / (f - n))).z = -g := by
    simp only [Vec4.mix, Vec4.add, Vec4.smul, hz', hz]
    field_simp
    ring
  have hmx : (Vec4.mix c c' ((g - n) / (f - n))).x = c.x * (g / n) := by
    simp only [Vec4.mix, Vec4.add, Vec4.smul, hx]
    field_simp
    ring
  have hmy : (Vec4.mix c c' ((g - n) / (f - n))).y = c.y * (g / n) := by
    simp only [Vec4.mix, Vec4.add, Vec4.smul, hy]
    field_simp
    ring
  have hs : g / n * (-n / -g) = 1 := by
    field_simp
  constructor
  · show (Vec4.mix c c' ((g - n) / (f - n))).x * (-n / (Vec4.mix c c' ((g - n) / (f - n))).z)
      = c.x
    rw [hmz, hmx, mul_assoc, hs, mul_one]
  · show (Vec4.mix c c' ((g - n) / (f - n))).y * (-n / (Vec4.mix c c' ((g - n) / (f - n))).z)
      = c.y
    rw [hmz, hmy, mul_assoc, hs, mul_one]

/-- The extent loop over corners with the coordinates of `offAxisCorner`
returns the extents of the near rectangle. -/
theorem offAxisExtentLoop_corners (F : ViewFrustum K) (l r b t n f g : K)
    (hlr : l < r) (hbt : b < t) (hn : 0 < n) (hnf : n < f) (hg : g ≠ 0)
    (hl : l ≤ FLT_MAX) (hr : -FLT_MAX ≤ r) (hb : b ≤ FLT_MAX) (ht : -FLT_MAX ≤ t)
    (hc : ∀ i, (F.corners i).toVec3 = offAxisCorner l r b t n f i) :
    offAxisExtentLoop F n ((g - n) / (f - n)) ⟨FLT_MAX, -FLT_MAX, FLT_MAX, -FLT_MAX⟩
      nearCornerIndices = ⟨l, r, b, t⟩ := by
  have key : ∀ i : Fin 4,
      (Vec4.smul (Vec4.mix (F.corners ⟨i.val, Nat.lt_of_lt_of_le i.isLt (by decide)⟩)
          (F.corners ⟨i.val + 4, Nat.add_lt_add_right i.isLt 4⟩) ((g - n) / (f - n)))
        (-n / (Vec4.mix (F.corners ⟨i.val, Nat.lt_of_lt_of_le i.isLt (by decide)⟩)
          (F.corners ⟨i.val + 4, Nat.add_lt_add_right i.isLt 4⟩) ((g - n) / (f - n))).z)).x
        = (offAxisCorner l r b t n f ⟨i.val, Nat.lt_of_lt_of_le i.isLt (by decide)⟩).x ∧
      (Vec4.smul (Vec4.mix (F.corners ⟨i.val, Nat.lt_of_lt_of_le i.isLt (by decide)⟩)
          (F.corners ⟨i.val + 4, Nat.add_lt_add_right i.isLt 4⟩) ((g - n) / (f - n)))
        (-n / (Vec4.mix (F.corners ⟨i.val, Nat.lt_of_lt_of_le i.isLt (by decide)⟩)
          (F.corners ⟨i.val + 4, Nat.add_lt_add_right i.isLt 4⟩) ((g - n) / (f - n))).z)).y
        = (offAxisCorner l r b t n f ⟨i.val, Nat.lt_of_lt_of_le i.isLt (by decide)⟩).y := by
    intro i
    have hnear := hc ⟨i.val, Nat.lt_of_lt_of_le i.isLt (by decide)⟩
    have hfar := hc ⟨i.val + 4, Nat.add_lt_add_right i.isLt 4⟩
    obtain ⟨hscale, hdepth⟩ := offAxisCorner_far l r b t n f i
    rw [hscale, ← hnear] at hfar
    rw [← hnear] at hdepth ⊢
    exact offAxis_intersection _ _ n f g hn.ne' (sub_pos.mpr hnf).ne' hg hdepth
      (congrArg Vec3.x hfar) (congrArg Vec3.y hfar) (congrArg Vec3.z hfar)
  have k0 := key 0
  have k1 := key 1
  have k2 := key 2
  have k3 := key 3
  simp only [nearCornerIndices, offAxisExtentLoop]
  rw [k0.1, k0.2, k1.1, k1.2, k2.1, k2.2, k3.1, k3.2]
  show (⟨min (min (min (min FLT_MAX l) r) r) l, max (max (max (max (-FLT_MAX) l) r) r) l,
    min (min (min (min FLT_MAX b) b) t) t, max (max (max (max (-FLT_MAX) b) b) t) t⟩ :
      Extents K) = ⟨l, r, b, t⟩
  have e1 : min (min (min (min (FLT_MAX : K) l) r) r) l = l := by
    rw [min_eq_right hl, min_eq_left hlr.le, min_eq_left hlr.le, min_self]
  have e2 : max (max (max (max (-FLT_MAX : K) l) r) r) l = r := by
    rw [max_eq_right (max_le hr hlr.le), max_self, max_eq_left hlr.le]
  have e3 : min (min (min (min (FLT_MAX : K) b) b) t) t = b := by
    rw [min_eq_right hb, min_self, min_eq_left hbt.le, min_eq_left hbt.le]
  have e4 : max (max (max (max (-FLT_MAX : K) b) b) t) t = t := by
    rw [max_eq_right (max_le (max_le ht hbt.le) hbt.le), max_self]
  rw [e1, e2, e3, e4]

/-- The value of computeOffAxisFrustum on a state whose clip-frame corners are
those of `offAxisCorner`, whose clip distances are `n` and `f` and whose focal
length is not zero. -/
theorem computeOffAxisFrustum_corners (F : ViewFrustum K) (l r b t n f : K)
    (hlr : l < r) (hbt : b < t) (hn : 1 / 100 ≤ n) (hnf : n < f)
    (hc : ∀ i, (F.corners i).toVec3 = offAxisCorner l r b t n f i)
    (hnear : F.nearClip = n) (hfar : F.farClip = f) (hg : F.focalLength ≠ 0)
    (hl : l ≤ FLT_MAX) (hr : -FLT_MAX ≤ r) (hb : b ≤ FLT_MAX) (ht : -FLT_MAX ≤ t)
    (hmax : n ≤ FLT_MAX) :
    computeOffAxisFrustum F = ⟨l, r, b, t, n, f, ⟨0, 0, -1, -n⟩, ⟨0, 0, 1, f⟩⟩ := by
  have hn0 : 0 < n := lt_of_lt_of_le (by norm_num) hn
  have hd := offAxisDepthLoop_corners F l r b t n f hn0 hnf hmax hc
  have he := offAxisExtentLoop_corners F l r b t n f F.focalLength hlr hbt hn0 hnf hg
    hl hr hb ht hc
  have hz0 : (F.corners 0).z = -n := congrArg Vec3.z (hc 0)
  have hz4 : (F.corners 4).z = -f := by
    have h := congrArg Vec3.z (hc 4)
    have hfn : f / n * -n = -f := by field_simp
    simpa only [Vec4.toVec3, offAxisCorner, Vec3.smul, hfn] using h
  simp only [computeOffAxisFrustum, hd, max_eq_right hn, hnear, hfar, he, Vec4.dot, hz0, hz4,
    zero_mul, one_mul, zero_add, add_zero, neg_zero, neg_neg]

/-- The inverse that glm computes for a matrix of the shape of glm::frustum. -/
theorem frustum_shape_inverse (A B C D E G : K) (hA : A ≠ 0) (hB : B ≠ 0) (hD : D ≠ 0) :
    Mat4.inverse ⟨⟨A, 0, 0, 0⟩, ⟨0, B, 0, 0⟩, ⟨E, G, C, -1⟩, ⟨0, 0, D, 0⟩⟩
      = ⟨⟨1 / A, 0, 0, 0⟩, ⟨0, 1 / B, 0, 0⟩, ⟨0, 0, 0, 1 / D⟩, ⟨E / A, G / B, -1, C / D⟩⟩ := by
  simp only [Mat4.inverse, Vec4.mul, Vec4.add, Vec4.sub, Vec4.smul,
    Mat4.mk.injEq, Vec4.mk.injEq, mul_zero, zero_mul, sub_zero, zero_sub, add_zero, zero_add,
    mul_one, mul_neg, neg_neg, neg_zero, sub_self]
  refine ⟨⟨?_, ?_, ?_, ?_⟩, ⟨?_, ?_, ?_, ?_⟩, ⟨?_, ?_, ?_, ?_⟩, ⟨?_, ?_, ?_, ?_⟩⟩ <;>
    first
    | rfl
    | (field_simp; done)
    | (field_simp; ring)

/-- The clip-frame corners that setProjection derives from the matrix of
glm::frustum are the corners of `offAxisCorner`, with `w = 1`. -/
theorem setProjection_frustum_corners (m : FloatOps K) (F : ViewFrustum K) (l r b t n f : K)
    (hlr : l < r) (hbt : b < t) (hn : 0 < n) (hnf : n < f) (i : Fin NUM_FRUSTUM_CORNERS) :
    (setProjection m F (frustum l r b t n f)).corners i
      = ⟨(offAxisCorner l r b t n f i).x, (offAxisCorner l r b t n f i).y,
          (offAxisCorner l r b t n f i).z, 1⟩ := by
  have hf : 0 < f := lt_trans hn hnf
  have hfn : f - n ≠ 0 := ne_of_gt (sub_pos.mpr hnf)
  have hrl : r - l ≠ 0 := ne_of_gt (sub_pos.mpr hlr)
  have htb : t - b ≠ 0 := ne_of_gt (sub_pos.mpr hbt)
  have hne : n ≠ 0 := ne_of_gt hn
  have hfe : f ≠ 0 := ne_of_gt hf
  have hA : 2 * n / (r - l) ≠ 0 := div_ne_zero (by positivity) hrl
  have hB : 2 * n / (t - b) ≠ 0 := div_ne_zero (by positivity) htb
  have hD : -(2 * f * n) / (f - n) ≠ 0 := by
    apply div_ne_zero _ hfn
    have : 0 < 2 * f * n := by positivity
    linarith
  have hwn : 1 / (-(2 * f * n) / (f - n)) * -1 + -(f + n) / (f - n) / (-(2 * f * n) / (f - n)) * 1
      = 1 / n := by
    field_simp
    ring
  have hwf : 1 / (-(2 * f * n) / (f - n)) * 1 + -(f + n) / (f - n) / (-(2 * f * n) / (f - n)) * 1
      = 1 / f := by
    field_simp
    ring
  have hxl : 1 / (2 * n / (r - l)) * -1 + (r + l) / (r - l) / (2 * n / (r - l)) * 1 = l / n := by
    field_simp
    ring
  have hxr : 1 / (2 * n / (r - l)) * 1 + (r + l) / (r - l) / (2 * n / (r - l)) * 1 = r / n := by
    field_simp
    ring
  have hyb : 1 / (2 * n / (t - b)) * -1 + (t + b) / (t - b) / (2 * n / (t - b)) * 1 = b / n := by
    field_simp
    ring
  have hyt : 1 / (2 * n / (t - b)) * 1 + (t + b) / (t - b) / (2 * n / (t - b)) * 1 = t / n := by
    field_simp
    ring
  have hzn : -1 * 1 / (1 / n) = -n := by
    field_simp
  have hzf : -1 * 1 / (1 / f) = f / n * -n := by
    field_simp
  have hdn : ∀ x : K, x / n / (1 / n) = x := fun x => by
    field_simp
  have hdf : ∀ x : K, x / n / (1 / f) = f / n * x := fun x => by
    field_simp
    ring
  have hdf1 : 1 / f / (1 / f) = 1 := by
    field_simp
  simp only [setProjection, frustum, frustum_shape_inverse _ _ _ _ _ _ hA hB hD]
  fin_cases i <;>
    simp only [NDC_VALUES, Mat4.mulVec, Vec4.divScalar, offAxisCorner, Vec3.smul, zero_mul,
      zero_add, add_zero, hwn, hwf, hxl, hxr, hyb, hyt, hzn, hzf, hdn, hdf, hdf1]

/-- The clip distances that setProjection derives from the matrix of
glm::frustum are its near and far distance. -/
theorem setProjection_frustum_clip (m : FloatOps K) (F : ViewFrustum K) (l r b t n f : K)
    (hlr : l < r) (hbt : b < t) (hn : 0 < n) (hnf : n < f) :
    (setProjection m F (frustum l r b t n f)).nearClip = n ∧
    (setProjection m F (frustum l r b t n f)).farClip = f := by
  have h0 := setProjection_frustum_corners m F l r b t n f hlr hbt hn hnf BOTTOM_LEFT_NEAR
  have h4 := setProjection_frustum_corners m F l r b t n f hlr hbt hn hnf BOTTOM_LEFT_FAR
  have hfn : f / n * -n = -f := by
    field_simp
  constructor
  · show -((setProjection m F (frustum l r b t n f)).corners BOTTOM_LEFT_NEAR).z = n
    rw [h0]
    simp only [offAxisCorner, neg_neg]
  · show -((setProjection m F (frustum l r b t n f)).corners BOTTOM_LEFT_FAR).z = f
    rw [h4]
    simp only [offAxisCorner, Vec3.smul, hfn, neg_neg]

/-- Claim C21: computeOffAxisFrustum round-trips a (possibly asymmetric)
perspective frustum. If the clip-frame corners are those of the frustum with
extents l < r, b < t at the near distance n >= 0.01 and the far distance f > n
(near corners (l|r, b|t, -n), each far corner its near corner scaled by f/n),
nearClip = n, farClip = f and the focal length is not zero, then the outputs are
left = l, right = r, bottom = b, top = t, nearValue = n, farValue = f,
nearClipPlane = (0, 0, -1, -n) and farClipPlane = (0, 0, 1, f), and they do not
change when the focal length is replaced by any other non-zero value. The
bounds by FLT_MAX say that the extents and the near distance are values of the
float type: the loops start from FLT_MAX and -FLT_MAX. -/
theorem c21_computeOffAxisFrustum_round_trip (F : ViewFrustum K) (l r b t n f : K)
    (hlr : l < r) (hbt : b < t) (hn : 1 / 100 ≤ n) (hnf : n < f)
    (hc : ∀ i, (F.corners i).toVec3 = offAxisCorner l r b t n f i)
    (hnear : F.nearClip = n) (hfar : F.farClip = f) (hg : F.focalLength ≠ 0)
    (hl : l ≤ FLT_MAX) (hr : -FLT_MAX ≤ r) (hb : b ≤ FLT_MAX) (ht : -FLT_MAX ≤ t)
    (hmax : n ≤ FLT_MAX) :
    computeOffAxisFrustum F = ⟨l, r, b, t, n, f, ⟨0, 0, -1, -n⟩, ⟨0, 0, 1, f⟩⟩ ∧
    ∀ g : K, g ≠ 0 →
      computeOffAxisFrustum { F with focalLength := g } = computeOffAxisFrustum F := by
  have h := computeOffAxisFrustum_corners F l r b t n f hlr hbt hn hnf hc hnear hfar hg
    hl hr hb ht hmax
  refine ⟨h, fun g hg0 => ?_⟩
  rw [h]
  exact computeOffAxisFrustum_corners { F with focalLength := g } l r b t n f hlr hbt hn hnf
    hc hnear hfar hg0 hl hr hb ht hmax

/-- Claim C21 at a concrete input: the state that setProjection derives from
the matrix of glm::frustum for the extents -1 < 3 and -1 < 2 at the clip
distances 1 and 3, with the focal length 2 of the sample frustum;
computeOffAxisFrustum gives back the six parameters and the two planes. -/
theorem c21_computeOffAxisFrustum_round_trip_witness :
    ((1 / 100 : ℝ) ≤ 1 ∧ (1 : ℝ) < 3 ∧ (1 : ℝ) ≤ FLT_MAX ∧
      (setProjection realOps (sampleFrustum : ViewFrustum ℝ)
        (frustum (-1) 3 (-1) 2 1 3)).focalLength ≠ 0) ∧
    computeOffAxisFrustum
        (setProjection realOps (sampleFrustum : ViewFrustum ℝ) (frustum (-1) 3 (-1) 2 1 3))
      = ⟨-1, 3, -1, 2, 1, 3, ⟨0, 0, -1, -1⟩, ⟨0, 0, 1, 3⟩⟩ :=
  have hfocal : (setProjection realOps (sampleFrustum : ViewFrustum ℝ)
      (frustum (-1) 3 (-1) 2 1 3)).focalLength ≠ 0 := by
    show (2 : ℝ) ≠ 0
    norm_num
  ⟨⟨by norm_num, by norm_num, by norm_num [FLT_MAX], hfocal⟩,
    (c21_computeOffAxisFrustum_round_trip
      (setProjection realOps (sampleFrustum : ViewFrustum ℝ) (frustum (-1) 3 (-1) 2 1 3))
      (-1) 3 (-1) 2 1 3 (by norm_num) (by norm_num) (by norm_num) (by norm_num)
      (fun i => by
        rw [setProjection_frustum_corners realOps sampleFrustum (-1) 3 (-1) 2 1 3 (by norm_num)
          (by norm_num) (by norm_num) (by norm_num) i]
        rfl)
      (setProjection_frustum_clip realOps sampleFrustum (-1) 3 (-1) 2 1 3 (by norm_num)
        (by norm_num) (by norm_num) (by norm_num)).1
      (setProjection_frustum_clip realOps sampleFrustum (-1) 3 (-1) 2 1 3 (by norm_num)
        (by norm_num) (by norm_num) (by norm_num)).2
      hfocal (by norm_num [FLT_MAX]) (by norm_num [FLT_MAX]) (by norm_num [FLT_MAX])
      (by norm_num [FLT_MAX]) (by norm_num [FLT_MAX])).1⟩

end Theorems

end Hifi
